import Mathlib

/-!
# wudoovm: register file, dispatch loop, bytecode encoder and assembler

A shallow embedding of the C++ sources of the wudoo virtual machine
(`src/cpu/cpu.cpp`, `src/cpu/instr/int.cpp`, `src/program.cpp`, `src/program.h`,
`src/front/asm.cpp`) together with theorems about them.

Conventions of the embedding.

* A C++ function that can throw becomes a function into `Res`: it either
  returns a value and a state, throws a message and leaves a state, or runs
  into behaviour the C++ standard leaves undefined (an access outside an
  array, a dereference of a null or dangling pointer, a cast to the wrong
  dynamic type).
* Pointers to heap objects are natural numbers, `0` being the null pointer.
* `int` is a 32-bit two's-complement integer, `bool` and `char` take one byte
  and multi-byte values are stored least significant byte first.
* Debug tracing (the `if (debug)` blocks) is left out.
-/

namespace Wudoo

/-! ## Outcomes -/

/-- The object of a `throw`. Its text can be read by a handler when the operand
is a string literal or an object that owns its characters (`text`). It cannot
when the operand is `oss.str().c_str()`, a pointer into a temporary
`std::string` that is destroyed while the exception is raised: the handler
gets a dangling pointer (`dangling`, with the text the temporary held). -/
inductive Msg where
  | text (s : String)
  | dangling (s : String)
  deriving DecidableEq, Repr

instance : Coe String Msg := ⟨Msg.text⟩

/-- Outcome of running a piece of C++ code in a state of type `σ`:
normal return, a thrown exception, or undefined behaviour. -/
inductive Res (σ α : Type) where
  | ok (a : α) (s : σ)
  | thrown (msg : Msg) (s : σ)
  | undefined

/-- Sequencing: the continuation runs only after a normal return. -/
def Res.bind {σ α β : Type} (r : Res σ α) (f : α → σ → Res σ β) : Res σ β :=
  match r with
  | .ok a s => f a s
  | .thrown msg s => .thrown msg s
  | .undefined => .undefined

/-- Lift a memory access that is defined only inside the allocated block. -/
def Res.ofOption {σ α : Type} (o : Option α) (s : σ) : Res σ α :=
  match o with
  | some a => .ok a s
  | none => .undefined

/-! ## Bytes and machine integers -/

/-- Two's-complement value of an integer truncated to 32 bits. -/
def toInt32 (v : Int) : Int := (v + 2147483648) % 4294967296 - 2147483648

/-- The four bytes of an `int`, least significant byte first. -/
def intBytes (v : Int) : List Nat :=
  [(v % 4294967296).toNat % 256, (v % 4294967296).toNat / 256 % 256,
   (v % 4294967296).toNat / 65536 % 256, (v % 4294967296).toNat / 16777216 % 256]

/-- The `int` stored in four bytes, least significant byte first. -/
def bytesInt : List Nat → Int
  | [b0, b1, b2, b3] => toInt32 ((b0 + 256 * b1 + 65536 * b2 + 16777216 * b3 : Nat) : Int)
  | _ => 0

/-- The byte of a `bool`. -/
def boolByte (b : Bool) : Nat := if b then 1 else 0

/-- Read `len` bytes at offset `pos` of a memory block. -/
def Mem.read (m : List Nat) (pos len : Nat) : Option (List Nat) :=
  if pos + len ≤ m.length then some ((m.drop pos).take len) else none

/-- Store the bytes `bs` at offset `pos` of a memory block. -/
def Mem.write (m : List Nat) (pos : Nat) (bs : List Nat) : Option (List Nat) :=
  if pos + bs.length ≤ m.length then some (m.take pos ++ bs ++ m.drop (pos + bs.length)) else none

/-- Load through a `bool*`: `*((bool*)addr)`. -/
def Mem.readBool (m : List Nat) (pos : Nat) : Option Bool :=
  (Mem.read m pos 1).map fun bs => decide (bs ≠ [0])

/-- Load through an `int*`: `*((int*)addr)`. -/
def Mem.readInt (m : List Nat) (pos : Nat) : Option Int :=
  (Mem.read m pos 4).map bytesInt

/-! ## Objects and the CPU state -/

/-- Dynamic types of the objects a register can point at. -/
inductive ObjType where
  | Integer
  | Byte
  | Boolean
  deriving DecidableEq, Repr

/-- A heap object: an `Integer`, a `Byte` or a `Boolean` with its payload. -/
inductive Object where
  | Integer (value : Int)
  | Byte (value : Int)
  | Boolean (value : Bool)
  deriving DecidableEq, Repr

/-- The `type()` of an object. -/
def Object.type : Object → ObjType
  | .Integer _ => .Integer
  | .Byte _ => .Byte
  | .Boolean _ => .Boolean

/-- State of a `CPU`: loaded bytecode (`none` is the null pointer), its declared
size and entry offset, the register file (`registers[i]` is an object pointer,
`references[i]` the reference flag, both arrays have `reg_count` cells), and
the heap the pointers point into (`next` is the address the next `new` returns). -/
structure CPU where
  bytecode : Option (List Nat)
  bytecode_size : Nat
  executable_offset : Nat
  reg_count : Nat
  registers : Nat → Nat
  references : Nat → Bool
  heap : Nat → Option Object
  next : Nat

/-- `CPU::load`: take ownership of new bytecode. -/
def CPU.load (c : CPU) (bc : Option (List Nat)) : CPU := { c with bytecode := bc }

/-- `CPU::bytes`: set the bytecode size. -/
def CPU.bytes (c : CPU) (sz : Nat) : CPU := { c with bytecode_size := sz % 65536 }

/-- `CPU::eoffset`: set the offset of the first executable instruction. -/
def CPU.eoffset (c : CPU) (o : Nat) : CPU := { c with executable_offset := o % 65536 }

/-- The memory block behind the `bytecode` pointer. -/
def CPU.mem (c : CPU) : List Nat := c.bytecode.getD []

/-- Heap allocation `new T(...)`: a fresh address holding the object. -/
def CPU.new (c : CPU) (o : Object) : Res CPU Nat :=
  .ok c.next { c with heap := Function.update c.heap c.next (some o), next := c.next + 1 }

/-- Deallocation `delete p`. -/
def CPU.delete (c : CPU) (p : Nat) : CPU :=
  { c with heap := Function.update c.heap p none }

/-- Assignment `registers[i] = p` inside the array. -/
def CPU.setRegister (c : CPU) (i : Nat) (p : Nat) : CPU :=
  { c with registers := Function.update c.registers i p }

/-- Assignment `registers[index] = p` for an `int` index: undefined outside the array. -/
def CPU.storeRegister (c : CPU) (index : Int) (p : Nat) : Res CPU Unit :=
  if 0 ≤ index ∧ index < c.reg_count then .ok () (c.setRegister index.toNat p) else .undefined

/-- Array read `registers[index]` for an `int` index: undefined outside the array. -/
def CPU.loadRegister (c : CPU) (index : Int) : Res CPU Nat :=
  if 0 ≤ index ∧ index < c.reg_count then .ok (c.registers index.toNat) c else .undefined

/-- Payload read `static_cast<Integer*>(p)->value()`. -/
def CPU.integerValue (c : CPU) (p : Nat) : Res CPU Int :=
  match c.heap p with
  | some (.Integer v) => .ok v c
  | _ => .undefined

/-- `CPU::fetch`: bounds check, null check, then the pointer in the register.
The only bounds check is `index >= reg_count`. For an empty register the
operand of the `throw` is `oss.str().c_str()`. -/
def CPU.fetch (c : CPU) (index : Int) : Res CPU Nat :=
  if index ≥ c.reg_count then .thrown "register access out of bounds: read" c
  else
    (c.loadRegister index).bind fun optr c =>
    if optr = 0 then .thrown (.dangling ("read from null register: " ++ toString index)) c
    else .ok optr c

/-- The template `copyvalue<T*>(a, b)`: `a->value() = b->value()` after casting both to `T*`. -/
def copyvalue (T : ObjType) (a b : Nat) (c : CPU) : Res CPU Unit :=
  match T, c.heap a, c.heap b with
  | .Integer, some (.Integer _), some (.Integer v) =>
      .ok () { c with heap := Function.update c.heap a (some (.Integer v)) }
  | .Byte, some (.Byte _), some (.Byte v) =>
      .ok () { c with heap := Function.update c.heap a (some (.Byte v)) }
  | .Boolean, some (.Boolean _), some (.Boolean v) =>
      .ok () { c with heap := Function.update c.heap a (some (.Boolean v)) }
  | _, _, _ => .undefined

/-- `CPU::updaterefs`: the loop over all registers replacing `before` by `now`
in every register marked as a reference. -/
def CPU.updaterefs (c : CPU) (before now : Nat) : CPU :=
  (List.range c.reg_count).foldl
    (fun c i => if c.registers i = before ∧ c.references i = true then c.setRegister i now else c) c

/-- `CPU::hasrefs`: does another register hold the same pointer as `registers[index]`. -/
def CPU.hasrefs (c : CPU) (index : Nat) : Bool :=
  (List.range c.reg_count).any fun i => decide (i ≠ index) && decide (c.registers i = c.registers index)

/-- `CPU::place`. -/
def CPU.place (c : CPU) (index : Int) (obj : Nat) : Res CPU Unit :=
  if index ≥ c.reg_count then .thrown "register access out of bounds: write" c
  else if index < 0 then .undefined
  else
    let c1 := if c.registers index.toNat ≠ 0 ∧ c.references index.toNat = false
      then c.delete (c.registers index.toNat) else c
    if c1.references index.toNat = true then
      (c1.fetch index).bind fun referenced c2 =>
      (match (c2.heap referenced).map Object.type with
        | none => Res.undefined
        | some .Integer => copyvalue .Integer referenced obj c2
        | some .Byte => copyvalue .Byte referenced obj c2
        | some .Boolean => Res.ok () c2).bind fun _ c3 =>
      .ok () (c3.delete obj)
    else
      let old_ref_ptr := if c1.hasrefs index.toNat then c1.registers index.toNat else 0
      let c2 := c1.setRegister index.toNat obj
      .ok () (if old_ref_ptr ≠ 0 then c2.updaterefs old_ref_ptr obj else c2)

/-! ## Opcodes and the opcode tables -/

/-- Modelled from the spec: the enumeration `OPCODE` of `bytecode/opcodes.h`, a
file that is not among the sources. It is the closed set of section 3 of the
specification, in the order in which that section lists it. -/
inductive OPCODE where
  | ISTORE
  | IADD
  | ISUB
  | IMUL
  | IDIV
  | IINC
  | IDEC
  | ILT
  | ILTE
  | IGT
  | IGTE
  | IEQ
  | BSTORE
  | NOT
  | AND
  | OR
  | MOVE
  | COPY
  | REF
  | SWAP
  | DELETE
  | PRINT
  | ECHO
  | JUMP
  | BRANCH
  | RET
  | HALT
  | PASS
  deriving DecidableEq, Repr

/-- Modelled from the spec: the one-byte tag of an opcode. The specification
fixes no numbering; the tags follow the order of the enumeration. -/
def OPCODE.toByte : OPCODE → Nat
  | .ISTORE => 0
  | .IADD => 1
  | .ISUB => 2
  | .IMUL => 3
  | .IDIV => 4
  | .IINC => 5
  | .IDEC => 6
  | .ILT => 7
  | .ILTE => 8
  | .IGT => 9
  | .IGTE => 10
  | .IEQ => 11
  | .BSTORE => 12
  | .NOT => 13
  | .AND => 14
  | .OR => 15
  | .MOVE => 16
  | .COPY => 17
  | .REF => 18
  | .SWAP => 19
  | .DELETE => 20
  | .PRINT => 21
  | .ECHO => 22
  | .JUMP => 23
  | .BRANCH => 24
  | .RET => 25
  | .HALT => 26
  | .PASS => 27

/-- The conversion `OPCODE(b)` of a byte, defined on the tags of the enumeration. -/
def OPCODE.ofByte : Nat → Option OPCODE
  | 0 => some .ISTORE
  | 1 => some .IADD
  | 2 => some .ISUB
  | 3 => some .IMUL
  | 4 => some .IDIV
  | 5 => some .IINC
  | 6 => some .IDEC
  | 7 => some .ILT
  | 8 => some .ILTE
  | 9 => some .IGT
  | 10 => some .IGTE
  | 11 => some .IEQ
  | 12 => some .BSTORE
  | 13 => some .NOT
  | 14 => some .AND
  | 15 => some .OR
  | 16 => some .MOVE
  | 17 => some .COPY
  | 18 => some .REF
  | 19 => some .SWAP
  | 20 => some .DELETE
  | 21 => some .PRINT
  | 22 => some .ECHO
  | 23 => some .JUMP
  | 24 => some .BRANCH
  | 25 => some .RET
  | 26 => some .HALT
  | 27 => some .PASS
  | _ => none

/-- Modelled from the spec: the table `OP_NAMES` of `bytecode/maps.h` (not among
the sources), from an opcode to its assembly mnemonic. -/
def OP_NAMES : OPCODE → String
  | .ISTORE => "istore"
  | .IADD => "iadd"
  | .ISUB => "isub"
  | .IMUL => "imul"
  | .IDIV => "idiv"
  | .IINC => "iinc"
  | .IDEC => "idec"
  | .ILT => "ilt"
  | .ILTE => "ilte"
  | .IGT => "igt"
  | .IGTE => "igte"
  | .IEQ => "ieq"
  | .BSTORE => "bstore"
  | .NOT => "not"
  | .AND => "and"
  | .OR => "or"
  | .MOVE => "move"
  | .COPY => "copy"
  | .REF => "ref"
  | .SWAP => "swap"
  | .DELETE => "delete"
  | .PRINT => "print"
  | .ECHO => "echo"
  | .JUMP => "jump"
  | .BRANCH => "branch"
  | .RET => "ret"
  | .HALT => "halt"
  | .PASS => "pass"

/-- Modelled from the spec: the table `OP_SIZES` of `bytecode/maps.h` (not among
the sources), from a mnemonic to the encoded size of its instruction: one tag
byte, five bytes for each integer operand, two for a byte operand, four for a
raw jump address (section 4.1 of the specification). For `delete`, whose
operands section 4.1 leaves open, it is the single integer operand that
section 9 prescribes, which is what the call `del(instr_ptr+1)` of the
dispatch loop is handed. -/
def OP_SIZES (name : String) : Option Nat :=
  if name = "istore" then some 11
  else if name = "iadd" then some 16
  else if name = "isub" then some 16
  else if name = "imul" then some 16
  else if name = "idiv" then some 16
  else if name = "iinc" then some 6
  else if name = "idec" then some 6
  else if name = "ilt" then some 16
  else if name = "ilte" then some 16
  else if name = "igt" then some 16
  else if name = "igte" then some 16
  else if name = "ieq" then some 16
  else if name = "bstore" then some 8
  else if name = "not" then some 6
  else if name = "and" then some 16
  else if name = "or" then some 16
  else if name = "move" then some 11
  else if name = "copy" then some 11
  else if name = "ref" then some 11
  else if name = "swap" then some 11
  else if name = "delete" then some 6
  else if name = "print" then some 6
  else if name = "echo" then some 6
  else if name = "jump" then some 5
  else if name = "branch" then some 14
  else if name = "ret" then some 6
  else if name = "halt" then some 1
  else if name = "pass" then some 1
  else none

/-! ## Instruction handlers (`src/cpu/instr/int.cpp`) -/

/-- Operand read `*((bool*)addr)` from the loaded bytecode. -/
def CPU.readBool (c : CPU) (addr : Nat) : Res CPU Bool :=
  Res.ofOption (Mem.readBool c.mem addr) c

/-- Operand read `*((int*)addr)` from the loaded bytecode. -/
def CPU.readInt (c : CPU) (addr : Nat) : Res CPU Int :=
  Res.ofOption (Mem.readInt c.mem addr) c

/-- The step `static_cast<Integer*>(fetch(reg))->value()`. -/
def CPU.fetchInteger (c : CPU) (reg : Int) : Res CPU Int :=
  (c.fetch reg).bind fun p c => c.integerValue p

/-- The step `static_cast<Integer*>(registers[reg])->value()`, without `fetch`. -/
def CPU.rawInteger (c : CPU) (reg : Int) : Res CPU Int :=
  (c.loadRegister reg).bind fun p c => c.integerValue p

/-- `CPU::istore`: decode two integer operands, resolve the indirections and
store a new `Integer` in the target register. The result is the address after
the operands. -/
def CPU.istore (c : CPU) (addr : Nat) : Res CPU Nat :=
  (c.readBool addr).bind fun reg_ref c =>
  (c.readInt (addr + 1)).bind fun reg c =>
  (c.readBool (addr + 5)).bind fun num_ref c =>
  (c.readInt (addr + 6)).bind fun num c =>
  (if reg_ref then c.fetchInteger reg else Res.ok reg c).bind fun reg c =>
  (if num_ref then c.fetchInteger num else Res.ok num c).bind fun num c =>
  (c.new (.Integer num)).bind fun obj c =>
  (c.storeRegister reg obj).bind fun _ c =>
  .ok (addr + 10) c

/-- `CPU::ilt`: decode three integer operands, resolve the indirections, compare
and store a new `Boolean` in the result register. -/
def CPU.ilt (c : CPU) (addr : Nat) : Res CPU Nat :=
  (c.readBool addr).bind fun rega_ref c =>
  (c.readInt (addr + 1)).bind fun rega_num c =>
  (c.readBool (addr + 5)).bind fun regb_ref c =>
  (c.readInt (addr + 6)).bind fun regb_num c =>
  (c.readBool (addr + 10)).bind fun regr_ref c =>
  (c.readInt (addr + 11)).bind fun regr_num c =>
  (if rega_ref then c.rawInteger rega_num else Res.ok rega_num c).bind fun rega_num c =>
  (if regb_ref then c.rawInteger regb_num else Res.ok regb_num c).bind fun regb_num c =>
  (if regr_ref then c.rawInteger rega_num else Res.ok rega_num c).bind fun rega_num c =>
  (c.fetchInteger rega_num).bind fun rega_num c =>
  (c.fetchInteger regb_num).bind fun regb_num c =>
  (c.new (.Boolean (decide (rega_num < regb_num)))).bind fun obj c =>
  (c.storeRegister regr_num obj).bind fun _ c =>
  .ok (addr + 15) c

/-- The step `++(static_cast<Integer*>(p)->value())`. -/
def CPU.incrementInteger (c : CPU) (p : Nat) : Res CPU Unit :=
  match c.heap p with
  | some (.Integer v) => .ok () { c with heap := Function.update c.heap p (some (.Integer (toInt32 (v + 1)))) }
  | _ => .undefined

/-- `CPU::iinc`: decode one integer operand, resolve the indirection and
increment the `Integer` in place. -/
def CPU.iinc (c : CPU) (addr : Nat) : Res CPU Nat :=
  (c.readBool addr).bind fun ref c =>
  (c.readInt (addr + 1)).bind fun regno c =>
  (if ref then c.fetchInteger regno else Res.ok regno c).bind fun regno c =>
  (c.fetch regno).bind fun p c =>
  (c.incrementInteger p).bind fun _ c =>
  .ok (addr + 5) c

/-! ## The dispatch loop (`CPU::run`) -/

/-- Handlers that `CPU::run` calls but whose definitions are not among the
sources (`iadd`, `jump`, `branch`, `print`, ...): a parameter of the loop,
giving for an opcode the handler from the address after the tag to the next
instruction pointer. -/
abbrev Handlers := OPCODE → CPU → Nat → Res CPU Nat

/-- One pass through the `switch`: read the byte at the instruction pointer and
run its case. The result is the new instruction pointer and the `halt` flag. -/
def CPU.dispatch (ext : Handlers) (c : CPU) (instr_ptr : Nat) : Res CPU (Nat × Bool) :=
  (Res.ofOption c.mem[instr_ptr]? c).bind fun b c =>
  match OPCODE.ofByte b with
  | some .ISTORE => (c.istore (instr_ptr + 1)).bind fun a c => .ok (a, false) c
  | some .ILT => (c.ilt (instr_ptr + 1)).bind fun a c => .ok (a, false) c
  | some .IINC => (c.iinc (instr_ptr + 1)).bind fun a c => .ok (a, false) c
  | some .HALT => .ok (instr_ptr, true) c
  | some .PASS => .ok (instr_ptr + 1, false) c
  | some op => (ext op c (instr_ptr + 1)).bind fun a c => .ok (a, false) c
  | none =>
    (c.readInt 0).bind fun v c =>
    .thrown (.dangling ("unrecognised instruction (bytecode value: " ++ toString v ++ ")")) c

/-- How the `while (true)` loop of `CPU::run` was left. -/
inductive LoopExit where
  | exception (msg : Msg)
  | halted
  | outOfBounds
  deriving DecidableEq, Repr

/-- The `while (true)` loop of `CPU::run`, cut off after `fuel` iterations
(`none`). An exception of a handler is caught and ends the loop; so do `halt`
and an instruction pointer at or past `bytecode + bytecode_size`. -/
def CPU.runLoop (ext : Handlers) : Nat → CPU → Nat → Option (Res CPU LoopExit)
  | 0, _, _ => none
  | fuel + 1, c, instr_ptr =>
    match c.dispatch ext instr_ptr with
    | .undefined => some .undefined
    | .thrown msg c1 => some (.ok (.exception msg) c1)
    | .ok (next_ptr, halt) c1 =>
      if halt then some (.ok .halted c1)
      else if next_ptr ≥ c1.bytecode_size then some (.ok .outOfBounds c1)
      else CPU.runLoop ext fuel c1 next_ptr

/-- The value of `return_code` when the loop is left. -/
def LoopExit.return_code : LoopExit → Int
  | .halted => 0
  | .exception _ => 1
  | .outOfBounds => 1

/-- `CPU::run`: `none` when the loop is still running after `fuel` iterations. -/
def CPU.run (ext : Handlers) (fuel : Nat) (c : CPU) : Option (Res CPU Int) :=
  match c.bytecode with
  | none => some (.thrown "null bytecode (maybe not loaded?)" c)
  | some _ =>
    match c.runLoop ext fuel c.executable_offset with
    | none => none
    | some r => some (r.bind fun exit c1 =>
        if exit.return_code = 0 then
          (c1.loadRegister 0).bind fun p c2 =>
          if p ≠ 0 then c2.integerValue p else .ok exit.return_code c2
        else .ok exit.return_code c1)

/-! ## The bytecode encoder (`src/program.h`, `src/program.cpp`) -/

/-- An integer operand: the indirection flag and the value. -/
abbrev int_op := Bool × Int

/-- A byte operand: the indirection flag and the byte. -/
abbrev byte_op := Bool × Int

/-- State of a `Program`: the buffer `program` of `bytes` bytes, the write cursor
`addr_ptr` and the recorded positions `branches`, the last two as offsets from
the start of the buffer. -/
structure Program where
  program : List Nat
  bytes : Nat
  addr_ptr : Nat
  branches : List Nat
  deriving DecidableEq, Repr

/-- The constructor `Program(bts)`: a buffer of `bts` bytes, all `PASS`, cursor at the start. -/
def Program.new (bts : Nat) : Program :=
  { program := List.replicate bts OPCODE.PASS.toByte, bytes := bts, addr_ptr := 0, branches := [] }

/-- A store through a pointer into a memory block: undefined outside the block. -/
def Mem.store (m : List Nat) (pos : Nat) (bs : List Nat) : Res (List Nat) Unit :=
  match Mem.write m pos bs with
  | some m1 => .ok () m1
  | none => .undefined

/-- `insertIntegerOperand`: the flag byte and the four bytes of the value; the
result is the pointer after them. -/
def insertIntegerOperand (addr_ptr : Nat) (op : int_op) (m : List Nat) : Res (List Nat) Nat :=
  (Mem.store m addr_ptr [boolByte op.1]).bind fun _ m =>
  (Mem.store m (addr_ptr + 1) (intBytes op.2)).bind fun _ m =>
  .ok (addr_ptr + 5) m

/-- `insertTwoIntegerOpsInstruction`. -/
def insertTwoIntegerOpsInstruction (addr_ptr : Nat) (instruction : OPCODE) (a b : int_op)
    (m : List Nat) : Res (List Nat) Nat :=
  (Mem.store m addr_ptr [instruction.toByte]).bind fun _ m =>
  (insertIntegerOperand (addr_ptr + 1) a m).bind fun addr_ptr m =>
  insertIntegerOperand addr_ptr b m

/-- `insertThreeIntegerOpsInstruction`. -/
def insertThreeIntegerOpsInstruction (addr_ptr : Nat) (instruction : OPCODE) (a b c : int_op)
    (m : List Nat) : Res (List Nat) Nat :=
  (Mem.store m addr_ptr [instruction.toByte]).bind fun _ m =>
  (insertIntegerOperand (addr_ptr + 1) a m).bind fun addr_ptr m =>
  (insertIntegerOperand addr_ptr b m).bind fun addr_ptr m =>
  insertIntegerOperand addr_ptr c m

/-- The instruction with one integer operand written in line by `iinc`, `idec`,
`lognot`, `print`, `echo` and `ret`: `*(addr_ptr++) = op; addr_ptr = insertIntegerOperand(addr_ptr, reg)`. -/
def insertOneIntegerOp (addr_ptr : Nat) (instruction : OPCODE) (a : int_op)
    (m : List Nat) : Res (List Nat) Nat :=
  (Mem.store m addr_ptr [instruction.toByte]).bind fun _ m =>
  insertIntegerOperand (addr_ptr + 1) a m

/-- Assign the buffer and the pointer a helper returns to the members of the program. -/
def Program.assign (p : Program) (r : Res (List Nat) Nat) : Res Program Unit :=
  match r with
  | .ok a m => .ok () { p with program := m, addr_ptr := a }
  | .thrown msg m => .thrown msg { p with program := m }
  | .undefined => .undefined

/-- `Program::istore`. -/
def Program.istore (p : Program) (regno i : int_op) : Res Program Unit :=
  p.assign (insertTwoIntegerOpsInstruction p.addr_ptr .ISTORE regno i p.program)

/-- `Program::iadd`. -/
def Program.iadd (p : Program) (rega regb regr : int_op) : Res Program Unit :=
  p.assign (insertThreeIntegerOpsInstruction p.addr_ptr .IADD rega regb regr p.program)

/-- `Program::isub`. -/
def Program.isub (p : Program) (rega regb regr : int_op) : Res Program Unit :=
  p.assign (insertThreeIntegerOpsInstruction p.addr_ptr .ISUB rega regb regr p.program)

/-- `Program::imul`. -/
def Program.imul (p : Program) (rega regb regr : int_op) : Res Program Unit :=
  p.assign (insertThreeIntegerOpsInstruction p.addr_ptr .IMUL rega regb regr p.program)

/-- `Program::idiv`. -/
def Program.idiv (p : Program) (rega regb regr : int_op) : Res Program Unit :=
  p.assign (insertThreeIntegerOpsInstruction p.addr_ptr .IDIV rega regb regr p.program)

/-- `Program::iinc`. -/
def Program.iinc (p : Program) (regno : int_op) : Res Program Unit :=
  p.assign (insertOneIntegerOp p.addr_ptr .IINC regno p.program)

/-- `Program::idec`. -/
def Program.idec (p : Program) (regno : int_op) : Res Program Unit :=
  p.assign (insertOneIntegerOp p.addr_ptr .IDEC regno p.program)

/-- `Program::ilt`. -/
def Program.ilt (p : Program) (rega regb regr : int_op) : Res Program Unit :=
  p.assign (insertThreeIntegerOpsInstruction p.addr_ptr .ILT rega regb regr p.program)

/-- `Program::ilte`. -/
def Program.ilte (p : Program) (rega regb regr : int_op) : Res Program Unit :=
  p.assign (insertThreeIntegerOpsInstruction p.addr_ptr .ILTE rega regb regr p.program)

/-- `Program::igt`. -/
def Program.igt (p : Program) (rega regb regr : int_op) : Res Program Unit :=
  p.assign (insertThreeIntegerOpsInstruction p.addr_ptr .IGT rega regb regr p.program)

/-- `Program::igte`. -/
def Program.igte (p : Program) (rega regb regr : int_op) : Res Program Unit :=
  p.assign (insertThreeIntegerOpsInstruction p.addr_ptr .IGTE rega regb regr p.program)

/-- `Program::ieq`. -/
def Program.ieq (p : Program) (rega regb regr : int_op) : Res Program Unit :=
  p.assign (insertThreeIntegerOpsInstruction p.addr_ptr .IEQ rega regb regr p.program)

/-- `Program::bstore`: the tag, the register operand, the flag byte and the byte. -/
def Program.bstore (p : Program) (regno : int_op) (b : byte_op) : Res Program Unit :=
  p.assign (
    (Mem.store p.program p.addr_ptr [OPCODE.BSTORE.toByte]).bind fun _ m =>
    (insertIntegerOperand (p.addr_ptr + 1) regno m).bind fun addr_ptr m =>
    (Mem.store m addr_ptr [boolByte b.1]).bind fun _ m =>
    (Mem.store m (addr_ptr + 1) [(b.2 % 256).toNat]).bind fun _ m =>
    .ok (addr_ptr + 2) m)

/-- `Program::lognot`. -/
def Program.lognot (p : Program) (reg : int_op) : Res Program Unit :=
  p.assign (insertOneIntegerOp p.addr_ptr .NOT reg p.program)

/-- `Program::logand`. -/
def Program.logand (p : Program) (rega regb regr : int_op) : Res Program Unit :=
  p.assign (insertThreeIntegerOpsInstruction p.addr_ptr .AND rega regb regr p.program)

/-- `Program::logor`. -/
def Program.logor (p : Program) (rega regb regr : int_op) : Res Program Unit :=
  p.assign (insertThreeIntegerOpsInstruction p.addr_ptr .OR rega regb regr p.program)

/-- `Program::move`. -/
def Program.move (p : Program) (a b : int_op) : Res Program Unit :=
  p.assign (insertTwoIntegerOpsInstruction p.addr_ptr .MOVE a b p.program)

/-- `Program::copy`. -/
def Program.copy (p : Program) (a b : int_op) : Res Program Unit :=
  p.assign (insertTwoIntegerOpsInstruction p.addr_ptr .COPY a b p.program)

/-- `Program::ref`. -/
def Program.ref (p : Program) (a b : int_op) : Res Program Unit :=
  p.assign (insertTwoIntegerOpsInstruction p.addr_ptr .REF a b p.program)

/-- `Program::swap`. -/
def Program.swap (p : Program) (a b : int_op) : Res Program Unit :=
  p.assign (insertTwoIntegerOpsInstruction p.addr_ptr .SWAP a b p.program)

/-- `Program::print`. -/
def Program.print (p : Program) (reg : int_op) : Res Program Unit :=
  p.assign (insertOneIntegerOp p.addr_ptr .PRINT reg p.program)

/-- `Program::echo`. -/
def Program.echo (p : Program) (reg : int_op) : Res Program Unit :=
  p.assign (insertOneIntegerOp p.addr_ptr .ECHO reg p.program)

/-- `Program::jump`: record the position of the tag, then the tag and the raw
instruction index. -/
def Program.jump (p : Program) (addr : Int) : Res Program Unit :=
  { p with branches := p.branches ++ [p.addr_ptr] }.assign (
    (Mem.store p.program p.addr_ptr [OPCODE.JUMP.toByte]).bind fun _ m =>
    (Mem.store m (p.addr_ptr + 1) (intBytes addr)).bind fun _ m =>
    .ok (p.addr_ptr + 5) m)

/-- `Program::branch`: record the position of the tag, then the tag, the
condition operand and the two raw instruction indices. -/
def Program.branch (p : Program) (regc : int_op) (addr_truth addr_false : Int) : Res Program Unit :=
  { p with branches := p.branches ++ [p.addr_ptr] }.assign (
    (Mem.store p.program p.addr_ptr [OPCODE.BRANCH.toByte]).bind fun _ m =>
    (insertIntegerOperand (p.addr_ptr + 1) regc m).bind fun addr_ptr m =>
    (Mem.store m addr_ptr (intBytes addr_truth)).bind fun _ m =>
    (Mem.store m (addr_ptr + 4) (intBytes addr_false)).bind fun _ m =>
    .ok (addr_ptr + 8) m)

/-- `Program::ret`. -/
def Program.ret (p : Program) (reg : int_op) : Res Program Unit :=
  p.assign (insertOneIntegerOp p.addr_ptr .RET reg p.program)

/-- `Program::pass`. -/
def Program.pass (p : Program) : Res Program Unit :=
  p.assign ((Mem.store p.program p.addr_ptr [OPCODE.PASS.toByte]).bind fun _ m => .ok (p.addr_ptr + 1) m)

/-- `Program::halt`. -/
def Program.halt (p : Program) : Res Program Unit :=
  p.assign ((Mem.store p.program p.addr_ptr [OPCODE.HALT.toByte]).bind fun _ m => .ok (p.addr_ptr + 1) m)

/-- `Program::bytecode`: a copy of the first `bytes` bytes of the buffer. -/
def Program.bytecode (p : Program) : Res Program (List Nat) :=
  Res.ofOption (Mem.read p.program 0 p.bytes) p

/-- `Program::size`. -/
def Program.size (p : Program) : Nat := p.bytes

/-- The amount the `switch` of `instructionCount` adds to `i` for the byte under it. -/
def instructionCountSkip (b : Nat) : Nat :=
  match OPCODE.ofByte b with
  | some .IADD | some .ISUB | some .IMUL | some .IDIV | some .ILT | some .ILTE
  | some .IGT | some .IGTE | some .IEQ | some .BRANCH => 12
  | some .ISTORE => 8
  | some .IINC | some .IDEC | some .PRINT | some .JUMP | some .RET => 4
  | _ => 0

/-- The `for` loop of `Program::instructionCount` from index `i` with the counter
at `counter`. Every iteration advances `i`, so `bytes` iterations are enough
and the first argument bounds them. -/
def Program.instructionCountLoop (p : Program) : Nat → Nat → Nat → Res Program Nat
  | 0, _, counter => .ok counter p
  | fuel + 1, i, counter =>
    if i < p.bytes then
      (Res.ofOption p.program[i]? p).bind fun b _ =>
      Program.instructionCountLoop p fuel (i + instructionCountSkip b + 1) (counter + 1)
    else .ok counter p

/-- `Program::instructionCount`. -/
def Program.instructionCount (p : Program) : Res Program Nat :=
  p.instructionCountLoop p.bytes 0 0

/-- The `for` loop of `Program::getInstructionBytecodeOffset`: the first argument
is the number of iterations left, the second the current `offset`. -/
def Program.offsetLoop (p : Program) : Nat → Nat → Res Program Nat
  | 0, offset => .ok offset p
  | n + 1, offset =>
    (Res.ofOption p.program[offset]? p).bind fun b _ =>
    match OPCODE.ofByte b with
    | none => .thrown "map::at" p
    | some opcode =>
      match OP_SIZES (OP_NAMES opcode) with
      | none => .thrown "map::at" p
      | some inc =>
        if offset + inc + 1 > p.bytes then
          .thrown "instruction offset out of bounds: check your branches" p
        else Program.offsetLoop p n (offset + inc)

/-- `Program::getInstructionBytecodeOffset(instr, count)`. -/
def Program.getInstructionBytecodeOffset (p : Program) (instr count : Int) : Res Program Nat :=
  (if count ≥ 0 then Res.ok count p
   else p.instructionCount.bind fun n p => .ok (n : Int) p).bind fun count p =>
  p.offsetLoop (if instr ≥ 0 then instr else count + instr).toNat 0

/-- The assignment `(*ptr) = getInstructionBytecodeOffset(*ptr, instruction_count)`
for the `int` at offset `pos` of the buffer. -/
def Program.patchAddress (p : Program) (pos : Nat) (instruction_count : Int) : Res Program Unit :=
  (Res.ofOption (Mem.readInt p.program pos) p).bind fun instr p =>
  (p.getInstructionBytecodeOffset instr instruction_count).bind fun offset p =>
  match Mem.write p.program pos (intBytes offset) with
  | some m => .ok () { p with program := m }
  | none => .undefined

/-- The loop of `Program::calculateBranches` over the recorded positions. For a
`JUMP` the address is the `int` after the tag; for a `BRANCH` the two addresses
follow the tag, the flag byte and the `int` of the condition operand. -/
def Program.calculateBranchesLoop (instruction_count : Int) : List Nat → Program → Res Program Unit
  | [], p => .ok () p
  | b :: rest, p =>
    (Res.ofOption p.program[b]? p).bind fun tag p =>
    (if tag = OPCODE.JUMP.toByte then p.patchAddress (b + 1) instruction_count
     else if tag = OPCODE.BRANCH.toByte then
       (p.patchAddress (b + 6) instruction_count).bind fun _ p =>
       p.patchAddress (b + 10) instruction_count
     else Res.ok () p).bind fun _ p =>
    Program.calculateBranchesLoop instruction_count rest p

/-- `Program::calculateBranches`. -/
def Program.calculateBranches (p : Program) : Res Program Unit :=
  p.instructionCount.bind fun instruction_count p =>
  Program.calculateBranchesLoop instruction_count p.branches p

/-! ## The assembler (`src/front/asm.cpp`) -/

/-- Lift a pure computation that can throw a message. -/
def Res.ofExcept {σ α : Type} (e : Except String α) (s : σ) : Res σ α :=
  match e with
  | .ok a => .ok a s
  | .error msg => .thrown msg s

namespace str

/-- Modelled from the spec: the whitespace that separates tokens (`support/string.h`
is not among the sources): space, tab, newline and vertical tab. -/
def isWhitespace (c : Char) : Bool := c == ' ' || c == '\t' || c == '\n' || c == '\x0b'

/-- Modelled from the spec: `str::lstrip` of `support/string.h` (not among the
sources) strips leading whitespace. -/
def lstrip (s : String) : String := String.mk (s.data.dropWhile isWhitespace)

/-- Modelled from the spec: `str::chunk` of `support/string.h` (not among the
sources) is the first whitespace-delimited token. -/
def chunk (s : String) : String :=
  String.mk ((s.data.dropWhile isWhitespace).takeWhile fun c => !isWhitespace c)

/-- Modelled from the spec: `str::sub(s, b)` of `support/string.h` (not among the
sources) is the remainder of `s` from position `b`. -/
def sub (s : String) (b : Nat) : String := String.mk (s.data.drop b)

/-- Modelled from the spec: `str::startswith(s, w)` of `support/string.h` (not
among the sources): the line begins with `w`. -/
def startswith (s w : String) : Bool := w.data.isPrefixOf s.data

/-- Modelled from the spec: `str::startswithchunk(s, w)` of `support/string.h` (not
among the sources): the first token of `s` is `w`. -/
def startswithchunk (s w : String) : Bool := decide (chunk s = w)

/-- Modelled from the spec: `str::isnum` of `support/string.h` (not among the
sources): the token is a decimal integer, a non-empty run of digits. -/
def isnum (s : String) : Bool := !s.data.isEmpty && s.data.all Char.isDigit

end str

/-- The two exceptions of `std::stoi`. -/
inductive StoiError where
  | invalid_argument
  | out_of_range
  deriving DecidableEq, Repr

/-- The value of a run of decimal digits. -/
def digitsValue (ds : List Char) : Nat := ds.foldl (fun a d => 10 * a + (d.toNat - 48)) 0

/-- The whitespace `std::stoi` skips (`isspace`). -/
def isspace (c : Char) : Bool :=
  c == ' ' || c == '\t' || c == '\n' || c == '\x0b' || c == '\x0c' || c == '\r'

/-- The function `std::stoi` of the C++ library: skip whitespace, read an optional
sign and the longest run of decimal digits, ignore what follows. -/
def stoi (s : String) : Except StoiError Int :=
  let cs := s.data.dropWhile isspace
  let neg := decide (cs.head? = some '-')
  let body := match cs with
    | '-' :: r => r
    | '+' :: r => r
    | _ => cs
  let ds := body.takeWhile Char.isDigit
  if ds.isEmpty then .error .invalid_argument
  else
    let v : Int := if neg then -(digitsValue ds : Int) else (digitsValue ds : Int)
    if v < -2147483648 ∨ v > 2147483647 then .error .out_of_range else .ok v

/-- A call of `std::stoi` whose exceptions are not caught on the spot: both carry
the message `stoi`. -/
def stoiThrow (s : String) : Except String Int :=
  match stoi s with
  | .ok v => .ok v
  | .error _ => .error "stoi"

/-- `getint_op`. -/
def getint_op (s : String) : Except String int_op :=
  let ref := decide (s.data.head? = some '@')
  match stoiThrow (if ref then str.sub s 1 else s) with
  | .ok v => .ok (ref, v)
  | .error msg => .error msg

/-- The conversion `(char)` of an `int`. -/
def toInt8 (v : Int) : Int := (v + 128) % 256 - 128

/-- `getbyte_op`. -/
def getbyte_op (s : String) : Except String byte_op :=
  let ref := decide (s.data.head? = some '@')
  match stoiThrow (if ref then str.sub s 1 else s) with
  | .ok v => .ok (ref, toInt8 v)
  | .error msg => .error msg

/-- `getilines`: strip the lines, drop the empty ones and the comments. -/
def getilines (lines : List String) : List String :=
  (lines.map str.lstrip).filter fun line => !(line.data.isEmpty || line.data.head? = some ';')

/-- The loop of `countBytes` with the value of `bytes`, a `uint16_t`, so far. The
two fatal exits are errors. -/
def countBytesLoop : List String → Nat → Except String Nat
  | [], bytes => .ok bytes
  | l :: rest, bytes =>
    let line := str.lstrip l
    if str.startswith line ".mark:" || str.startswith line ".name:" then countBytesLoop rest bytes
    else
      let instr := str.chunk line
      match OP_SIZES instr with
      | none => .error ("fatal: unrecognised instruction: " ++ instr)
      | some inc =>
        if inc = 0 then .error "fail: line is not empty and requires 0 bytes: possibly an unrecognised instruction"
        else countBytesLoop rest ((bytes + inc) % 65536)

/-- `countBytes`: the sum, in a `uint16_t`, of the tabulated sizes of the first
tokens of the lines that are not directives. -/
def countBytes (lines : List String) : Except String Nat := countBytesLoop lines 0

/-- A `std::map<string, int>`. -/
abbrev Table := String → Option Int

/-- The loop of `getmarks`, with the instruction counter and the table built so far. -/
def getmarksLoop : List String → Int → Table → Table
  | [], _, marks => marks
  | line :: rest, instruction, marks =>
    if str.startswith line ".name:" then getmarksLoop rest instruction marks
    else if !str.startswith line ".mark:" then getmarksLoop rest (instruction + 1) marks
    else
      let mark := str.chunk (str.lstrip (str.sub line 6))
      getmarksLoop rest instruction (Function.update marks mark (some instruction))

/-- `getmarks`. -/
def getmarks (lines : List String) : Table := getmarksLoop lines 0 (fun _ => none)

/-- The loop of `getnames`, with the table built so far. -/
def getnamesLoop : List String → Table → Except String Table
  | [], names => .ok names
  | l :: rest, names =>
    if !str.startswith l ".name:" then getnamesLoop rest names
    else
      let line := str.lstrip (str.sub l 6)
      let reg := str.chunk line
      let name := str.chunk (str.lstrip (str.sub line reg.length))
      match stoi reg with
      | .ok v => getnamesLoop rest (Function.update names name (some v))
      | .error .invalid_argument => .error "invalid register index in .name instruction"
      | .error .out_of_range => .error "stoi"

/-- `getnames`. -/
def getnames (lines : List String) : Except String Table := getnamesLoop lines (fun _ => none)

/-- `resolvejump`. -/
def resolvejump (jmp : String) (marks : Table) : Except String Int :=
  if str.isnum jmp then stoiThrow jmp
  else
    match marks (str.sub jmp 1) with
    | some addr => .ok addr
    | none => .error ("jump to unrecognised marker: " ++ str.sub jmp 1)

/-- `resolveregister`. -/
def resolveregister (reg : String) (names : Table) : Except String String :=
  if str.isnum reg then .ok reg
  else if reg.data.head? = some '@' ∧ str.isnum (str.sub reg 1) = true then .ok reg
  else
    let out := if reg.data.head? = some '@' then "@" else ""
    let reg := if reg.data.head? = some '@' then str.sub reg 1 else reg
    match names reg with
    | some n => .ok (out ++ toString n)
    | none => .error ("undeclared name: " ++ reg)

/-- `get2operands`. -/
def get2operands (s : String) : String × String :=
  let op_a := str.chunk s
  let s := str.sub s op_a.length
  let op_b := str.chunk s
  (op_a, op_b)

/-- `get3operands`. -/
def get3operands (s : String) (fill_third : Bool) : String × String × String :=
  let op_a := str.chunk s
  let s := str.lstrip (str.sub s op_a.length)
  let op_b := str.chunk s
  let s := str.lstrip (str.sub s op_b.length)
  let op_c := if s.length = 0 ∧ fill_third = true then op_a else str.chunk s
  (op_a, op_b, op_c)

/-- The expression `getint_op(resolveregister(chnk, names))`. -/
def registerOperand (chnk : String) (names : Table) : Except String int_op :=
  match resolveregister chnk names with
  | .ok r => getint_op r
  | .error msg => .error msg

/-- The table `THREE_INTOP_ASM_FUNCTIONS`. -/
def THREE_INTOP_ASM_FUNCTIONS (name : String) :
    Option (Program → int_op → int_op → int_op → Res Program Unit) :=
  if name = "iadd" then some Program.iadd
  else if name = "isub" then some Program.isub
  else if name = "imul" then some Program.imul
  else if name = "idiv" then some Program.idiv
  else if name = "ilt" then some Program.ilt
  else if name = "ilte" then some Program.ilte
  else if name = "igt" then some Program.igt
  else if name = "igte" then some Program.igte
  else if name = "ieq" then some Program.ieq
  else if name = "and" then some Program.logand
  else if name = "or" then some Program.logor
  else none

/-- `assemble_three_intop_instruction`. The three `resolveregister` statements
run in the order written; the three `getint_op` calls are arguments of one
call, which C++ evaluates in an unspecified order: the last argument first
here, as `g++` does. -/
def assemble_three_intop_instruction (program : Program) (names : Table) (instr operands : String) :
    Res Program Unit :=
  (Res.ofExcept (resolveregister (get3operands operands true).1 names) program).bind fun rega program =>
  (Res.ofExcept (resolveregister (get3operands operands true).2.1 names) program).bind fun regb program =>
  (Res.ofExcept (resolveregister (get3operands operands true).2.2 names) program).bind fun regr program =>
  match THREE_INTOP_ASM_FUNCTIONS instr with
  | none => .thrown "map::at" program
  | some f =>
    (Res.ofExcept (getint_op regr) program).bind fun r program =>
    (Res.ofExcept (getint_op regb) program).bind fun b program =>
    (Res.ofExcept (getint_op rega) program).bind fun a program =>
    f program a b r

/-- The body shared by the cases of `assemble` for an instruction with two
register operands: `get2operands`, then the encoder method on the two resolved
operands. The operands are resolved inside the arguments of the call, which
C++ evaluates in an unspecified order: the second argument first here, as
`g++` does, so that of two bad operands the second one is reported. -/
def assembleTwoIntOps (program : Program) (names : Table) (operands : String)
    (f : Program → int_op → int_op → Res Program Unit) : Res Program Unit :=
  (Res.ofExcept (registerOperand (get2operands operands).2 names) program).bind fun b program =>
  (Res.ofExcept (registerOperand (get2operands operands).1 names) program).bind fun a program =>
  f program a b

/-- The body shared by the cases of `assemble` for an instruction with one
register operand: `str::chunk`, then the encoder method on the resolved operand. -/
def assembleOneIntOp (program : Program) (names : Table) (operands : String)
    (f : Program → int_op → Res Program Unit) : Res Program Unit :=
  (Res.ofExcept (registerOperand (str.chunk operands) names) program).bind fun a program =>
  f program a

/-- The body of the main loop of `assemble` for a line that is not a directive:
the chain of comparisons on the beginning of the line. A line no comparison
accepts emits nothing. -/
def assembleLine (program : Program) (marks names : Table) (instruction : Int) (line : String) :
    Res Program Unit :=
  let instr := str.chunk line
  let operands := str.lstrip (str.sub line instr.length)
  if str.startswith line "istore" then assembleTwoIntOps program names operands Program.istore
  else if str.startswith line "iadd" then assemble_three_intop_instruction program names "iadd" operands
  else if str.startswith line "isub" then assemble_three_intop_instruction program names "isub" operands
  else if str.startswith line "imul" then assemble_three_intop_instruction program names "imul" operands
  else if str.startswith line "idiv" then assemble_three_intop_instruction program names "idiv" operands
  else if str.startswithchunk line "ilt" then assemble_three_intop_instruction program names "ilt" operands
  else if str.startswithchunk line "ilte" then assemble_three_intop_instruction program names "ilte" operands
  else if str.startswith line "igte" then assemble_three_intop_instruction program names "igte" operands
  else if str.startswith line "igt" then assemble_three_intop_instruction program names "igt" operands
  else if str.startswith line "ieq" then assemble_three_intop_instruction program names "ieq" operands
  else if str.startswith line "iinc" then assembleOneIntOp program names operands Program.iinc
  else if str.startswith line "idec" then assembleOneIntOp program names operands Program.idec
  else if str.startswith line "bstore" then
    (Res.ofExcept (match resolveregister (get2operands operands).2 names with
      | .ok r => getbyte_op r
      | .error msg => .error msg) program).bind fun b program =>
    (Res.ofExcept (registerOperand (get2operands operands).1 names) program).bind fun regno program =>
    program.bstore regno b
  else if str.startswith line "not" then assembleOneIntOp program names operands Program.lognot
  else if str.startswith line "and" then assemble_three_intop_instruction program names "and" operands
  else if str.startswith line "or" then assemble_three_intop_instruction program names "or" operands
  else if str.startswith line "move" then assembleTwoIntOps program names operands Program.move
  else if str.startswith line "copy" then assembleTwoIntOps program names operands Program.copy
  else if str.startswith line "ref" then assembleTwoIntOps program names operands Program.ref
  else if str.startswith line "swap" then assembleTwoIntOps program names operands Program.swap
  else if str.startswith line "ret" then assembleOneIntOp program names operands Program.ret
  else if str.startswith line "print" then assembleOneIntOp program names operands Program.print
  else if str.startswith line "echo" then assembleOneIntOp program names operands Program.echo
  else if str.startswith line "branch" then
    (Res.ofExcept (resolvejump (get3operands operands false).2.1 marks) program).bind fun addrt program =>
    (if (get3operands operands false).2.2.length ≠ 0
      then Res.ofExcept (resolvejump (get3operands operands false).2.2 marks) program
      else Res.ok (instruction + 1) program).bind fun addrf program =>
    (Res.ofExcept (registerOperand (get3operands operands false).1 names) program).bind fun regc program =>
    program.branch regc addrt addrf
  else if str.startswith line "jump" then
    (Res.ofExcept (resolvejump operands marks) program).bind fun addr program =>
    program.jump addr
  else if str.startswith line "pass" then program.pass
  else if str.startswith line "halt" then program.halt
  else .ok () program

/-- The main loop of `assemble`, with the instruction counter. -/
def assembleLoop (marks names : Table) : List String → Int → Program → Res Program Int
  | [], instruction, program => .ok instruction program
  | line :: rest, instruction, program =>
    if str.startswith line ".mark:" || str.startswith line ".name:" then
      assembleLoop marks names rest instruction program
    else
      (assembleLine program marks names instruction line).bind fun _ program =>
      assembleLoop marks names rest (instruction + 1) program

/-- `assemble`: gather the marks and the names, then run the main loop. -/
def assemble (program : Program) (lines : List String) : Res Program Unit :=
  (Res.ofExcept (getnames lines) program).bind fun names program =>
  (assembleLoop (getmarks lines) names lines 0 program).bind fun _ program =>
  .ok () program

/-- The object representation of a `uint16_t`: two bytes, least significant first. -/
def uint16Bytes (v : Nat) : List Nat := [v % 256, v / 256 % 256]

/-- `ostream::write(s, n)`: append to the file the `n` bytes that start at `s`, the
address of the object `obj`. Reading past the end of the object is undefined. -/
def ostreamWrite (file obj : List Nat) (n : Nat) : Res (List Nat) Unit :=
  match Mem.read obj 0 n with
  | some bs => .ok () (file ++ bs)
  | none => .undefined

/-- The statements of `main` that write the output file: the variable `bytes`,
then the variable `starting_instruction`, each with the count 16, then `bytes`
bytes of the bytecode. -/
def mainWrite (bytes starting_instruction : Nat) (bytecode : List Nat) : Res (List Nat) Unit :=
  (ostreamWrite [] (uint16Bytes bytes) 16).bind fun _ file =>
  (ostreamWrite file (uint16Bytes starting_instruction) 16).bind fun _ file =>
  ostreamWrite file bytecode bytes

/-! ## Notions used to state the properties -/

/-- Modelled from the spec: the effect of `REF dst, src` with direct operands (the
handler `CPU::ref` is not among the sources). The source must be non-empty;
slot `dst` is marked as a reference and made to point at the value in slot
`src`; the value `dst` owned before is destroyed unless it is aliased elsewhere. -/
def CPU.ref (c : CPU) (dst src : Int) : Res CPU Unit :=
  (c.fetch src).bind fun p c =>
  if dst ≥ c.reg_count then .thrown "register access out of bounds: write" c
  else if dst < 0 then .undefined
  else
    let c1 := if c.registers dst.toNat ≠ 0 ∧ c.references dst.toNat = false ∧ c.hasrefs dst.toNat = false
      then c.delete (c.registers dst.toNat) else c
    .ok () { c1 with registers := Function.update c1.registers dst.toNat p,
                     references := Function.update c1.references dst.toNat true }

/-- The no-dangling-reference invariant of the register file: every register
marked as a reference shares its pointer with another register that is not
marked as a reference. -/
def CPU.NoDangling (c : CPU) : Prop :=
  ∀ i, i < c.reg_count → c.references i = true →
    ∃ j, j < c.reg_count ∧ j ≠ i ∧ c.registers j = c.registers i ∧ c.references j = false

instance (c : CPU) : Decidable c.NoDangling := by
  unfold CPU.NoDangling
  exact Nat.decidableBallLT _ _

/-- A register file of `reg_count` empty owning slots over the given bytecode,
with an empty heap. -/
def CPU.fresh (reg_count : Nat) (bc : List Nat) : CPU :=
  { bytecode := some bc, bytecode_size := bc.length % 65536, executable_offset := 0,
    reg_count := reg_count, registers := fun _ => 0, references := fun _ => false,
    heap := fun _ => none, next := 1 }

/-- A register file of sixteen slots in which register 1 owns an object `o`; the
loaded bytecode is given. -/
def CPU.withRegister1 (o : Object) (bc : List Nat) : CPU :=
  { CPU.fresh 16 bc with
    registers := Function.update (fun _ => 0) 1 1,
    heap := Function.update (fun _ => none) 1 (some o), next := 2 }

/-- One call of an encoder method of `Program`, with its arguments. -/
inductive Call where
  | istore (a b : int_op)
  | iadd (rega regb regr : int_op)
  | isub (rega regb regr : int_op)
  | imul (rega regb regr : int_op)
  | idiv (rega regb regr : int_op)
  | iinc (reg : int_op)
  | idec (reg : int_op)
  | ilt (rega regb regr : int_op)
  | ilte (rega regb regr : int_op)
  | igt (rega regb regr : int_op)
  | igte (rega regb regr : int_op)
  | ieq (rega regb regr : int_op)
  | bstore (regno : int_op) (b : byte_op)
  | lognot (reg : int_op)
  | logand (rega regb regr : int_op)
  | logor (rega regb regr : int_op)
  | move (a b : int_op)
  | copy (a b : int_op)
  | ref (a b : int_op)
  | swap (a b : int_op)
  | print (reg : int_op)
  | echo (reg : int_op)
  | jump (addr : Int)
  | branch (regc : int_op) (addr_truth addr_false : Int)
  | ret (reg : int_op)
  | pass
  | halt
  deriving DecidableEq, Repr

/-- Run the encoder method a call names. -/
def Call.run (p : Program) : Call → Res Program Unit
  | .istore a b => p.istore a b
  | .iadd a b r => p.iadd a b r
  | .isub a b r => p.isub a b r
  | .imul a b r => p.imul a b r
  | .idiv a b r => p.idiv a b r
  | .iinc a => p.iinc a
  | .idec a => p.idec a
  | .ilt a b r => p.ilt a b r
  | .ilte a b r => p.ilte a b r
  | .igt a b r => p.igt a b r
  | .igte a b r => p.igte a b r
  | .ieq a b r => p.ieq a b r
  | .bstore a b => p.bstore a b
  | .lognot a => p.lognot a
  | .logand a b r => p.logand a b r
  | .logor a b r => p.logor a b r
  | .move a b => p.move a b
  | .copy a b => p.copy a b
  | .ref a b => p.ref a b
  | .swap a b => p.swap a b
  | .print a => p.print a
  | .echo a => p.echo a
  | .jump addr => p.jump addr
  | .branch c t f => p.branch c t f
  | .ret a => p.ret a
  | .pass => p.pass
  | .halt => p.halt

/-- The opcode a call writes. -/
def Call.opcode : Call → OPCODE
  | .istore _ _ => .ISTORE
  | .iadd _ _ _ => .IADD
  | .isub _ _ _ => .ISUB
  | .imul _ _ _ => .IMUL
  | .idiv _ _ _ => .IDIV
  | .iinc _ => .IINC
  | .idec _ => .IDEC
  | .ilt _ _ _ => .ILT
  | .ilte _ _ _ => .ILTE
  | .igt _ _ _ => .IGT
  | .igte _ _ _ => .IGTE
  | .ieq _ _ _ => .IEQ
  | .bstore _ _ => .BSTORE
  | .lognot _ => .NOT
  | .logand _ _ _ => .AND
  | .logor _ _ _ => .OR
  | .move _ _ => .MOVE
  | .copy _ _ => .COPY
  | .ref _ _ => .REF
  | .swap _ _ => .SWAP
  | .print _ => .PRINT
  | .echo _ => .ECHO
  | .jump _ => .JUMP
  | .branch _ _ _ => .BRANCH
  | .ret _ => .RET
  | .pass => .PASS
  | .halt => .HALT

/-- The tabulated encoded size of the instruction a call writes. -/
def Call.size (c : Call) : Nat := (OP_SIZES (OP_NAMES c.opcode)).getD 0

/-- The sum of the tabulated encoded sizes of a sequence of calls. -/
def encodedSize (cs : List Call) : Nat := (cs.map Call.size).sum

/-- The byte offset of instruction `k`: the sum of the tabulated encoded sizes of
instructions `0` to `k - 1`. -/
def offsetOf (cs : List Call) (k : Nat) : Nat := encodedSize (cs.take k)

/-- Run a sequence of encoder calls one after the other. -/
def runCalls : List Call → Program → Res Program Unit
  | [], p => .ok () p
  | c :: cs, p => (c.run p).bind fun _ p => runCalls cs p

/-- A buffer exactly filled by a sequence of encoder calls: the calls run on a
program constructed with the sum of their tabulated sizes. -/
def build (cs : List Call) : Res Program Unit := runCalls cs (Program.new (encodedSize cs))

/-- The bytes of an integer operand. -/
def intOpBytes (op : int_op) : List Nat := boolByte op.1 :: intBytes op.2

/-- The bytes of the instruction a call writes. -/
def Call.bytes : Call → List Nat
  | .istore a b => OPCODE.ISTORE.toByte :: (intOpBytes a ++ intOpBytes b)
  | .iadd a b r => OPCODE.IADD.toByte :: (intOpBytes a ++ intOpBytes b ++ intOpBytes r)
  | .isub a b r => OPCODE.ISUB.toByte :: (intOpBytes a ++ intOpBytes b ++ intOpBytes r)
  | .imul a b r => OPCODE.IMUL.toByte :: (intOpBytes a ++ intOpBytes b ++ intOpBytes r)
  | .idiv a b r => OPCODE.IDIV.toByte :: (intOpBytes a ++ intOpBytes b ++ intOpBytes r)
  | .iinc a => OPCODE.IINC.toByte :: intOpBytes a
  | .idec a => OPCODE.IDEC.toByte :: intOpBytes a
  | .ilt a b r => OPCODE.ILT.toByte :: (intOpBytes a ++ intOpBytes b ++ intOpBytes r)
  | .ilte a b r => OPCODE.ILTE.toByte :: (intOpBytes a ++ intOpBytes b ++ intOpBytes r)
  | .igt a b r => OPCODE.IGT.toByte :: (intOpBytes a ++ intOpBytes b ++ intOpBytes r)
  | .igte a b r => OPCODE.IGTE.toByte :: (intOpBytes a ++ intOpBytes b ++ intOpBytes r)
  | .ieq a b r => OPCODE.IEQ.toByte :: (intOpBytes a ++ intOpBytes b ++ intOpBytes r)
  | .bstore a b => OPCODE.BSTORE.toByte :: (intOpBytes a ++ [boolByte b.1, (b.2 % 256).toNat])
  | .lognot a => OPCODE.NOT.toByte :: intOpBytes a
  | .logand a b r => OPCODE.AND.toByte :: (intOpBytes a ++ intOpBytes b ++ intOpBytes r)
  | .logor a b r => OPCODE.OR.toByte :: (intOpBytes a ++ intOpBytes b ++ intOpBytes r)
  | .move a b => OPCODE.MOVE.toByte :: (intOpBytes a ++ intOpBytes b)
  | .copy a b => OPCODE.COPY.toByte :: (intOpBytes a ++ intOpBytes b)
  | .ref a b => OPCODE.REF.toByte :: (intOpBytes a ++ intOpBytes b)
  | .swap a b => OPCODE.SWAP.toByte :: (intOpBytes a ++ intOpBytes b)
  | .print a => OPCODE.PRINT.toByte :: intOpBytes a
  | .echo a => OPCODE.ECHO.toByte :: intOpBytes a
  | .jump addr => OPCODE.JUMP.toByte :: intBytes addr
  | .branch c t f => OPCODE.BRANCH.toByte :: (intOpBytes c ++ intBytes t ++ intBytes f)
  | .ret a => OPCODE.RET.toByte :: intOpBytes a
  | .pass => [OPCODE.PASS.toByte]
  | .halt => [OPCODE.HALT.toByte]

/-- The bytes of a sequence of instructions, one after the other. -/
def encode : List Call → List Nat
  | [] => []
  | c :: cs => c.bytes ++ encode cs

/-- Does the call record its position in `branches`. -/
def Call.isBranch : Call → Bool
  | .jump _ => true
  | .branch _ _ _ => true
  | _ => false

/-- The positions a sequence of calls records in `branches` when the first call
writes at `base`. -/
def branchPositions : List Call → Nat → List Nat
  | [], _ => []
  | c :: cs, base => (if c.isBranch then [base] else []) ++ branchPositions cs (base + c.size)

/-- The memory block `m` with the bytes `bs` stored at `pos`. -/
def splice (m : List Nat) (pos : Nat) (bs : List Nat) : List Nat :=
  m.take pos ++ bs ++ m.drop (pos + bs.length)

/-- The number of iterations of the loop of `getInstructionBytecodeOffset`. -/
def targetIndex (instr count : Int) : Nat := (if instr ≥ 0 then instr else count + instr).toNat

/-- The byte offset `getInstructionBytecodeOffset` computes for the address
operand `k` in a program whose instructions have the sizes `sizes`, when it
does not run past the end. -/
def resolveTarget (sizes : List Nat) (count : Int) (k : Int) : Option Int :=
  if targetIndex (toInt32 k) count < sizes.length
    then some (((sizes.take (targetIndex (toInt32 k) count)).sum : Nat) : Int) else none

/-- A call with its address operands replaced by the byte offsets they resolve to. -/
def patchCall (sizes : List Nat) (count : Int) : Call → Option Call
  | .jump k => (resolveTarget sizes count k).map Call.jump
  | .branch c t f =>
    match resolveTarget sizes count t, resolveTarget sizes count f with
    | some t1, some f1 => some (.branch c t1 f1)
    | _, _ => none
  | c => some c

/-- A sequence of calls with all address operands resolved, when all can be. -/
def patchCalls (sizes : List Nat) (count : Int) : List Call → Option (List Call)
  | [] => some []
  | c :: cs =>
    match patchCall sizes count c, patchCalls sizes count cs with
    | some c1, some cs1 => some (c1 :: cs1)
    | _, _ => none

/-- A sample sequence of encoder calls: a store, a jump to the last instruction,
a branch back to the first two instructions, and a halt. -/
def sampleCalls : List Call :=
  [.istore (false, 1) (false, 3), .jump 3, .branch (false, 2) 0 1, .halt]

/-- No handler besides those of the sources: every other opcode is undefined. -/
def noHandlers : Handlers := fun _ _ _ => .undefined

/-- The mnemonics met when a buffer is walked from `offset` by the tabulated size
of each opcode, the way `getInstructionBytecodeOffset` walks it, for at most
`fuel` instructions. -/
def disassemble (m : List Nat) : Nat → Nat → List String
  | 0, _ => []
  | fuel + 1, offset =>
    match m[offset]? with
    | none => []
    | some b =>
      match OPCODE.ofByte b with
      | none => []
      | some opcode =>
        OP_NAMES opcode :: disassemble m fuel (offset + (OP_SIZES (OP_NAMES opcode)).getD 1)

/-- The first tokens of the lines that are not directives. -/
def instructionTokens (lines : List String) : List String :=
  (lines.filter fun line =>
    !(str.startswith line ".mark:" || str.startswith line ".name:")).map str.chunk

/-- A register file of sixteen slots in which registers 1, 2, ... own the
`Integer`s of `vals`, in this order, and every other slot is empty; the
loaded bytecode is given. -/
def CPU.withIntegers (vals : List Int) (bc : List Nat) : CPU :=
  { CPU.fresh 16 bc with
    registers := fun i => if 1 ≤ i ∧ i ≤ vals.length then i else 0,
    heap := fun p => if 1 ≤ p ∧ p ≤ vals.length then (vals[p - 1]?).map Object.Integer else none,
    next := vals.length + 1 }

/-- The value is an `int`: it lies in the range of 32-bit two's complement. -/
def fitsInt (v : Int) : Prop := -2147483648 ≤ v ∧ v < 2147483648

instance (v : Int) : Decidable (fitsInt v) := by
  unfold fitsInt
  exact inferInstance

/-- A token that is a name: not a decimal integer and not starting with `@`. -/
def isName (tok : String) : Prop := str.isnum tok = false ∧ tok.data.head? ≠ some '@'

instance (tok : String) : Decidable (isName tok) := by
  unfold isName
  exact inferInstance

/-- The name a `.mark:` line declares; nothing for any other line. -/
def markOf (line : String) : Option String :=
  if str.startswith line ".mark:" then some (str.chunk (str.lstrip (str.sub line 6))) else none

/-- The line counts as an instruction: it starts with neither `.mark:` nor `.name:`. -/
def isInstructionLine (line : String) : Bool :=
  !(str.startswith line ".mark:" || str.startswith line ".name:")

/-- The lines of scenario 4 of the specification. -/
def scenario4 : List String :=
  ["istore 1 3", ".mark: loop", "idec 1", "ilt 1 0 2", "branch 2 :end :loop", ".mark: end",
   "print 1", "halt"]

/-- The test of `countBytes` for a directive: the stripped line starts with
`.mark:` or `.name:`. -/
def isDirective (l : String) : Bool :=
  str.startswith (str.lstrip l) ".mark:" || str.startswith (str.lstrip l) ".name:"

/-- The tabulated encoded size of the first token of a line, when it has one. -/
def lineSize (l : String) : Option Nat := OP_SIZES (str.chunk (str.lstrip l))

/-- The sum of the tabulated sizes of the first tokens of the lines that are not directives. -/
def sizeSum (lines : List String) : Nat :=
  ((lines.filter fun l => !isDirective l).map fun l => (lineSize l).getD 0).sum

/-- A line on which `countBytes` stops: not a directive, and its first token is
absent from the opcode-size table or has the tabulated size 0. -/
def isRejected (l : String) : Prop :=
  isDirective l = false ∧ (lineSize l = none ∨ lineSize l = some 0)

instance (l : String) : Decidable (isRejected l) := by
  unfold isRejected
  exact inferInstance

/-- An operand token: a non-empty text without whitespace. -/
def isToken (t : String) : Prop := t.data ≠ [] ∧ ∀ c ∈ t.data, str.isWhitespace c = false

instance (t : String) : Decidable (isToken t) := by
  unfold isToken
  exact inferInstance

/-- A run of whitespace, possibly empty. -/
def isBlank (w : String) : Prop := ∀ c ∈ w.data, str.isWhitespace c = true

instance (w : String) : Decidable (isBlank w) := by
  unfold isBlank
  exact inferInstance

/-- A `branch` line in its short form: the first token is `branch` and
`get3operands` finds no third operand. -/
def isShortBranch (line : String) : Prop :=
  str.chunk line = "branch" ∧
  (get3operands (str.lstrip (str.sub line (str.chunk line).length)) false).2.2 = ""

instance (line : String) : Decidable (isShortBranch line) := by
  unfold isShortBranch
  exact inferInstance

/-! # Theorems -/

@[simp] theorem Res.bind_ok {σ α β : Type} (a : α) (s : σ) (f : α → σ → Res σ β) :
    (Res.ok a s).bind f = f a s := rfl

@[simp] theorem Res.bind_thrown {σ α β : Type} (msg : Msg) (s : σ) (f : α → σ → Res σ β) :
    (Res.thrown msg s : Res σ α).bind f = .thrown msg s := rfl

@[simp] theorem Res.bind_undefined {σ α β : Type} (f : α → σ → Res σ β) :
    (Res.undefined : Res σ α).bind f = .undefined := rfl

/-! ## The register file -/

theorem CPU.setRegister_registers (c : CPU) (i p j : Nat) :
    (c.setRegister i p).registers j = if j = i then p else c.registers j := by
  simp [CPU.setRegister, Function.update_apply]

@[simp] theorem CPU.setRegister_references (c : CPU) (i p : Nat) :
    (c.setRegister i p).references = c.references := rfl

@[simp] theorem CPU.setRegister_reg_count (c : CPU) (i p : Nat) :
    (c.setRegister i p).reg_count = c.reg_count := rfl

@[simp] theorem CPU.delete_registers (c : CPU) (p : Nat) : (c.delete p).registers = c.registers := rfl

@[simp] theorem CPU.delete_references (c : CPU) (p : Nat) : (c.delete p).references = c.references := rfl

@[simp] theorem CPU.delete_reg_count (c : CPU) (p : Nat) : (c.delete p).reg_count = c.reg_count := rfl

theorem CPU.updaterefs_fold (before now : Nat) (n : Nat) (c : CPU) :
    ((List.range n).foldl (fun c i =>
        if c.registers i = before ∧ c.references i = true then c.setRegister i now else c) c).references
      = c.references ∧
    ((List.range n).foldl (fun c i =>
        if c.registers i = before ∧ c.references i = true then c.setRegister i now else c) c).reg_count
      = c.reg_count ∧
    ∀ j, ((List.range n).foldl (fun c i =>
        if c.registers i = before ∧ c.references i = true then c.setRegister i now else c) c).registers j
      = if j < n ∧ c.registers j = before ∧ c.references j = true then now else c.registers j := by
  induction n with
  | zero => simp
  | succ n ih =>
    obtain ⟨ih1, ih2, ih3⟩ := ih
    rw [List.range_succ, List.foldl_append]
    simp only [List.foldl_cons, List.foldl_nil]
    rw [ih1, ih3 n]
    simp only [lt_self_iff_false, false_and, if_false]
    by_cases h : c.registers n = before ∧ c.references n = true
    · rw [if_pos h]
      refine ⟨ih1, ih2, fun j => ?_⟩
      rw [CPU.setRegister_registers]
      by_cases hj : j = n
      · subst hj; simp [h]
      · rw [if_neg hj, ih3 j]
        have : j < n + 1 ↔ j < n := by omega
        simp only [this]
    · rw [if_neg h]
      refine ⟨ih1, ih2, fun j => ?_⟩
      rw [ih3 j]
      by_cases hj : j = n
      · subst hj
        simp [h]
      · have : j < n + 1 ↔ j < n := by omega
        simp only [this]

theorem CPU.updaterefs_registers (c : CPU) (before now j : Nat) :
    (c.updaterefs before now).registers j
      = if j < c.reg_count ∧ c.registers j = before ∧ c.references j = true then now else c.registers j :=
  (CPU.updaterefs_fold before now c.reg_count c).2.2 j

theorem CPU.updaterefs_references (c : CPU) (before now : Nat) :
    (c.updaterefs before now).references = c.references :=
  (CPU.updaterefs_fold before now c.reg_count c).1

theorem CPU.updaterefs_reg_count (c : CPU) (before now : Nat) :
    (c.updaterefs before now).reg_count = c.reg_count :=
  (CPU.updaterefs_fold before now c.reg_count c).2.1

theorem CPU.hasrefs_iff (c : CPU) (i : Nat) :
    c.hasrefs i = true ↔ ∃ j, j < c.reg_count ∧ j ≠ i ∧ c.registers j = c.registers i := by
  simp [CPU.hasrefs, List.any_eq_true]

/-- The state `place` reaches for an owning slot. -/
theorem CPU.place_owning (c : CPU) (i : Nat) (obj : Nat)
    (hi : i < c.reg_count) (hown : c.references i = false) :
    ∃ c1, c.place i obj = .ok () c1 ∧ c1.references = c.references ∧ c1.reg_count = c.reg_count ∧
      ∀ j, c1.registers j =
        if j = i then obj
        else if j < c.reg_count ∧ c.references j = true ∧ c.registers i ≠ 0 ∧ c.registers j = c.registers i
          then obj else c.registers j := by
  have h1 : ¬ ((i : Int) ≥ c.reg_count) := by omega
  have h2 : ¬ ((i : Int) < 0) := by omega
  by_cases h0 : c.registers i = 0
  · refine ⟨c.setRegister i obj, ?_, rfl, rfl, fun j => ?_⟩
    · simp [CPU.place, h1, h2, h0, hown]
    · rw [CPU.setRegister_registers]
      simp [h0]
  · by_cases hh : c.hasrefs i = true
    · refine ⟨((c.delete (c.registers i)).setRegister i obj).updaterefs (c.registers i) obj, ?_, ?_, ?_, fun j => ?_⟩
      · have hh2 : (c.delete (c.registers i)).hasrefs i = true := hh
        simp [CPU.place, h1, h2, h0, hown, hh2]
      · rw [CPU.updaterefs_references]; rfl
      · rw [CPU.updaterefs_reg_count]; rfl
      · rw [CPU.updaterefs_registers]
        simp only [CPU.setRegister_registers, CPU.setRegister_reg_count, CPU.setRegister_references,
          CPU.delete_registers, CPU.delete_references, CPU.delete_reg_count]
        by_cases hji : j = i
        · subst hji
          simp [hown]
        · simp only [if_neg hji]
          by_cases hcond : j < c.reg_count ∧ c.registers j = c.registers i ∧ c.references j = true
          · rw [if_pos hcond, if_pos ⟨hcond.1, hcond.2.2, h0, hcond.2.1⟩]
          · rw [if_neg hcond, if_neg (fun h => hcond ⟨h.1, h.2.2.2, h.2.1⟩)]
    · have hh2 : (c.delete (c.registers i)).hasrefs i = false := by
        have : c.hasrefs i = false := by simpa using hh
        exact this
      refine ⟨(c.delete (c.registers i)).setRegister i obj, ?_, rfl, rfl, fun j => ?_⟩
      · simp [CPU.place, h1, h2, h0, hown, hh2]
      · rw [CPU.setRegister_registers]
        by_cases hji : j = i
        · simp [hji]
        · simp only [if_neg hji, CPU.delete_registers]
          rw [if_neg]
          rintro ⟨hj1, _, _, hj4⟩
          exact hh ((CPU.hasrefs_iff c i).2 ⟨j, hj1, hji, hj4⟩)

/-- C10 fails on the code, in two ways. With sixteen registers, `fetch(-1)`
passes the only bounds check, `index >= reg_count`, and goes on to read
`registers[-1]`, outside the register file: it neither raises nor returns a
handle. And on the empty slot 5 `fetch` does throw, but what it throws is the
pointer `oss.str().c_str()` into a `std::string` that no longer exists when a
handler runs, not the readable text `read from null register: 5`. Index 16
raises the out-of-bounds read error and the occupied slot 1 yields its
handle, with the state unchanged, as the claim says. -/
theorem C10_fetch_negative_index_and_dangling_text :
    (CPU.withRegister1 (.Integer 10) []).reg_count = 16 ∧
    (CPU.withRegister1 (.Integer 10) []).fetch (-1) = .undefined ∧
    (CPU.withRegister1 (.Integer 10) []).fetch 5
      = .thrown (.dangling "read from null register: 5") (CPU.withRegister1 (.Integer 10) []) ∧
    (CPU.withRegister1 (.Integer 10) []).fetch 5
      ≠ .thrown (.text "read from null register: 5") (CPU.withRegister1 (.Integer 10) []) ∧
    (CPU.withRegister1 (.Integer 10) []).fetch 16
      = .thrown (.text "register access out of bounds: read") (CPU.withRegister1 (.Integer 10) []) ∧
    (CPU.withRegister1 (.Integer 10) []).fetch 1 = .ok 1 (CPU.withRegister1 (.Integer 10) []) := by
  refine ⟨rfl, rfl, rfl, ?_, rfl, rfl⟩
  intro h
  rw [show (CPU.withRegister1 (.Integer 10) []).fetch 5
      = .thrown (.dangling "read from null register: 5") (CPU.withRegister1 (.Integer 10) [])
    from rfl] at h
  simp at h

/-- C2: `place(i, obj)` on a slot `i` of the register file that is not marked as a
reference returns normally; afterwards slot `i` holds `obj`, every slot that
was marked as a reference and held the handle slot `i` held before (a handle
is a non-null pointer: an empty slot holds none) holds `obj`, every other
slot holds what it held before, and every reference flag is unchanged. -/
theorem C2_place_owning_slot (c : CPU) (i obj : Nat)
    (hi : i < c.reg_count) (hown : c.references i = false) :
    ∃ c1, c.place i obj = .ok () c1 ∧
      c1.registers i = obj ∧
      (∀ j, j < c.reg_count → c.references j = true → c.registers i ≠ 0 →
        c.registers j = c.registers i → c1.registers j = obj) ∧
      (∀ j, j ≠ i →
        ¬ (j < c.reg_count ∧ c.references j = true ∧ c.registers i ≠ 0 ∧
            c.registers j = c.registers i) →
        c1.registers j = c.registers j) ∧
      (∀ j, c1.references j = c.references j) := by
  obtain ⟨c1, h1, h2, _, h4⟩ := CPU.place_owning c i obj hi hown
  refine ⟨c1, h1, ?_, ?_, ?_, ?_⟩
  · rw [h4]; simp
  · intro j hj hr h0 he
    rw [h4]
    by_cases hji : j = i
    · simp [hji]
    · rw [if_neg hji, if_pos ⟨hj, hr, h0, he⟩]
  · intro j hji hn
    rw [h4, if_neg hji, if_neg hn]
  · intro j
    rw [h2]

/-- C2 at a register file in which register 1 owns an object and register 2 is a
reference to it: placing the pointer 7 in register 1 redirects register 2. -/
theorem C2_place_owning_slot_witness :
    ∃ c1, ({ CPU.withRegister1 (.Integer 10) [] with
              registers := fun j => if j = 1 ∨ j = 2 then 1 else 0,
              references := fun j => decide (j = 2) } : CPU).place (1 : Nat) 7 = .ok () c1 ∧
      c1.registers 1 = 7 ∧ c1.registers 2 = 7 ∧ c1.registers 3 = 0 ∧ c1.references 2 = true := by
  obtain ⟨c1, h1, h2, h3, h4, h5⟩ := C2_place_owning_slot
    ({ CPU.withRegister1 (.Integer 10) [] with
        registers := fun j => if j = 1 ∨ j = 2 then 1 else 0,
        references := fun j => decide (j = 2) } : CPU) 1 7 (by decide) (by decide)
  exact ⟨c1, h1, h2, h3 2 (by decide) (by decide) (by decide) (by decide),
    (h4 3 (by decide) (by decide)).trans (by decide), (h5 2).trans (by decide)⟩

/-! ## The encoder -/

theorem List.split_at_block (m : List Nat) (pos len : Nat) (h : pos + len ≤ m.length) :
    ∃ pre x rest, m = pre ++ x ++ rest ∧ pre.length = pos ∧ x.length = len :=
  ⟨m.take pos, (m.drop pos).take len, (m.drop pos).drop len, by simp, by simp; omega, by simp; omega⟩

theorem splice_block (pre x rest bs : List Nat) (pos : Nat) (hpos : pos = pre.length)
    (h : x.length = bs.length) :
    splice (pre ++ x ++ rest) pos bs = pre ++ bs ++ rest := by
  subst hpos
  simp [splice, List.take_append_eq_append_take, List.drop_append_eq_append_drop, ← h]

theorem splice_length (m : List Nat) (pos : Nat) (bs : List Nat) (h : pos + bs.length ≤ m.length) :
    (splice m pos bs).length = m.length := by
  simp [splice]; omega

theorem splice_splice (m : List Nat) (pos k : Nat) (a b : List Nat) (hk : k = pos + a.length)
    (h : pos + a.length ≤ m.length) :
    splice (splice m pos a) k b = splice m pos (a ++ b) := by
  obtain ⟨pre, x, rest, rfl, hpre, hx⟩ := List.split_at_block m pos a.length h
  rw [splice_block pre x rest a pos hpre.symm hx]
  subst hk
  subst hpre
  unfold splice
  have t1 : List.take (pre.length + a.length) (pre ++ a ++ rest) = pre ++ a := by
    rw [List.take_append_of_le_length (by simp)]
    exact List.take_of_length_le (by simp)
  have t2 : List.drop (pre.length + a.length + b.length) (pre ++ a ++ rest) = List.drop b.length rest := by
    rw [show pre.length + a.length + b.length = (pre ++ a).length + b.length by simp]
    exact List.drop_append _
  have t3 : List.take pre.length (pre ++ x ++ rest) = pre := by
    rw [List.append_assoc]; exact List.take_left _ _
  have t4 : List.drop (pre.length + (a ++ b).length) (pre ++ x ++ rest) = List.drop b.length rest := by
    rw [show pre.length + (a ++ b).length = (pre ++ x).length + b.length by simp [hx]; omega]
    exact List.drop_append _
  rw [t1, t2, t3, t4]
  simp

theorem Mem.store_eq (m : List Nat) (pos : Nat) (bs : List Nat) (h : pos + bs.length ≤ m.length) :
    Mem.store m pos bs = .ok () (splice m pos bs) := by
  simp [Mem.store, Mem.write, h, splice]

@[simp] theorem intBytes_length (v : Int) : (intBytes v).length = 4 := rfl

@[simp] theorem intOpBytes_length (op : int_op) : (intOpBytes op).length = 5 := rfl

theorem insertIntegerOperand_eq (pos : Nat) (op : int_op) (m : List Nat) (h : pos + 5 ≤ m.length) :
    insertIntegerOperand pos op m = .ok (pos + 5) (splice m pos (intOpBytes op)) := by
  unfold insertIntegerOperand
  rw [Mem.store_eq _ _ _ (by first | (simp; done) | (simp; omega))]
  simp only [Res.bind_ok]
  rw [Mem.store_eq _ _ _ (by rw [splice_length _ _ _ (by first | (simp; done) | (simp; omega))]; simp; omega)]
  simp only [Res.bind_ok]
  rw [splice_splice _ _ _ _ _ (by simp) (by first | (simp; done) | (simp; omega))]
  rfl

theorem store_then_operand (pos : Nat) (bs : List Nat) (op : int_op) (m : List Nat) (k : Nat)
    (hk : k = pos + bs.length) (h : pos + bs.length + 5 ≤ m.length) :
    insertIntegerOperand k op (splice m pos bs) = .ok (k + 5) (splice m pos (bs ++ intOpBytes op)) := by
  subst hk
  rw [insertIntegerOperand_eq _ _ _ (by rw [splice_length _ _ _ (by omega)]; omega)]
  rw [splice_splice _ _ _ _ _ rfl (by omega)]

theorem store_then_store (pos : Nat) (bs cs : List Nat) (m : List Nat) (k : Nat)
    (hk : k = pos + bs.length) (h : pos + bs.length + cs.length ≤ m.length) :
    Mem.store (splice m pos bs) k cs = .ok () (splice m pos (bs ++ cs)) := by
  subst hk
  rw [Mem.store_eq _ _ _ (by rw [splice_length _ _ _ (by omega)]; omega)]
  rw [splice_splice _ _ _ _ _ rfl (by omega)]

theorem insertOneIntegerOp_eq (pos : Nat) (o : OPCODE) (a : int_op) (m : List Nat)
    (h : pos + 6 ≤ m.length) :
    insertOneIntegerOp pos o a m = .ok (pos + 6) (splice m pos (o.toByte :: intOpBytes a)) := by
  unfold insertOneIntegerOp
  rw [Mem.store_eq _ _ _ (by first | (simp; done) | (simp; omega))]
  simp only [Res.bind_ok]
  rw [store_then_operand _ _ _ _ _ (by simp) (by first | (simp; done) | (simp; omega))]
  rfl

theorem insertTwoIntegerOpsInstruction_eq (pos : Nat) (o : OPCODE) (a b : int_op) (m : List Nat)
    (h : pos + 11 ≤ m.length) :
    insertTwoIntegerOpsInstruction pos o a b m
      = .ok (pos + 11) (splice m pos (o.toByte :: (intOpBytes a ++ intOpBytes b))) := by
  unfold insertTwoIntegerOpsInstruction
  rw [Mem.store_eq _ _ _ (by first | (simp; done) | (simp; omega))]
  simp only [Res.bind_ok]
  rw [store_then_operand _ _ _ _ _ (by simp) (by first | (simp; done) | (simp; omega))]
  simp only [Res.bind_ok]
  rw [store_then_operand _ _ _ _ _ (by simp) (by first | (simp; done) | (simp; omega))]
  rfl

theorem insertThreeIntegerOpsInstruction_eq (pos : Nat) (o : OPCODE) (a b c : int_op) (m : List Nat)
    (h : pos + 16 ≤ m.length) :
    insertThreeIntegerOpsInstruction pos o a b c m
      = .ok (pos + 16) (splice m pos (o.toByte :: (intOpBytes a ++ intOpBytes b ++ intOpBytes c))) := by
  unfold insertThreeIntegerOpsInstruction
  rw [Mem.store_eq _ _ _ (by first | (simp; done) | (simp; omega))]
  simp only [Res.bind_ok]
  rw [store_then_operand _ _ _ _ _ (by simp) (by first | (simp; done) | (simp; omega))]
  simp only [Res.bind_ok]
  rw [store_then_operand _ _ _ _ _ (by simp) (by first | (simp; done) | (simp; omega))]
  simp only [Res.bind_ok]
  rw [store_then_operand _ _ _ _ _ (by simp) (by first | (simp; done) | (simp; omega))]
  simp

theorem Call.size_eq_length (c : Call) : c.bytes.length = c.size := by
  cases c <;> rfl

theorem Program.assign_ok (p : Program) (a : Nat) (m : List Nat) :
    p.assign (.ok a m) = .ok () { p with program := m, addr_ptr := a } := rfl

/-- The effect of one encoder call whose instruction fits the buffer. -/
theorem Call.run_eq (c : Call) (p : Program) (h : p.addr_ptr + c.size ≤ p.program.length) :
    c.run p = .ok () { program := splice p.program p.addr_ptr c.bytes, bytes := p.bytes,
                       addr_ptr := p.addr_ptr + c.size,
                       branches := p.branches ++ (if c.isBranch then [p.addr_ptr] else []) } := by
  cases c
  case bstore a b =>
    have h2 : p.addr_ptr + 8 ≤ p.program.length := h
    simp only [Call.run, Program.bstore]
    rw [Mem.store_eq _ _ _ (by first | (simp; done) | (simp; omega))]
    simp only [Res.bind_ok]
    rw [store_then_operand _ _ _ _ _ (by simp) (by first | (simp; done) | (simp; omega))]
    simp only [Res.bind_ok]
    rw [store_then_store _ _ _ _ _ (by simp) (by first | (simp; done) | (simp; omega))]
    simp only [Res.bind_ok]
    rw [store_then_store _ _ _ _ _ (by simp) (by first | (simp; done) | (simp; omega))]
    simp [Program.assign, Call.bytes, Call.isBranch]
    rfl
  case jump addr =>
    have h2 : p.addr_ptr + 5 ≤ p.program.length := h
    simp only [Call.run, Program.jump]
    rw [Mem.store_eq _ _ _ (by first | (simp; done) | (simp; omega))]
    simp only [Res.bind_ok]
    rw [store_then_store _ _ _ _ _ (by simp) (by first | (simp; done) | (simp; omega))]
    simp [Program.assign, Call.bytes, Call.isBranch]
    rfl
  case branch c t f =>
    have h2 : p.addr_ptr + 14 ≤ p.program.length := h
    simp only [Call.run, Program.branch]
    rw [Mem.store_eq _ _ _ (by first | (simp; done) | (simp; omega))]
    simp only [Res.bind_ok]
    rw [store_then_operand _ _ _ _ _ (by simp) (by first | (simp; done) | (simp; omega))]
    simp only [Res.bind_ok]
    rw [store_then_store _ _ _ _ _ (by simp) (by first | (simp; done) | (simp; omega))]
    simp only [Res.bind_ok]
    rw [store_then_store _ _ _ _ _ (by simp) (by first | (simp; done) | (simp; omega))]
    simp [Program.assign, Call.bytes, Call.isBranch]
    rfl
  case pass =>
    have h2 : p.addr_ptr + 1 ≤ p.program.length := h
    simp only [Call.run, Program.pass]
    rw [Mem.store_eq _ _ _ (by first | (simp; done) | (simp; omega))]
    simp [Program.assign, Call.bytes, Call.isBranch]
    rfl
  case halt =>
    have h2 : p.addr_ptr + 1 ≤ p.program.length := h
    simp only [Call.run, Program.halt]
    rw [Mem.store_eq _ _ _ (by first | (simp; done) | (simp; omega))]
    simp [Program.assign, Call.bytes, Call.isBranch]
    rfl
  case istore a b | move a b | copy a b | ref a b | swap a b =>
    have h2 : p.addr_ptr + 11 ≤ p.program.length := h
    simp [Call.run, Program.istore, Program.move, Program.copy, Program.ref, Program.swap,
      insertTwoIntegerOpsInstruction_eq _ _ _ _ _ h2, Program.assign, Call.bytes, Call.isBranch]
    rfl
  case iinc a | idec a | lognot a | print a | echo a | ret a =>
    have h2 : p.addr_ptr + 6 ≤ p.program.length := h
    simp [Call.run, Program.iinc, Program.idec, Program.lognot, Program.print, Program.echo,
      Program.ret, insertOneIntegerOp_eq _ _ _ _ h2, Program.assign, Call.bytes, Call.isBranch]
    rfl
  all_goals
    have h2 : p.addr_ptr + 16 ≤ p.program.length := h
    simp [Call.run, Program.iadd, Program.isub, Program.imul, Program.idiv, Program.ilt,
      Program.ilte, Program.igt, Program.igte, Program.ieq, Program.logand, Program.logor,
      insertThreeIntegerOpsInstruction_eq _ _ _ _ _ _ h2, Program.assign, Call.bytes, Call.isBranch]
    rfl

@[simp] theorem encode_nil : encode [] = [] := rfl
@[simp] theorem encode_cons (c : Call) (cs : List Call) : encode (c :: cs) = c.bytes ++ encode cs := rfl
@[simp] theorem encodedSize_nil : encodedSize [] = 0 := rfl
@[simp] theorem encodedSize_cons (c : Call) (cs : List Call) :
    encodedSize (c :: cs) = c.size + encodedSize cs := by
  simp [encodedSize]

theorem encodedSize_append (as bs : List Call) :
    encodedSize (as ++ bs) = encodedSize as + encodedSize bs := by
  simp [encodedSize]

theorem encode_append (as bs : List Call) : encode (as ++ bs) = encode as ++ encode bs := by
  induction as with
  | nil => rfl
  | cons a as ih => simp [ih]

theorem encode_length (cs : List Call) : (encode cs).length = encodedSize cs := by
  induction cs with
  | nil => rfl
  | cons c cs ih => simp [ih, Call.size_eq_length]

theorem OPCODE.tabulated_pos (o : OPCODE) : 0 < (OP_SIZES (OP_NAMES o)).getD 0 := by
  cases o <;> decide

theorem Call.size_pos (c : Call) : 0 < c.size := OPCODE.tabulated_pos c.opcode

/-- The effect of a sequence of encoder calls that fits the buffer. -/
theorem runCalls_eq (cs : List Call) (p : Program)
    (h : p.addr_ptr + encodedSize cs ≤ p.program.length) :
    runCalls cs p = .ok () { program := splice p.program p.addr_ptr (encode cs), bytes := p.bytes,
                             addr_ptr := p.addr_ptr + encodedSize cs,
                             branches := p.branches ++ branchPositions cs p.addr_ptr } := by
  induction cs generalizing p with
  | nil =>
    cases p
    simp [runCalls, splice, branchPositions]
  | cons c cs ih =>
    rw [encodedSize_cons] at h
    rw [runCalls, Call.run_eq c p (by omega)]
    simp only [Res.bind_ok]
    rw [ih _ (by simp only []; rw [splice_length _ _ _ (by rw [Call.size_eq_length]; omega)]; omega)]
    simp only []
    rw [splice_splice _ _ _ _ _ (by rw [Call.size_eq_length]) (by rw [Call.size_eq_length]; omega)]
    simp [branchPositions, Nat.add_assoc]

/-- A buffer exactly filled by a sequence of calls holds their encodings. -/
theorem build_eq (cs : List Call) :
    build cs = .ok () { program := encode cs, bytes := encodedSize cs,
                        addr_ptr := encodedSize cs, branches := branchPositions cs 0 } := by
  unfold build
  rw [runCalls_eq _ _ (by simp [Program.new])]
  simp only [Program.new, Nat.zero_add, List.nil_append]
  have : splice (List.replicate (encodedSize cs) OPCODE.PASS.toByte) 0 (encode cs) = encode cs := by
    have := splice_block [] (List.replicate (encodedSize cs) OPCODE.PASS.toByte) [] (encode cs) 0 rfl
      (by simp [encode_length])
    simpa using this
  rw [this]

theorem OPCODE.ofByte_toByte (o : OPCODE) : OPCODE.ofByte o.toByte = some o := by
  cases o <;> rfl

theorem OPCODE.toByte_injective (a b : OPCODE) (h : a.toByte = b.toByte) : a = b := by
  have := congrArg OPCODE.ofByte h
  simpa [OPCODE.ofByte_toByte] using this

theorem Call.bytes_head (c : Call) : ∃ tl, c.bytes = c.opcode.toByte :: tl := by
  cases c <;> exact ⟨_, rfl⟩

theorem OPCODE.tabulated_some (o : OPCODE) :
    OP_SIZES (OP_NAMES o) = some ((OP_SIZES (OP_NAMES o)).getD 0) := by
  cases o <;> rfl

theorem Call.size_some (c : Call) : OP_SIZES (OP_NAMES c.opcode) = some c.size :=
  OPCODE.tabulated_some c.opcode

theorem encodedSize_pos (cs : List Call) (h : cs ≠ []) : 0 < encodedSize cs := by
  cases cs with
  | nil => exact absurd rfl h
  | cons c cs => have := Call.size_pos c; simp; omega

@[simp] theorem offsetOf_zero (cs : List Call) : offsetOf cs 0 = 0 := rfl

@[simp] theorem offsetOf_succ (c : Call) (cs : List Call) (k : Nat) :
    offsetOf (c :: cs) (k + 1) = c.size + offsetOf cs k := by
  simp [offsetOf]

/-- The walk of `getInstructionBytecodeOffset` over a buffer that holds, from
`pre.length` on, the encodings of the instructions `cs`. -/
theorem Program.offsetLoop_walk (p : Program) (m : Nat) (pre : List Nat) (cs : List Call)
    (hprog : p.program = pre ++ encode cs) (hbytes : p.bytes = pre.length + encodedSize cs)
    (hne : cs ≠ []) :
    p.offsetLoop m pre.length =
      if m < cs.length then .ok (pre.length + offsetOf cs m) p
      else .thrown "instruction offset out of bounds: check your branches" p := by
  induction m generalizing pre cs with
  | zero =>
    have : 0 < cs.length := List.length_pos.2 hne
    simp [Program.offsetLoop, this]
  | succ m ih =>
    cases cs with
    | nil => exact absurd rfl hne
    | cons c cs =>
      obtain ⟨tl, htl⟩ := Call.bytes_head c
      have hread : p.program[pre.length]? = some c.opcode.toByte := by
        rw [hprog, encode_cons, htl, List.getElem?_append_right (Nat.le_refl _)]
        simp
      rw [Program.offsetLoop, hread]
      simp only [Res.ofOption, Res.bind_ok, OPCODE.ofByte_toByte, Call.size_some]
      rw [encodedSize_cons] at hbytes
      by_cases hcs : cs = []
      · subst hcs
        simp [hbytes]
      · have hpos := encodedSize_pos cs hcs
        have hlen : 0 < cs.length := List.length_pos.2 hcs
        rw [if_neg (by omega)]
        have := ih (pre ++ c.bytes) cs (by rw [hprog]; simp) (by simp [Call.size_eq_length]; omega) hcs
        simp only [List.length_append, Call.size_eq_length] at this
        rw [this]
        simp [Nat.add_assoc]

theorem Program.instructionCountLoop_ok (p : Program) (h : p.bytes ≤ p.program.length)
    (fuel i counter : Nat) : ∃ N, p.instructionCountLoop fuel i counter = .ok N p := by
  induction fuel generalizing i counter with
  | zero => exact ⟨counter, rfl⟩
  | succ fuel ih =>
    unfold Program.instructionCountLoop
    by_cases hi : i < p.bytes
    · have hlt : i < p.program.length := by omega
      simp only [hi, if_true, List.getElem?_eq_getElem hlt, Res.ofOption, Res.bind_ok]
      exact ih _ _
    · simp only [hi, if_false]
      exact ⟨counter, rfl⟩

theorem Program.instructionCount_ok (p : Program) (h : p.bytes ≤ p.program.length) :
    ∃ N, p.instructionCount = .ok N p :=
  Program.instructionCountLoop_ok p h _ _ _

theorem offsetOf_eq_sizes (cs : List Call) (m : Nat) :
    offsetOf cs m = ((cs.map Call.size).take m).sum := by
  simp [offsetOf, encodedSize, List.map_take]

/-- What `getInstructionBytecodeOffset` returns on a non-empty buffer that holds
exactly the encodings of `cs`, given a non-negative count. -/
theorem Program.getInstructionBytecodeOffset_eq (p : Program) (cs : List Call)
    (hprog : p.program = encode cs) (hbytes : p.bytes = encodedSize cs) (hne : cs ≠ [])
    (instr count : Int) (hcount : count ≥ 0) :
    p.getInstructionBytecodeOffset instr count =
      if targetIndex instr count < cs.length then .ok (offsetOf cs (targetIndex instr count)) p
      else .thrown "instruction offset out of bounds: check your branches" p := by
  unfold Program.getInstructionBytecodeOffset
  simp only [hcount, if_true, Res.bind_ok]
  have := Program.offsetLoop_walk p (targetIndex instr count) [] cs (by simpa using hprog)
    (by simpa using hbytes) hne
  simpa [targetIndex] using this

/-- What `getInstructionBytecodeOffset` returns for a non-negative instruction
index, whatever the count. -/
theorem Program.getInstructionBytecodeOffset_nonneg (p : Program) (cs : List Call)
    (hprog : p.program = encode cs) (hbytes : p.bytes = encodedSize cs) (hne : cs ≠ [])
    (instr count : Int) (hinstr : instr ≥ 0) :
    p.getInstructionBytecodeOffset instr count =
      if instr.toNat < cs.length then .ok (offsetOf cs instr.toNat) p
      else .thrown "instruction offset out of bounds: check your branches" p := by
  unfold Program.getInstructionBytecodeOffset
  have hwalk := Program.offsetLoop_walk p instr.toNat [] cs (by simpa using hprog)
    (by simpa using hbytes) hne
  by_cases hcount : count ≥ 0
  · simp only [hcount, if_true, Res.bind_ok, hinstr]
    simpa using hwalk
  · obtain ⟨N, hN⟩ := Program.instructionCount_ok p (by rw [hprog, hbytes, encode_length])
    simp only [hcount, if_false, hN, Res.bind_ok, hinstr, if_true]
    simpa using hwalk

theorem bytesInt_intBytes (v : Int) : bytesInt (intBytes v) = toInt32 v := by
  simp only [intBytes, bytesInt, toInt32]
  omega

theorem toInt32_of_range (v : Int) (h0 : -2147483648 ≤ v) (h1 : v < 2147483648) : toInt32 v = v := by
  simp only [toInt32]
  omega

/-- Reading the `int` stored in the middle of a block. -/
theorem Mem.readInt_block (pre a b : List Nat) (k : Int) (pos : Nat) (hpos : pos = pre.length + a.length) :
    Mem.readInt (pre ++ (a ++ intBytes k ++ b)) pos = some (toInt32 k) := by
  subst hpos
  have h : pre ++ (a ++ intBytes k ++ b) = (pre ++ a) ++ (intBytes k ++ b) := by simp
  simp only [Mem.readInt, Mem.read]
  rw [if_pos (by simp; omega), h, ← List.length_append, List.drop_left]
  rw [show (4 : Nat) = (intBytes k).length from rfl, List.take_left]
  simp [bytesInt_intBytes]

/-- Overwriting the `int` stored in the middle of a block. -/
theorem Mem.write_block (pre a b x : List Nat) (o : Int) (pos : Nat)
    (hpos : pos = pre.length + a.length) (hx : x.length = 4) :
    Mem.write (pre ++ (a ++ x ++ b)) pos (intBytes o) = some (pre ++ (a ++ intBytes o ++ b)) := by
  subst hpos
  have h : pre ++ (a ++ x ++ b) = (pre ++ a) ++ x ++ b := by simp
  have := splice_block (pre ++ a) x b (intBytes o) (pre.length + a.length) (by simp) (by simp [hx])
  simp only [Mem.write]
  rw [if_pos (by simp; omega), h]
  unfold splice at this
  rw [this]
  simp

/-- The assignment `(*ptr) = getInstructionBytecodeOffset(*ptr, count)` on an
address operand stored inside the encoding of one instruction. -/
theorem Program.patchAddress_eq (p : Program) (cs l1 l2 : List Call) (a b : List Nat) (k : Int)
    (N : Nat) (sizes : List Nat) (pos : Nat)
    (hcs : p.program = encode cs) (hbytes : p.bytes = encodedSize cs) (hne : cs ≠ [])
    (hsizes : cs.map Call.size = sizes)
    (hprog : p.program = encode l1 ++ (a ++ intBytes k ++ b) ++ encode l2)
    (hpos : pos = encodedSize l1 + a.length) :
    p.patchAddress pos N =
      match resolveTarget sizes N k with
      | some o => .ok () { p with program := encode l1 ++ (a ++ intBytes o ++ b) ++ encode l2 }
      | none => .thrown "instruction offset out of bounds: check your branches" p := by
  have hprog2 : p.program = encode l1 ++ (a ++ intBytes k ++ (b ++ encode l2)) := by
    rw [hprog]; simp
  have hread : Mem.readInt p.program pos = some (toInt32 k) := by
    rw [hprog2]
    exact Mem.readInt_block _ _ _ _ _ (by rw [hpos, encode_length])
  unfold Program.patchAddress
  rw [hread]
  simp only [Res.ofOption, Res.bind_ok]
  rw [Program.getInstructionBytecodeOffset_eq p cs hcs hbytes hne _ _ (by omega)]
  have hlen : sizes.length = cs.length := by rw [← hsizes]; simp
  unfold resolveTarget
  rw [hlen]
  by_cases ht : targetIndex (toInt32 k) N < cs.length
  · simp only [ht, if_true, Res.bind_ok]
    rw [hprog2, Mem.write_block (encode l1) a (b ++ encode l2) (intBytes k) _ pos (by rw [hpos, encode_length]) (intBytes_length k)]
    simp only [offsetOf_eq_sizes, hsizes]
    simp
  · simp only [ht, if_false, Res.bind_thrown]

theorem patchCall_of_not_isBranch (sizes : List Nat) (count : Int) (c : Call)
    (h : c.isBranch = false) : patchCall sizes count c = some c := by
  cases c <;> first | rfl | simp [Call.isBranch] at h

theorem Call.isBranch_cases (c : Call) (h : c.isBranch = true) :
    (∃ k, c = .jump k) ∨ (∃ r t f, c = .branch r t f) := by
  cases c <;> simp [Call.isBranch] at h
  · exact Or.inl ⟨_, rfl⟩
  · exact Or.inr ⟨_, _, _, rfl⟩

theorem encode_middle (l1 l2 : List Call) (c : Call) :
    encode (l1 ++ c :: l2) = encode l1 ++ c.bytes ++ encode l2 := by
  simp [encode_append]

theorem Program.read_tag (p : Program) (l1 l2 : List Call) (c : Call)
    (hprog : p.program = encode (l1 ++ c :: l2)) :
    p.program[encodedSize l1]? = some c.opcode.toByte := by
  obtain ⟨tl, htl⟩ := Call.bytes_head c
  rw [hprog, encode_middle, htl, List.append_assoc,
    List.getElem?_append_right (by rw [encode_length])]
  simp [encode_length]

/-- The loop of `calculateBranches` over the positions recorded by the calls `l2`,
on a buffer that holds the encodings of `l1 ++ l2`. -/
theorem Program.calculateBranchesLoop_eq (sizes : List Nat) (N : Nat) (l2 : List Call) :
    ∀ (l1 : List Call) (p : Program), p.program = encode (l1 ++ l2) →
      p.bytes = encodedSize (l1 ++ l2) → (l1 ++ l2).map Call.size = sizes →
      match patchCalls sizes N l2 with
      | some l2' => Program.calculateBranchesLoop N (branchPositions l2 (encodedSize l1)) p
            = .ok () { p with program := encode (l1 ++ l2') }
      | none => ∃ s, Program.calculateBranchesLoop N (branchPositions l2 (encodedSize l1)) p
            = .thrown "instruction offset out of bounds: check your branches" s := by
  induction l2 with
  | nil =>
    intro l1 p hprog hbytes hsizes
    simp only [patchCalls, branchPositions, Program.calculateBranchesLoop]
    rw [← hprog]
  | cons c l2 ih =>
    intro l1 p hprog hbytes hsizes
    have hne : l1 ++ c :: l2 ≠ [] := by simp
    by_cases hb : c.isBranch = true
    · rcases Call.isBranch_cases c hb with ⟨k, rfl⟩ | ⟨r, t, f, rfl⟩
      · have htag := Program.read_tag p l1 l2 _ hprog
        simp only [branchPositions, Call.isBranch, if_true, List.singleton_append,
          Program.calculateBranchesLoop, htag, Res.ofOption, Res.bind_ok, Call.opcode]
        have hpatch := Program.patchAddress_eq p (l1 ++ Call.jump k :: l2) l1 l2
          [OPCODE.JUMP.toByte] [] k N sizes (encodedSize l1 + 1) hprog hbytes hne hsizes
          (by rw [hprog, encode_middle]; simp [Call.bytes]) (by simp)
        rw [hpatch]
        simp only [patchCalls, patchCall]
        cases hres : resolveTarget sizes N k with
        | none => simp
        | some o =>
          simp only [Option.map_some', Res.bind_ok]
          have hih := ih (l1 ++ [Call.jump o])
            { p with program := encode l1 ++ ([OPCODE.JUMP.toByte] ++ intBytes o ++ []) ++ encode l2 }
            (by simp [encode_append, Call.bytes]) (by simpa [encodedSize_append] using hbytes)
            (by rw [← hsizes]; simp; rfl)
          have hsz : encodedSize (l1 ++ [Call.jump o]) = encodedSize l1 + (Call.jump k).size := by
            simp [encodedSize_append]; rfl
          rw [hsz] at hih
          cases hrest : patchCalls sizes N l2 with
          | none =>
            rw [hrest] at hih
            simpa using hih
          | some l2' =>
            rw [hrest] at hih
            simpa using hih
      · have htag := Program.read_tag p l1 l2 _ hprog
        have hnj : ¬ (OPCODE.BRANCH.toByte = OPCODE.JUMP.toByte) := by decide
        simp only [branchPositions, Call.isBranch, if_true, List.singleton_append,
          Program.calculateBranchesLoop, htag, Res.ofOption, Res.bind_ok, Call.opcode, hnj,
          if_false]
        have hpatch := Program.patchAddress_eq p (l1 ++ Call.branch r t f :: l2) l1 l2
          (OPCODE.BRANCH.toByte :: intOpBytes r) (intBytes f) t N sizes (encodedSize l1 + 6)
          hprog hbytes hne hsizes
          (by rw [hprog, encode_middle]; simp [Call.bytes]) (by simp)
        rw [hpatch]
        simp only [patchCalls, patchCall]
        cases hres : resolveTarget sizes N t with
        | none => simp
        | some t1 =>
          simp only [Res.bind_ok]
          have hpatch2 := Program.patchAddress_eq
            { p with program := encode l1 ++ (OPCODE.BRANCH.toByte :: intOpBytes r ++ intBytes t1
                ++ intBytes f) ++ encode l2 }
            (l1 ++ Call.branch r t1 f :: l2) l1 l2
            (OPCODE.BRANCH.toByte :: intOpBytes r ++ intBytes t1) [] f N sizes (encodedSize l1 + 10)
            (by simp [encode_append, Call.bytes]) (by simpa [encodedSize_append] using hbytes)
            (by simp) (by rw [← hsizes]; simp; rfl)
            (by simp) (by simp)
          rw [hpatch2]
          cases hres2 : resolveTarget sizes N f with
          | none => simp
          | some f1 =>
            simp only [Res.bind_ok]
            have hih := ih (l1 ++ [Call.branch r t1 f1])
              { p with program := encode l1 ++ (OPCODE.BRANCH.toByte :: intOpBytes r ++ intBytes t1
                  ++ intBytes f1 ++ []) ++ encode l2 }
              (by simp [encode_append, Call.bytes]) (by simpa [encodedSize_append] using hbytes)
              (by rw [← hsizes]; simp; rfl)
            have hsz : encodedSize (l1 ++ [Call.branch r t1 f1])
                = encodedSize l1 + (Call.branch r t f).size := by
              simp [encodedSize_append]; rfl
            rw [hsz] at hih
            cases hrest : patchCalls sizes N l2 with
            | none =>
              rw [hrest] at hih
              simpa using hih
            | some l2' =>
              rw [hrest] at hih
              simpa using hih
    · have hb2 : c.isBranch = false := by simpa using hb
      have hih := ih (l1 ++ [c]) p (by simpa using hprog) (by simpa using hbytes) (by simpa using hsizes)
      have hsz : encodedSize (l1 ++ [c]) = encodedSize l1 + c.size := by
        simp [encodedSize_append]
      rw [hsz] at hih
      simp only [patchCalls, patchCall_of_not_isBranch _ _ _ hb2, branchPositions, hb2,
        List.nil_append]
      cases hrest : patchCalls sizes N l2 with
      | none =>
        rw [hrest] at hih
        simpa using hih
      | some l2' =>
        rw [hrest] at hih
        simpa using hih

/-- `calculateBranches` on a buffer exactly filled by the calls `cs`. -/
theorem Program.calculateBranches_built (cs : List Call) :
    ∃ N : Nat,
      match patchCalls (cs.map Call.size) N cs with
      | some cs1 =>
          ({ program := encode cs, bytes := encodedSize cs, addr_ptr := encodedSize cs,
             branches := branchPositions cs 0 } : Program).calculateBranches
            = .ok () { program := encode cs1, bytes := encodedSize cs, addr_ptr := encodedSize cs,
                       branches := branchPositions cs 0 }
      | none => ∃ s,
          ({ program := encode cs, bytes := encodedSize cs, addr_ptr := encodedSize cs,
             branches := branchPositions cs 0 } : Program).calculateBranches
            = .thrown "instruction offset out of bounds: check your branches" s := by
  obtain ⟨N, hN⟩ := Program.instructionCount_ok
    ({ program := encode cs, bytes := encodedSize cs, addr_ptr := encodedSize cs,
       branches := branchPositions cs 0 } : Program) (by simp [encode_length])
  refine ⟨N, ?_⟩
  have h := Program.calculateBranchesLoop_eq (cs.map Call.size) N cs []
    ({ program := encode cs, bytes := encodedSize cs, addr_ptr := encodedSize cs,
       branches := branchPositions cs 0 } : Program) rfl rfl rfl
  unfold Program.calculateBranches
  rw [hN]
  simp only [Res.bind_ok]
  cases hp : patchCalls (cs.map Call.size) N cs with
  | none => rw [hp] at h; simpa using h
  | some cs1 => rw [hp] at h; simpa using h

theorem patchCall_size (sizes : List Nat) (count : Int) (c c1 : Call)
    (h : patchCall sizes count c = some c1) : c1.size = c.size ∧ c1.opcode = c.opcode := by
  cases c <;> simp only [patchCall, Option.some.injEq] at h
  case jump k =>
    cases hr : resolveTarget sizes count k with
    | none => simp [hr] at h
    | some o => simp [hr] at h; subst h; exact ⟨rfl, rfl⟩
  case branch r t f =>
    cases hr : resolveTarget sizes count t with
    | none => simp [hr] at h
    | some t1 =>
      cases hr2 : resolveTarget sizes count f with
      | none => simp [hr, hr2] at h
      | some f1 => simp [hr, hr2] at h; subst h; exact ⟨rfl, rfl⟩
  all_goals subst h; exact ⟨rfl, rfl⟩

theorem patchCalls_cons (sizes : List Nat) (count : Int) (c : Call) (cs l : List Call)
    (h : patchCalls sizes count (c :: cs) = some l) :
    ∃ c1 cs1, l = c1 :: cs1 ∧ patchCall sizes count c = some c1 ∧
      patchCalls sizes count cs = some cs1 := by
  simp only [patchCalls] at h
  cases h1 : patchCall sizes count c with
  | none => simp [h1] at h
  | some c1 =>
    cases h2 : patchCalls sizes count cs with
    | none => simp [h1, h2] at h
    | some cs1 =>
      simp [h1, h2] at h
      exact ⟨c1, cs1, h.symm, rfl, rfl⟩

theorem patchCalls_getElem (sizes : List Nat) (count : Int) (cs cs1 : List Call)
    (h : patchCalls sizes count cs = some cs1) (j : Nat) (c : Call) (hc : cs[j]? = some c) :
    ∃ c1, cs1[j]? = some c1 ∧ patchCall sizes count c = some c1 := by
  induction cs generalizing cs1 j with
  | nil => simp at hc
  | cons d cs ih =>
    obtain ⟨d1, l, rfl, hd, hl⟩ := patchCalls_cons _ _ _ _ _ h
    cases j with
    | zero =>
      simp at hc
      subst hc
      exact ⟨d1, by simp, hd⟩
    | succ j =>
      simp at hc
      obtain ⟨c1, h1, h2⟩ := ih l hl j hc
      exact ⟨c1, by simpa using h1, h2⟩

theorem patchCalls_sizes (sizes : List Nat) (count : Int) (cs cs1 : List Call)
    (h : patchCalls sizes count cs = some cs1) : cs1.map Call.size = cs.map Call.size := by
  induction cs generalizing cs1 with
  | nil => simp [patchCalls] at h; subst h; rfl
  | cons d cs ih =>
    obtain ⟨d1, l, rfl, hd, hl⟩ := patchCalls_cons _ _ _ _ _ h
    simp [ih l hl, (patchCall_size _ _ _ _ hd).1]

theorem patchCalls_none_of_mem (sizes : List Nat) (count : Int) (cs : List Call) (c : Call)
    (hc : c ∈ cs) (h : patchCall sizes count c = none) : patchCalls sizes count cs = none := by
  induction cs with
  | nil => simp at hc
  | cons d cs ih =>
    simp only [patchCalls]
    rcases List.mem_cons.1 hc with rfl | hmem
    · rw [h]
    · rw [ih hmem]
      cases patchCall sizes count d <;> rfl

theorem patchCalls_some_of_forall (sizes : List Nat) (count : Int) (cs : List Call)
    (h : ∀ c ∈ cs, ∃ c1, patchCall sizes count c = some c1) :
    ∃ cs1, patchCalls sizes count cs = some cs1 := by
  induction cs with
  | nil => exact ⟨[], rfl⟩
  | cons d cs ih =>
    obtain ⟨d1, hd⟩ := h d (by simp)
    obtain ⟨cs1, hcs⟩ := ih (fun c hc => h c (by simp [hc]))
    exact ⟨d1 :: cs1, by simp [patchCalls, hd, hcs]⟩

theorem length_le_encodedSize (cs : List Call) : cs.length ≤ encodedSize cs := by
  induction cs with
  | nil => simp
  | cons c cs ih => have := Call.size_pos c; simp; omega

theorem offsetOf_le (cs : List Call) (k : Nat) : offsetOf cs k ≤ encodedSize cs := by
  have h : encodedSize (cs.take k ++ cs.drop k) = encodedSize cs := by rw [List.take_append_drop]
  rw [encodedSize_append] at h
  unfold offsetOf
  omega

/-- Where an in-range address operand resolves to. -/
theorem resolveTarget_of_range (cs : List Call) (count : Int) (k : Int)
    (hsize : encodedSize cs < 2147483648) (h0 : 0 ≤ k) (h1 : k < cs.length) :
    resolveTarget (cs.map Call.size) count k = some ((offsetOf cs k.toNat : Nat) : Int) := by
  have hlen := length_le_encodedSize cs
  have hk : toInt32 k = k := toInt32_of_range k (by omega) (by omega)
  have ht : targetIndex k count = k.toNat := by simp [targetIndex, h0]
  unfold resolveTarget
  rw [hk, ht, if_pos (by simp; omega), offsetOf_eq_sizes]

/-- An address operand at or past the instruction count does not resolve. -/
theorem resolveTarget_of_past (cs : List Call) (count : Int) (k : Int)
    (h0 : (cs.length : Int) ≤ k) (h1 : k < 2147483648) :
    resolveTarget (cs.map Call.size) count k = none := by
  have hk : toInt32 k = k := toInt32_of_range k (by omega) (by omega)
  have ht : targetIndex k count = k.toNat := by
    have : k ≥ 0 := by omega
    simp [targetIndex, this]
  unfold resolveTarget
  rw [hk, ht, if_neg (by simp; omega)]

/-- Reading an `int` stored `a.length` bytes into instruction `j`. -/
theorem Mem.readInt_instruction (cs : List Call) (j : Nat) (c : Call) (hc : cs[j]? = some c)
    (a b : List Nat) (k : Int) (hbytes : c.bytes = a ++ intBytes k ++ b) :
    Mem.readInt (encode cs) (offsetOf cs j + a.length) = some (toInt32 k) := by
  have hj : j < cs.length := by
    rcases Nat.lt_or_ge j cs.length with h | h
    · exact h
    · rw [List.getElem?_eq_none h] at hc; simp at hc
  have hsplit : cs = cs.take j ++ c :: cs.drop (j + 1) := by
    have hget : cs[j] = c := by
      rw [List.getElem?_eq_getElem hj] at hc; simpa using hc
    rw [← hget]
    simp
  have henc : encode cs = encode (cs.take j) ++ (a ++ intBytes k ++ (b ++ encode (cs.drop (j + 1)))) := by
    conv_lhs => rw [hsplit]
    rw [encode_middle, hbytes]
    simp
  rw [henc]
  exact Mem.readInt_block _ _ _ _ _ (by rw [encode_length]; rfl)

theorem encode_tag (cs : List Call) (j : Nat) (c : Call) (hc : cs[j]? = some c) :
    (encode cs)[offsetOf cs j]? = some c.opcode.toByte := by
  have hj : j < cs.length := by
    rcases Nat.lt_or_ge j cs.length with h | h
    · exact h
    · rw [List.getElem?_eq_none h] at hc; simp at hc
  have hsplit : cs = cs.take j ++ c :: cs.drop (j + 1) := by
    have hget : cs[j] = c := by
      rw [List.getElem?_eq_getElem hj] at hc; simpa using hc
    rw [← hget]
    simp
  have := Program.read_tag { program := encode cs, bytes := 0, addr_ptr := 0, branches := [] }
    (cs.take j) (cs.drop (j + 1)) c (by simp only []; rw [← hsplit])
  exact this

theorem offsetOf_patched (sizes : List Nat) (count : Int) (cs cs1 : List Call)
    (h : patchCalls sizes count cs = some cs1) (j : Nat) : offsetOf cs1 j = offsetOf cs j := by
  rw [offsetOf_eq_sizes, offsetOf_eq_sizes, patchCalls_sizes _ _ _ _ h]

/-- C5: in a buffer exactly filled by the encoder calls `cs` (of less than 2^31
bytes, the range of the `int` that holds its size), `calculateBranches`
returns normally when every address operand of every recorded `JUMP` and
`BRANCH` is an instruction index `k` with `0 <= k < n`; and whenever it
returns normally, every such operand of a `JUMP` (one byte after the tag) and
both the true and the false target of a `BRANCH` (six and ten bytes after
the tag, past the five-byte condition operand) hold the sum of the tabulated
sizes of instructions `0..k-1`, which is the offset of the opcode byte of
instruction `k`. -/
theorem C5_backpatching (cs : List Call) (hsize : encodedSize cs < 2147483648) :
    ∃ p, build cs = .ok () p ∧
      ((∀ (j : Nat) (k : Int), cs[j]? = some (.jump k) → 0 ≤ k ∧ k < (cs.length : Int)) →
       (∀ (j : Nat) (r : int_op) (t f : Int), cs[j]? = some (.branch r t f) →
          (0 ≤ t ∧ t < (cs.length : Int)) ∧ (0 ≤ f ∧ f < (cs.length : Int))) →
        ∃ p1, p.calculateBranches = .ok () p1) ∧
      ∀ p1, p.calculateBranches = .ok () p1 →
        (∀ (j : Nat) (k : Int), cs[j]? = some (.jump k) → 0 ≤ k → k < (cs.length : Int) →
          Mem.readInt p1.program (offsetOf cs j + 1) = some ((offsetOf cs k.toNat : Nat) : Int)) ∧
        (∀ (j : Nat) (r : int_op) (t f : Int), cs[j]? = some (.branch r t f) →
          (0 ≤ t → t < (cs.length : Int) →
            Mem.readInt p1.program (offsetOf cs j + 6) = some ((offsetOf cs t.toNat : Nat) : Int)) ∧
          (0 ≤ f → f < (cs.length : Int) →
            Mem.readInt p1.program (offsetOf cs j + 10) = some ((offsetOf cs f.toNat : Nat) : Int))) ∧
        (∀ (k : Nat) (c : Call), cs[k]? = some c →
          p1.program[offsetOf cs k]? = some c.opcode.toByte) := by
  refine ⟨_, build_eq cs, ?_, ?_⟩
  · intro hj hb
    obtain ⟨N, hN⟩ := Program.calculateBranches_built cs
    obtain ⟨cs1, hcs1⟩ := patchCalls_some_of_forall (cs.map Call.size) N cs (by
      intro c hc
      obtain ⟨j, hjlt, hget⟩ := List.getElem_of_mem hc
      have hget2 : cs[j]? = some c := by rw [List.getElem?_eq_getElem hjlt, hget]
      by_cases hbr : c.isBranch = true
      · rcases Call.isBranch_cases c hbr with ⟨k, rfl⟩ | ⟨r, t, f, rfl⟩
        · obtain ⟨h0, h1⟩ := hj j k hget2
          exact ⟨Call.jump ((offsetOf cs k.toNat : Nat) : Int),
            by simp [patchCall, resolveTarget_of_range cs N k hsize h0 h1]⟩
        · obtain ⟨⟨h0, h1⟩, ⟨h2, h3⟩⟩ := hb j r t f hget2
          exact ⟨Call.branch r ((offsetOf cs t.toNat : Nat) : Int) ((offsetOf cs f.toNat : Nat) : Int),
            by simp [patchCall, resolveTarget_of_range cs N t hsize h0 h1,
              resolveTarget_of_range cs N f hsize h2 h3]⟩
      · exact ⟨c, patchCall_of_not_isBranch _ _ _ (by simpa using hbr)⟩)
    rw [hcs1] at hN
    exact ⟨_, hN⟩
  · intro p1 hp1
    obtain ⟨N, hN⟩ := Program.calculateBranches_built cs
    cases hcs1 : patchCalls (cs.map Call.size) N cs with
    | none =>
      rw [hcs1] at hN
      obtain ⟨s, hs⟩ := hN
      rw [hs] at hp1
      exact absurd hp1 (by simp)
    | some cs1 =>
      rw [hcs1] at hN
      simp only [] at hN
      rw [hN] at hp1
      simp only [Res.ok.injEq, true_and] at hp1
      subst hp1
      simp only []
      have hoff : ∀ j, offsetOf cs1 j = offsetOf cs j := offsetOf_patched _ _ _ _ hcs1
      have hle : ∀ m, ((offsetOf cs m : Nat) : Int) < 2147483648 := by
        intro m; have := offsetOf_le cs m; omega
      refine ⟨?_, ?_, ?_⟩
      · intro j k hjk h0 h1
        obtain ⟨c1, hc1, hpc⟩ := patchCalls_getElem _ _ _ _ hcs1 j _ hjk
        simp only [patchCall, resolveTarget_of_range cs N k hsize h0 h1, Option.map_some',
          Option.some.injEq] at hpc
        subst hpc
        have := Mem.readInt_instruction cs1 j _ hc1 [OPCODE.JUMP.toByte] []
          ((offsetOf cs k.toNat : Nat) : Int) (by simp [Call.bytes])
        rw [hoff] at this
        rw [show offsetOf cs j + 1 = offsetOf cs j + [OPCODE.JUMP.toByte].length from rfl, this,
          toInt32_of_range _ (by omega) (hle _)]
      · intro j r t f hjb
        obtain ⟨c1, hc1, hpc⟩ := patchCalls_getElem _ _ _ _ hcs1 j _ hjb
        simp only [patchCall] at hpc
        cases ht : resolveTarget (cs.map Call.size) N t with
        | none => simp [ht] at hpc
        | some t1 =>
          cases hf : resolveTarget (cs.map Call.size) N f with
          | none => simp [ht, hf] at hpc
          | some f1 =>
            simp only [ht, hf, Option.some.injEq] at hpc
            subst hpc
            refine ⟨fun h0 h1 => ?_, fun h0 h1 => ?_⟩
            · rw [resolveTarget_of_range cs N t hsize h0 h1] at ht
              simp only [Option.some.injEq] at ht
              subst ht
              have := Mem.readInt_instruction cs1 j _ hc1 (OPCODE.BRANCH.toByte :: intOpBytes r)
                (intBytes f1) ((offsetOf cs t.toNat : Nat) : Int) (by simp [Call.bytes])
              rw [hoff] at this
              rw [show offsetOf cs j + 6 = offsetOf cs j
                  + (OPCODE.BRANCH.toByte :: intOpBytes r).length from rfl, this,
                toInt32_of_range _ (by omega) (hle _)]
            · rw [resolveTarget_of_range cs N f hsize h0 h1] at hf
              simp only [Option.some.injEq] at hf
              subst hf
              have := Mem.readInt_instruction cs1 j _ hc1
                (OPCODE.BRANCH.toByte :: intOpBytes r ++ intBytes t1) []
                ((offsetOf cs f.toNat : Nat) : Int) (by simp [Call.bytes])
              rw [hoff] at this
              rw [show offsetOf cs j + 10 = offsetOf cs j
                  + (OPCODE.BRANCH.toByte :: intOpBytes r ++ intBytes t1).length from rfl, this,
                toInt32_of_range _ (by omega) (hle _)]
      · intro k c hkc
        obtain ⟨c1, hc1, hpc⟩ := patchCalls_getElem _ _ _ _ hcs1 k _ hkc
        have := encode_tag cs1 k c1 hc1
        rw [hoff, (patchCall_size _ _ _ _ hpc).2] at this
        exact this

/-- C6: in a buffer exactly filled by the `n` encoder calls `cs`,
`calculateBranches` fails with `instruction offset out of bounds: check your
branches` when some `JUMP` or `BRANCH` has an address operand (an `int`)
`k >= n`. `getInstructionBytecodeOffset` is a private method that only
`calculateBranches` calls, once for each address operand of a recorded
branch: in every buffer with a recorded branch it raises that error for every
instruction index `k >= n`, whatever the count passed, and in every buffer it
returns the offset of instruction `k` for `0 <= k < n`. -/
theorem C6_offset_out_of_bounds (cs : List Call) :
    ∃ p, build cs = .ok () p ∧
      (p.branches ≠ [] → ∀ k count : Int, (cs.length : Int) ≤ k →
        p.getInstructionBytecodeOffset k count
          = .thrown "instruction offset out of bounds: check your branches" p) ∧
      (∀ k count : Int, 0 ≤ k → k < (cs.length : Int) →
        p.getInstructionBytecodeOffset k count = .ok (offsetOf cs k.toNat) p) ∧
      (∀ (j : Nat) (k : Int), cs[j]? = some (.jump k) → (cs.length : Int) ≤ k → k < 2147483648 →
        ∃ s, p.calculateBranches
          = .thrown "instruction offset out of bounds: check your branches" s) ∧
      (∀ (j : Nat) (r : int_op) (t f : Int), cs[j]? = some (.branch r t f) →
        ((cs.length : Int) ≤ t ∧ t < 2147483648) ∨ ((cs.length : Int) ≤ f ∧ f < 2147483648) →
        ∃ s, p.calculateBranches
          = .thrown "instruction offset out of bounds: check your branches" s) := by
  refine ⟨_, build_eq cs, ?_, ?_, ?_, ?_⟩
  · intro hbr k count hk
    have hne : cs ≠ [] := by
      rintro rfl
      exact hbr rfl
    rw [Program.getInstructionBytecodeOffset_nonneg _ cs rfl rfl hne k count (by omega)]
    rw [if_neg (by omega)]
  · intro k count h0 h1
    have hne : cs ≠ [] := by
      rintro rfl
      simp at h1
      omega
    rw [Program.getInstructionBytecodeOffset_nonneg _ cs rfl rfl hne k count (by omega)]
    rw [if_pos (by omega)]
  · intro j k hjk hk hint
    obtain ⟨N, hN⟩ := Program.calculateBranches_built cs
    have hmem : Call.jump k ∈ cs := List.getElem?_mem hjk
    rw [patchCalls_none_of_mem _ _ cs _ hmem
      (by simp [patchCall, resolveTarget_of_past cs N k hk hint])] at hN
    exact hN
  · intro j r t f hjb hor
    obtain ⟨N, hN⟩ := Program.calculateBranches_built cs
    have hmem : Call.branch r t f ∈ cs := List.getElem?_mem hjb
    rw [patchCalls_none_of_mem _ _ cs _ hmem (by
      rcases hor with ⟨h1, h2⟩ | ⟨h1, h2⟩
      · simp [patchCall, resolveTarget_of_past cs N t h1 h2]
      · simp only [patchCall, resolveTarget_of_past cs N f h1 h2]
        cases resolveTarget (List.map Call.size cs) N t <;> rfl)] at hN
    exact hN

/-- C6 at the buffer that holds the single instruction `jump 1`, recorded at
position 0: index 1 is out of bounds, index 0 is found, and back-patching
fails. -/
theorem C6_offset_out_of_bounds_witness :
    ∃ p s, build [Call.jump 1] = .ok () p ∧ p.branches = [0] ∧
      p.getInstructionBytecodeOffset 1 (-1)
        = .thrown "instruction offset out of bounds: check your branches" p ∧
      p.getInstructionBytecodeOffset 0 (-1) = .ok 0 p ∧
      p.calculateBranches = .thrown "instruction offset out of bounds: check your branches" s := by
  obtain ⟨p, h1, h2, h3, h4, _⟩ := C6_offset_out_of_bounds [Call.jump 1]
  have e : build [Call.jump 1] = .ok () (Program.mk [23, 1, 0, 0, 0] 5 5 [0]) := rfl
  have hp := h1
  rw [e] at hp
  simp only [Res.ok.injEq, true_and] at hp
  subst hp
  obtain ⟨s, hs⟩ := h4 0 1 rfl (by decide) (by decide)
  exact ⟨_, s, h1, rfl, h2 (by decide) 1 (-1) (by decide), h3 0 (-1) (by decide) (by decide), hs⟩

/-- The call `getInstructionBytecodeOffset(0)` on the empty buffer, which no
caller makes (an empty buffer has no recorded branch), returns offset 0. -/
theorem Program.getInstructionBytecodeOffset_empty_buffer :
    ∃ p, build [] = .ok () p ∧ p.branches = [] ∧
      p.getInstructionBytecodeOffset 0 (-1) = .ok 0 p :=
  ⟨_, rfl, rfl, rfl⟩


/-- C5 at the sample program: the jump to instruction 3 is patched to byte 30,
the branch targets 0 and 1 to the offsets of instructions 0 and 1. -/
theorem C5_backpatching_witness :
    ∃ p p1, build sampleCalls = .ok () p ∧ p.calculateBranches = .ok () p1 ∧
      Mem.readInt p1.program (offsetOf sampleCalls 1 + 1) = some ((offsetOf sampleCalls 3 : Nat) : Int) ∧
      Mem.readInt p1.program (offsetOf sampleCalls 2 + 6) = some ((offsetOf sampleCalls 0 : Nat) : Int) ∧
      Mem.readInt p1.program (offsetOf sampleCalls 2 + 10) = some ((offsetOf sampleCalls 1 : Nat) : Int) ∧
      offsetOf sampleCalls 3 = 30 := by
  obtain ⟨p, hb, hsucc, hprop⟩ := C5_backpatching sampleCalls (by decide)
  obtain ⟨p1, hp1⟩ := hsucc
    (by
      intro j k h
      rcases j with _ | _ | _ | _ | j <;> simp [sampleCalls] at h
      subst h; decide)
    (by
      intro j r t f h
      rcases j with _ | _ | _ | _ | j <;> simp [sampleCalls] at h
      obtain ⟨_, rfl, rfl⟩ := h; decide)
  obtain ⟨hj, hbr, _⟩ := hprop p1 hp1
  exact ⟨p, p1, hb, hp1, hj 1 3 rfl (by decide) (by decide),
    (hbr 2 (false, 2) 0 1 rfl).1 (by decide) (by decide),
    (hbr 2 (false, 2) 0 1 rfl).2 (by decide) (by decide), by decide⟩

/-! ## The dispatch loop, the handlers and the assembler on concrete programs -/

/-- C9: for a CPU with bytecode loaded, whenever the dispatch loop of `run` ends,
`run` returns 1 if it ended on a runtime error (an exception of a handler, or
the instruction pointer out of bounds), whatever register 0 holds; if it
ended on `HALT`, `run` returns 0 when register 0 is empty and the payload of
the `Integer` in register 0 when it holds one. -/
theorem C9_run_exit_code (ext : Handlers) (fuel : Nat) (c : CPU) (bc : List Nat)
    (hloaded : c.bytecode = some bc) (exit : LoopExit) (c1 : CPU)
    (hloop : c.runLoop ext fuel c.executable_offset = some (.ok exit c1)) :
    ((∀ msg, exit = .exception msg → c.run ext fuel = some (.ok 1 c1)) ∧
     (exit = .outOfBounds → c.run ext fuel = some (.ok 1 c1))) ∧
    (exit = .halted → 0 < c1.reg_count → c1.registers 0 = 0 → c.run ext fuel = some (.ok 0 c1)) ∧
    (exit = .halted → 0 < c1.reg_count → c1.registers 0 ≠ 0 →
      ∀ v, c1.heap (c1.registers 0) = some (.Integer v) → c.run ext fuel = some (.ok v c1)) := by
  refine ⟨⟨fun msg h => ?_, fun h => ?_⟩, fun h hn h0 => ?_, fun h hn h0 v hv => ?_⟩
  · subst h
    simp [CPU.run, hloaded, hloop, LoopExit.return_code]
  · subst h
    simp [CPU.run, hloaded, hloop, LoopExit.return_code]
  · subst h
    simp [CPU.run, hloaded, hloop, LoopExit.return_code, CPU.loadRegister, hn, h0]
  · subst h
    simp [CPU.run, hloaded, hloop, LoopExit.return_code, CPU.loadRegister, hn, h0, CPU.integerValue, hv]

/-- C9 on concrete programs: the bytecode assembled from `istore 0 7 ; halt`
returns 7, a lone `halt` returns 0, a lone `pass` runs out of the bytecode and
returns 1, and `iinc 5 ; halt` on an empty register 5 raises and returns 1. -/
theorem C9_run_exit_code_witness :
    ∃ p c1 c2 c3 c4, assemble (Program.new 12) ["istore 0 7", "halt"] = .ok () p ∧
      (CPU.fresh 16 p.program).run noHandlers 2 = some (.ok 7 c1) ∧
      (CPU.fresh 16 [OPCODE.HALT.toByte]).run noHandlers 1 = some (.ok 0 c2) ∧
      (CPU.fresh 16 [OPCODE.PASS.toByte]).run noHandlers 1 = some (.ok 1 c3) ∧
      (CPU.fresh 16 [OPCODE.IINC.toByte, 0, 5, 0, 0, 0, OPCODE.HALT.toByte]).run noHandlers 2
        = some (.ok 1 c4) :=
  ⟨_, _, _, _, _, rfl,
    ((C9_run_exit_code noHandlers 2 (CPU.fresh 16 [0, 0, 0, 0, 0, 0, 0, 7, 0, 0, 0, 26]) _ rfl
      .halted _ rfl).2.2 rfl (by decide) (by decide) 7 rfl),
    ((C9_run_exit_code noHandlers 1 (CPU.fresh 16 [OPCODE.HALT.toByte]) _ rfl
      .halted _ rfl).2.1 rfl (by decide) rfl),
    ((C9_run_exit_code noHandlers 1 (CPU.fresh 16 [OPCODE.PASS.toByte]) _ rfl
      .outOfBounds _ rfl).1.2 rfl),
    ((C9_run_exit_code noHandlers 2
      (CPU.fresh 16 [OPCODE.IINC.toByte, 0, 5, 0, 0, 0, OPCODE.HALT.toByte]) _ rfl
      (.exception (.dangling "read from null register: 5")) _ rfl).1.1 _ rfl)⟩

/-- C1 fails on the code: register 1 holds the `Integer` 10, `REF 2, 1` makes
register 2 a reference to it, and the `ISTORE` handler on the operands
`(2, 99)` stores a new object in slot 2 instead of writing through: the
`Integer` read through register 1 is still 10. -/
theorem C1_istore_bypasses_reference :
    ∃ c1 c2 c3 addr,
      (CPU.withRegister1 (.Integer 10) [OPCODE.ISTORE.toByte, 0, 2, 0, 0, 0, 0, 99, 0, 0, 0]).ref 2 1
        = .ok () c1 ∧
      c1.istore 1 = .ok addr c2 ∧ c2.fetchInteger 1 = .ok 10 c3 ∧ (10 : Int) ≠ 99 :=
  ⟨_, _, _, _, rfl, rfl, rfl, by decide⟩

/-- C4 fails on the code: after `REF 2, 1` the no-dangling-reference invariant
holds; the `ISTORE` handler on the operands `(2, 99)` returns without error
and leaves register 2 marked as a reference with a pointer no owning
register holds. The `ILT` handler on the operands `(1, 1, 2)` does the same. -/
theorem C4_istore_breaks_no_dangling :
    (∃ c1 c2 addr,
      (CPU.withRegister1 (.Integer 10) [OPCODE.ISTORE.toByte, 0, 2, 0, 0, 0, 0, 99, 0, 0, 0]).ref 2 1
        = .ok () c1 ∧
      c1.NoDangling ∧ c1.istore 1 = .ok addr c2 ∧ ¬ c2.NoDangling) ∧
    (∃ c1 c2 addr,
      (CPU.withRegister1 (.Integer 10)
        [OPCODE.ILT.toByte, 0, 1, 0, 0, 0, 0, 1, 0, 0, 0, 0, 2, 0, 0, 0]).ref 2 1 = .ok () c1 ∧
      c1.NoDangling ∧ c1.ilt 1 = .ok addr c2 ∧ ¬ c2.NoDangling) := by
  refine ⟨⟨_, _, _, rfl, ?_, rfl, ?_⟩, ⟨_, _, _, rfl, ?_, rfl, ?_⟩⟩ <;> decide

/-- C3 fails on the code for `Boolean`: register 2 is a reference to the
`Boolean` false that register 1 owns; `place(2, obj)` with `obj` a new
`Boolean` true returns normally and the value both registers point at is
still false. -/
theorem C3_place_reference_boolean :
    ∃ c1 c2 obj c3,
      (CPU.withRegister1 (.Boolean false) []).ref 2 1 = .ok () c1 ∧
      c1.new (.Boolean true) = .ok obj c2 ∧
      c2.references 2 = true ∧ c2.heap (c2.registers 2) = some (.Boolean false) ∧
      c2.heap obj = some (.Boolean true) ∧
      c2.place 2 obj = .ok () c3 ∧
      c3.heap (c3.registers 2) = some (.Boolean false) ∧
      c3.heap (c3.registers 1) = some (.Boolean false) :=
  ⟨_, _, _, _, rfl, rfl, rfl, rfl, rfl, rfl, rfl, rfl⟩

/-- C7 fails on the code: `countBytes` accepts the lines `delete 1 ; halt` and
sizes the buffer at 7 bytes, `assemble` emits nothing for `delete`, and the
buffer disassembles to `halt` followed by six `pass`, where the first tokens
of the lines are `delete ; halt`. -/
theorem C7_delete_is_dropped :
    ∃ p, countBytes ["delete 1", "halt"] = .ok 7 ∧
      assemble (Program.new 7) ["delete 1", "halt"] = .ok () p ∧
      disassemble p.program p.bytes 0
        = ["halt", "pass", "pass", "pass", "pass", "pass", "pass"] ∧
      instructionTokens ["delete 1", "halt"] = ["delete", "halt"] :=
  ⟨_, rfl, rfl, rfl, rfl⟩

/-- C8 fails on the code: for the lines `delete 1 ; halt` `countBytes` computes 7
bytes, and when `assemble` returns the write cursor is at 1 and the last six
bytes of the buffer are the `PASS` filler of the constructor. -/
theorem C8_delete_leaves_cursor_short :
    ∃ p, countBytes ["delete 1", "halt"] = .ok 7 ∧
      assemble (Program.new 7) ["delete 1", "halt"] = .ok () p ∧
      p.addr_ptr = 1 ∧
      p.program = OPCODE.HALT.toByte :: List.replicate 6 OPCODE.PASS.toByte :=
  ⟨_, rfl, rfl, rfl, rfl⟩

/-! ## Bounds and null checks of `place`, `run` and the handlers -/

/-- C11: `place(i, obj)` with `i >= reg_count` raises `register access out of
bounds: write`, a message different from the one `fetch` raises for the same
index, and the state it leaves, with every register pointer and every
reference flag, is the state it started in. -/
theorem C11_place_out_of_bounds (c : CPU) (i : Int) (obj : Nat) (h : i ≥ c.reg_count) :
    c.place i obj = .thrown "register access out of bounds: write" c ∧
    c.fetch i = .thrown "register access out of bounds: read" c ∧
    "register access out of bounds: write" ≠ "register access out of bounds: read" := by
  refine ⟨?_, ?_, by decide⟩
  · simp [CPU.place, h]
  · simp [CPU.fetch, h]

/-- C11 at a register file of sixteen slots: `place(16, 7)` raises the write error. -/
theorem C11_place_out_of_bounds_witness :
    (CPU.withRegister1 (.Integer 10) []).place 16 7
      = .thrown "register access out of bounds: write" (CPU.withRegister1 (.Integer 10) []) :=
  (C11_place_out_of_bounds (CPU.withRegister1 (.Integer 10) []) 16 7 (by decide)).1

/-- C14, amended: on a CPU with no bytecode loaded `run` raises `null bytecode
(maybe not loaded?)` before it enters the dispatch loop; the exception leaves
`run`, which returns no exit code, and the state is unchanged. -/
theorem C14_null_bytecode_escapes (ext : Handlers) (fuel : Nat) (c : CPU) (h : c.bytecode = none) :
    c.run ext fuel = some (.thrown "null bytecode (maybe not loaded?)" c) := by
  simp [CPU.run, h]

/-- C14, amended, at a register file of sixteen slots after `load(0)`. -/
theorem C14_null_bytecode_escapes_witness :
    ((CPU.fresh 16 []).load none).run noHandlers 0
      = some (.thrown "null bytecode (maybe not loaded?)" ((CPU.fresh 16 []).load none)) :=
  C14_null_bytecode_escapes noHandlers 0 ((CPU.fresh 16 []).load none) rfl

/-- C14 as stated fails: on a CPU with no bytecode loaded `run` does not return
exit code 1, it throws. -/
theorem C14_run_does_not_return_one :
    ((CPU.fresh 16 []).load none).run noHandlers 1
      = some (.thrown "null bytecode (maybe not loaded?)" ((CPU.fresh 16 []).load none)) ∧
    ¬ ∃ c1, ((CPU.fresh 16 []).load none).run noHandlers 1 = some (.ok 1 c1) := by
  refine ⟨rfl, ?_⟩
  rintro ⟨c1, h⟩
  simp [CPU.run, CPU.load] at h

/-- C12 fails on the code: with sixteen registers, the `ISTORE` handler on the
direct operands `(16, 7)` and the `ILT` handler on the direct operands
`(1, 1, 16)` raise nothing: they store through `registers[16]`, outside the
array, which is undefined behaviour. -/
theorem C12_handlers_write_unchecked :
    (CPU.fresh 16 [OPCODE.ISTORE.toByte, 0, 16, 0, 0, 0, 0, 7, 0, 0, 0]).istore 1 = .undefined ∧
    (CPU.withIntegers [10]
      [OPCODE.ILT.toByte, 0, 1, 0, 0, 0, 0, 1, 0, 0, 0, 0, 16, 0, 0, 0]).ilt 1 = .undefined :=
  ⟨rfl, rfl⟩

/-- C13 fails on the code at the first iteration: on the empty program
(`bytecode_size = 0`, `executable_offset = 0`) `run` reads the byte at the
instruction pointer, outside the bytecode, which is undefined behaviour; and
with `bytecode_size = 1`, `executable_offset = 1` over the two bytes
`PASS, HALT` it reads and dispatches the `HALT` at position 1 and returns 0. -/
theorem C13_first_iteration_unchecked :
    (CPU.fresh 16 []).run noHandlers 1 = some .undefined ∧
    (∃ c1, (((CPU.fresh 16 [OPCODE.PASS.toByte, OPCODE.HALT.toByte]).bytes 1).eoffset 1).run
        noHandlers 1 = some (.ok 0 c1)) :=
  ⟨rfl, _, rfl⟩

/-- C17 fails on the code: registers 1, 2, 3 hold 2, 5, 4 and the handler runs
`ilt 1 2 @3`. The result operand is not resolved: the `Boolean` is stored in
register 3, register 4 stays empty; and its payload is false, the value of
`5 < 5`, because the indirection of the result operand made the handler read
operand `a` from register 2, where `2 < 5` is true. -/
theorem C17_ilt_result_indirection :
    ∃ c1, (CPU.withIntegers [2, 5, 4]
        [OPCODE.ILT.toByte, 0, 1, 0, 0, 0, 0, 2, 0, 0, 0, 1, 3, 0, 0, 0]).ilt 1 = .ok 16 c1 ∧
      c1.registers 4 = 0 ∧ c1.heap (c1.registers 3) = some (.Boolean false) ∧
      decide ((2 : Int) < 5) = true :=
  ⟨_, rfl, rfl, rfl, rfl⟩

/-- C18 fails on the code for `ILT`: register 5 is empty and the handler runs
`ilt @5 1 2`. The indirection reads `registers[5]` without `fetch` and
dereferences the null pointer, which is undefined behaviour; no `read from
null register` is raised. -/
theorem C18_ilt_null_indirection :
    (CPU.withIntegers [2, 5]
      [OPCODE.ILT.toByte, 1, 5, 0, 0, 0, 0, 1, 0, 0, 0, 0, 2, 0, 0, 0]).ilt 1 = .undefined ∧
    (CPU.withIntegers [2, 5]
      [OPCODE.ILT.toByte, 1, 5, 0, 0, 0, 0, 1, 0, 0, 0, 0, 2, 0, 0, 0]).registers 5 = 0 :=
  ⟨rfl, rfl⟩

/-! ## The handlers of `src/cpu/instr/int.cpp` -/

theorem CPU.readBool_of_mem (c : CPU) (addr : Nat) (b : Bool)
    (h : Mem.readBool c.mem addr = some b) : c.readBool addr = .ok b c := by
  simp [CPU.readBool, Res.ofOption, h]

theorem CPU.readInt_of_mem (c : CPU) (addr : Nat) (v : Int)
    (h : Mem.readInt c.mem addr = some v) : c.readInt addr = .ok v c := by
  simp [CPU.readInt, Res.ofOption, h]

/-- `fetch` on a slot of the register file. -/
theorem CPU.fetch_slot (c : CPU) (i : Int) (h0 : 0 ≤ i) (h1 : i < c.reg_count) :
    c.fetch i = if c.registers i.toNat = 0
      then .thrown (.dangling ("read from null register: " ++ toString i)) c
      else .ok (c.registers i.toNat) c := by
  have h3 : ¬ (i ≥ c.reg_count) := by omega
  simp [CPU.fetch, CPU.loadRegister, h3, h0, h1]

/-- `fetch` and the payload read leave the state as it is. -/
theorem CPU.fetchInteger_state (c c1 : CPU) (i : Int) (v : Int)
    (h : c.fetchInteger i = .ok v c1) : c1 = c := by
  unfold CPU.fetchInteger CPU.fetch at h
  by_cases hge : i ≥ c.reg_count
  · simp [hge] at h
  · simp only [hge, if_false] at h
    unfold CPU.loadRegister at h
    by_cases hin : 0 ≤ i ∧ i < c.reg_count
    · simp only [hin, and_self, if_true, Res.bind_ok] at h
      by_cases h0 : c.registers i.toNat = 0
      · simp [h0] at h
      · simp only [h0, if_false, Res.bind_ok] at h
        unfold CPU.integerValue at h
        split at h
        · simp only [Res.ok.injEq] at h
          exact h.2.symm
        · simp at h
    · simp [hin] at h

/-- A slot holds the `Integer` `v`: `fetch` succeeds and the payload is `v`. -/
theorem CPU.fetchInteger_slot (c : CPU) (i : Int) (v : Int) (h0 : 0 ≤ i) (h1 : i < c.reg_count) :
    c.fetchInteger i = .ok v c ↔
      c.registers i.toNat ≠ 0 ∧ c.heap (c.registers i.toNat) = some (.Integer v) := by
  unfold CPU.fetchInteger
  rw [CPU.fetch_slot c i h0 h1]
  by_cases hz : c.registers i.toNat = 0
  · simp [hz]
  · simp only [hz, if_false, Res.bind_ok, ne_eq, not_false_eq_true, true_and]
    unfold CPU.integerValue
    constructor
    · intro h
      split at h
      · rename_i v1 hv
        simp only [Res.ok.injEq, and_true] at h
        rw [hv, h]
      · simp at h
    · intro h
      simp [h]

theorem CPU.fetchInteger_null (c : CPU) (i : Int) (h0 : 0 ≤ i) (h1 : i < c.reg_count)
    (hz : c.registers i.toNat = 0) :
    c.fetchInteger i = .thrown (.dangling ("read from null register: " ++ toString i)) c := by
  unfold CPU.fetchInteger
  rw [CPU.fetch_slot c i h0 h1]
  simp [hz]

/-- C15: for decoded operands `(reg_ref, reg, num_ref, num)` of `ISTORE`, the
effective target is `reg` when `reg_ref` is false and the payload of the
`Integer` `fetch(reg)` returns when it is true, the effective value is `num`
or the payload of `fetch(num)` in the same way; an indirect operand that
names an empty slot raises `read from null register`; when the target is a
slot of the register file the handler returns the input address plus 10 and
afterwards `fetch(target)` is an `Integer` with the effective value. -/
theorem C15_istore_semantics (c : CPU) (addr : Nat) (reg_ref num_ref : Bool) (reg num : Int)
    (h1 : Mem.readBool c.mem addr = some reg_ref) (h2 : Mem.readInt c.mem (addr + 1) = some reg)
    (h3 : Mem.readBool c.mem (addr + 5) = some num_ref)
    (h4 : Mem.readInt c.mem (addr + 6) = some num) :
    (reg_ref = true → 0 ≤ reg → reg < c.reg_count → c.registers reg.toNat = 0 →
      c.istore addr = .thrown (.dangling ("read from null register: " ++ toString reg)) c) ∧
    (∀ target, (if reg_ref then c.fetchInteger reg else .ok reg c) = .ok target c →
      (num_ref = true → 0 ≤ num → num < c.reg_count → c.registers num.toNat = 0 →
        c.istore addr = .thrown (.dangling ("read from null register: " ++ toString num)) c) ∧
      (∀ value, (if num_ref then c.fetchInteger num else .ok num c) = .ok value c →
        0 ≤ target → target < c.reg_count → c.next ≠ 0 →
        ∃ c1, c.istore addr = .ok (addr + 10) c1 ∧ c1.fetchInteger target = .ok value c1)) := by
  have hdec : c.istore addr =
      (if reg_ref then c.fetchInteger reg else Res.ok reg c).bind fun reg c =>
      (if num_ref then c.fetchInteger num else Res.ok num c).bind fun num c =>
      (c.new (.Integer num)).bind fun obj c =>
      (c.storeRegister reg obj).bind fun _ c =>
      .ok (addr + 10) c := by
    unfold CPU.istore
    rw [CPU.readBool_of_mem c addr _ h1]
    simp only [Res.bind_ok]
    rw [CPU.readInt_of_mem c _ _ h2]
    simp only [Res.bind_ok]
    rw [CPU.readBool_of_mem c _ _ h3]
    simp only [Res.bind_ok]
    rw [CPU.readInt_of_mem c _ _ h4]
    simp only [Res.bind_ok]
  refine ⟨?_, ?_⟩
  · intro hr h0 hlt hz
    rw [hdec, hr]
    simp only [if_true]
    rw [CPU.fetchInteger_null c reg h0 hlt hz]
    rfl
  · intro target ht
    refine ⟨?_, ?_⟩
    · intro hn h0 hlt hz
      rw [hdec, ht, hn]
      simp only [Res.bind_ok, if_true]
      rw [CPU.fetchInteger_null c num h0 hlt hz]
      rfl
    · intro value hv h0 hlt hnext
      rw [hdec, ht]
      simp only [Res.bind_ok]
      rw [hv]
      simp only [Res.bind_ok, CPU.new, CPU.storeRegister]
      have hin : 0 ≤ target ∧ target < (c.reg_count : Int) := ⟨h0, hlt⟩
      simp only [hin, and_self, if_true, Res.bind_ok]
      refine ⟨_, rfl, ?_⟩
      rw [CPU.fetchInteger_slot _ _ _ h0 (by simpa [CPU.setRegister] using hlt)]
      simp [CPU.setRegister, hnext]

/-- C16: for slots `a`, `b` holding the `Integer`s `x`, `y` and a slot `r` of the
register file, the `ILT` handler on the direct operands `(a, b, r)` returns
the input address plus 15; afterwards `fetch(r)` is a `Boolean` with payload
`x < y`, and registers `a` and `b` still hold `x` and `y` when `r` differs
from them. The address `new` returns is taken to be non-null and unused. -/
theorem C16_ilt_direct (c : CPU) (addr : Nat) (a b r : Nat) (x y : Int)
    (h1 : Mem.readBool c.mem addr = some false)
    (h2 : Mem.readInt c.mem (addr + 1) = some (a : Int))
    (h3 : Mem.readBool c.mem (addr + 5) = some false)
    (h4 : Mem.readInt c.mem (addr + 6) = some (b : Int))
    (h5 : Mem.readBool c.mem (addr + 10) = some false)
    (h6 : Mem.readInt c.mem (addr + 11) = some (r : Int))
    (ha : a < c.reg_count) (hb : b < c.reg_count) (hr : r < c.reg_count)
    (hx : c.fetchInteger a = .ok x c) (hy : c.fetchInteger b = .ok y c)
    (hnext : c.next ≠ 0) (hfree : c.heap c.next = none) :
    ∃ c1, c.ilt addr = .ok (addr + 15) c1 ∧
      (∃ p, c1.fetch r = .ok p c1 ∧ c1.heap p = some (.Boolean (decide (x < y)))) ∧
      (r ≠ a → c1.fetchInteger a = .ok x c1) ∧ (r ≠ b → c1.fetchInteger b = .ok y c1) := by
  have hin : ∀ n : Nat, n < c.reg_count → ((0 : Int) ≤ n ∧ (n : Int) < c.reg_count) :=
    fun n hn => ⟨by omega, by omega⟩
  have hrun : c.ilt addr = .ok (addr + 15)
      ({ c with heap := Function.update c.heap c.next (some (.Boolean (decide (x < y)))),
                next := c.next + 1 }.setRegister r c.next) := by
    unfold CPU.ilt
    rw [CPU.readBool_of_mem c addr _ h1]
    simp only [Res.bind_ok]
    rw [CPU.readInt_of_mem c _ _ h2]
    simp only [Res.bind_ok]
    rw [CPU.readBool_of_mem c _ _ h3]
    simp only [Res.bind_ok]
    rw [CPU.readInt_of_mem c _ _ h4]
    simp only [Res.bind_ok]
    rw [CPU.readBool_of_mem c _ _ h5]
    simp only [Res.bind_ok]
    rw [CPU.readInt_of_mem c _ _ h6]
    simp only [Res.bind_ok, Bool.false_eq_true, if_false]
    rw [hx]
    simp only [Res.bind_ok]
    rw [hy]
    simp only [Res.bind_ok, CPU.new, CPU.storeRegister, hin r hr, and_self, if_true,
      Int.toNat_ofNat]
  obtain ⟨hxa, hxh⟩ := (CPU.fetchInteger_slot c a x (hin a ha).1 (hin a ha).2).1 hx
  obtain ⟨hyb, hyh⟩ := (CPU.fetchInteger_slot c b y (hin b hb).1 (hin b hb).2).1 hy
  simp only [Int.toNat_ofNat] at hxa hxh hyb hyh
  have hane : c.registers a ≠ c.next := by
    intro h; rw [h, hfree] at hxh; simp at hxh
  have hbne : c.registers b ≠ c.next := by
    intro h; rw [h, hfree] at hyh; simp at hyh
  refine ⟨_, hrun, ⟨c.next, ?_, ?_⟩, ?_, ?_⟩
  · rw [CPU.fetch_slot _ _ (by exact (hin r hr).1) (by exact (hin r hr).2)]
    simp [CPU.setRegister, hnext]
  · simp [CPU.setRegister]
  · intro hra
    rw [CPU.fetchInteger_slot _ _ _ (by exact (hin a ha).1) (by exact (hin a ha).2)]
    have : a ≠ r := fun h => hra h.symm
    simp [CPU.setRegister, Function.update_apply, this, hxa, hane, hxh]
  · intro hrb
    rw [CPU.fetchInteger_slot _ _ _ (by exact (hin b hb).1) (by exact (hin b hb).2)]
    have : b ≠ r := fun h => hrb h.symm
    simp [CPU.setRegister, Function.update_apply, this, hyb, hbne, hyh]

/-- C19: for the slot `r` the operand of `IINC` resolves to, holding the `Integer`
`n`, the handler returns the input address plus 5; the object behind the
same pointer holds `n + 1` truncated to 32 bits, so every slot with that
pointer reads it; no register pointer, no reference flag and no other object
changes. When slot `r` is empty the handler raises `read from null register`
and the state is unchanged. -/
theorem C19_iinc_in_place (c : CPU) (addr : Nat) (ref : Bool) (regno r : Int)
    (h1 : Mem.readBool c.mem addr = some ref) (h2 : Mem.readInt c.mem (addr + 1) = some regno)
    (hres : (if ref then c.fetchInteger regno else .ok regno c) = .ok r c)
    (h0 : 0 ≤ r) (hlt : r < c.reg_count) :
    (∀ n, c.fetchInteger r = .ok n c →
      ∃ c1, c.iinc addr = .ok (addr + 5) c1 ∧
        c1.registers = c.registers ∧ c1.references = c.references ∧
        c1.heap (c.registers r.toNat) = some (.Integer (toInt32 (n + 1))) ∧
        (∀ j : Int, 0 ≤ j → j < c.reg_count → c.registers j.toNat = c.registers r.toNat →
          c1.fetchInteger j = .ok (toInt32 (n + 1)) c1) ∧
        (∀ q, q ≠ c.registers r.toNat → c1.heap q = c.heap q)) ∧
    (c.registers r.toNat = 0 →
      c.iinc addr = .thrown (.dangling ("read from null register: " ++ toString r)) c) := by
  have hdec : c.iinc addr =
      (c.fetch r).bind fun p c => (c.incrementInteger p).bind fun _ c => .ok (addr + 5) c := by
    unfold CPU.iinc
    rw [CPU.readBool_of_mem c addr _ h1]
    simp only [Res.bind_ok]
    rw [CPU.readInt_of_mem c _ _ h2]
    simp only [Res.bind_ok]
    rw [hres]
    simp only [Res.bind_ok]
  refine ⟨?_, ?_⟩
  · intro n hn
    obtain ⟨hz, hh⟩ := (CPU.fetchInteger_slot c r n h0 hlt).1 hn
    have hrun : c.iinc addr = .ok (addr + 5)
        { c with heap := Function.update c.heap (c.registers r.toNat)
                   (some (.Integer (toInt32 (n + 1)))) } := by
      rw [hdec, CPU.fetch_slot c r h0 hlt]
      simp [hz, CPU.incrementInteger, hh]
    refine ⟨_, hrun, rfl, rfl, by simp, ?_, ?_⟩
    · intro j hj0 hjlt hjr
      rw [CPU.fetchInteger_slot _ _ _ hj0 (by simpa using hjlt)]
      refine ⟨?_, ?_⟩
      · show c.registers j.toNat ≠ 0
        rw [hjr]; exact hz
      · show Function.update c.heap (c.registers r.toNat) _ (c.registers j.toNat) = _
        rw [hjr]; exact Function.update_same _ _ _
    · intro q hq
      simp [Function.update_apply, hq]
  · intro hz
    rw [hdec, CPU.fetch_slot c r h0 hlt]
    simp [hz]


/-- C15 on `istore @1 @2` with registers 1 and 2 holding 3 and 42 (register 3
then holds 42), and on `istore @5 7` with register 5 empty. -/
theorem C15_istore_semantics_witness :
    (∃ c1, (CPU.withIntegers [3, 42] [OPCODE.ISTORE.toByte, 1, 1, 0, 0, 0, 1, 2, 0, 0, 0]).istore 1
        = .ok (1 + 10) c1 ∧ c1.fetchInteger 3 = .ok 42 c1) ∧
    (CPU.withIntegers [3, 42] [OPCODE.ISTORE.toByte, 1, 5, 0, 0, 0, 0, 7, 0, 0, 0]).istore 1
      = .thrown (.dangling "read from null register: 5")
          (CPU.withIntegers [3, 42] [OPCODE.ISTORE.toByte, 1, 5, 0, 0, 0, 0, 7, 0, 0, 0]) :=
  ⟨((C15_istore_semantics
      (CPU.withIntegers [3, 42] [OPCODE.ISTORE.toByte, 1, 1, 0, 0, 0, 1, 2, 0, 0, 0]) 1
      true true 1 2 rfl rfl rfl rfl).2 3 rfl).2 42 rfl (by decide) (by decide) (by decide),
   (C15_istore_semantics
      (CPU.withIntegers [3, 42] [OPCODE.ISTORE.toByte, 1, 5, 0, 0, 0, 0, 7, 0, 0, 0]) 1
      true false 5 7 rfl rfl rfl rfl).1 rfl (by decide) (by decide) rfl⟩

/-- C16 on `ilt 1 2 3` with registers 1 and 2 holding 2 and 5. -/
theorem C16_ilt_direct_witness :
    ∃ c1, (CPU.withIntegers [2, 5]
        [OPCODE.ILT.toByte, 0, 1, 0, 0, 0, 0, 2, 0, 0, 0, 0, 3, 0, 0, 0]).ilt 1 = .ok (1 + 15) c1 ∧
      (∃ p, c1.fetch (3 : Nat) = .ok p c1 ∧ c1.heap p = some (.Boolean (decide ((2 : Int) < 5)))) ∧
      ((3 : Nat) ≠ 1 → c1.fetchInteger (1 : Nat) = .ok 2 c1) ∧
      ((3 : Nat) ≠ 2 → c1.fetchInteger (2 : Nat) = .ok 5 c1) :=
  C16_ilt_direct
    (CPU.withIntegers [2, 5] [OPCODE.ILT.toByte, 0, 1, 0, 0, 0, 0, 2, 0, 0, 0, 0, 3, 0, 0, 0])
    1 1 2 3 2 5 rfl rfl rfl rfl rfl rfl (by decide) (by decide) (by decide) rfl rfl
    (by decide) rfl

/-- C19 on `iinc 1` with register 1 holding the largest `int` (it wraps around),
and on `iinc 5` with register 5 empty. -/
theorem C19_iinc_in_place_witness :
    (∃ c1, (CPU.withIntegers [2147483647] [OPCODE.IINC.toByte, 0, 1, 0, 0, 0]).iinc 1
        = .ok (1 + 5) c1 ∧ c1.fetchInteger 1 = .ok (-2147483648) c1) ∧
    (CPU.withIntegers [2147483647] [OPCODE.IINC.toByte, 0, 5, 0, 0, 0]).iinc 1
      = .thrown (.dangling "read from null register: 5")
          (CPU.withIntegers [2147483647] [OPCODE.IINC.toByte, 0, 5, 0, 0, 0]) := by
  refine ⟨?_, ?_⟩
  · obtain ⟨c1, h1, _, _, _, h5, _⟩ :=
      (C19_iinc_in_place (CPU.withIntegers [2147483647] [OPCODE.IINC.toByte, 0, 1, 0, 0, 0]) 1
        false 1 1 rfl rfl rfl (by decide) (by decide)).1 2147483647 rfl
    exact ⟨c1, h1, h5 1 (by decide) (by decide) rfl⟩
  · exact (C19_iinc_in_place (CPU.withIntegers [2147483647] [OPCODE.IINC.toByte, 0, 5, 0, 0, 0]) 1
        false 5 5 rfl rfl rfl (by decide) (by decide)).2 rfl

/-! ## The layout of an integer operand -/

theorem splice_getElem_before (m : List Nat) (pos : Nat) (bs : List Nat) (q : Nat)
    (h : pos + bs.length ≤ m.length) (hq : q < pos) : (splice m pos bs)[q]? = m[q]? := by
  obtain ⟨pre, x, rest, rfl, hpre, hx⟩ := List.split_at_block m pos bs.length h
  rw [splice_block pre x rest bs pos hpre.symm hx]
  rw [List.append_assoc, List.append_assoc, List.getElem?_append_left (by omega),
    List.getElem?_append_left (by omega)]

theorem splice_getElem_inside (m : List Nat) (pos : Nat) (bs : List Nat) (i : Nat)
    (h : pos + bs.length ≤ m.length) (hi : i < bs.length) :
    (splice m pos bs)[pos + i]? = bs[i]? := by
  obtain ⟨pre, x, rest, rfl, hpre, hx⟩ := List.split_at_block m pos bs.length h
  rw [splice_block pre x rest bs pos hpre.symm hx]
  rw [List.append_assoc, List.getElem?_append_right (by omega),
    List.getElem?_append_left (by omega)]
  congr 1
  omega

theorem splice_getElem_after (m : List Nat) (pos : Nat) (bs : List Nat) (q : Nat)
    (h : pos + bs.length ≤ m.length) (hq : pos + bs.length ≤ q) :
    (splice m pos bs)[q]? = m[q]? := by
  obtain ⟨pre, x, rest, rfl, hpre, hx⟩ := List.split_at_block m pos bs.length h
  rw [splice_block pre x rest bs pos hpre.symm hx]
  rw [List.getElem?_append_right (by simp; omega), List.getElem?_append_right (by simp; omega)]
  congr 1
  simp
  omega

/-- C20: for every integer operand `(indirect, value)` and every cursor `p` with
five bytes of buffer left, `insertIntegerOperand` returns `p + 5` and a
buffer of the same size in which the byte at `p` is the flag (non-zero iff
`indirect`), the bytes at `p+1..p+4` are the two's-complement encoding of
`value`, least significant byte first (read back as an `int` they give
`value` truncated to 32 bits), and every other byte is unchanged. -/
theorem C20_insertIntegerOperand (op : int_op) (p : Nat) (m : List Nat) (h : p + 5 ≤ m.length) :
    ∃ m1, insertIntegerOperand p op m = .ok (p + 5) m1 ∧ m1.length = m.length ∧
      (∃ flag, m1[p]? = some flag ∧ (flag ≠ 0 ↔ op.1 = true)) ∧
      (∀ i, i < 4 → m1[p + 1 + i]? = some ((op.2 % 4294967296).toNat / 256 ^ i % 256)) ∧
      Mem.readInt m1 (p + 1) = some (toInt32 op.2) ∧
      (∀ q, q < p ∨ p + 5 ≤ q → m1[q]? = m[q]?) := by
  refine ⟨_, insertIntegerOperand_eq p op m h, ?_, ?_, ?_, ?_, ?_⟩
  · exact splice_length _ _ _ (by simpa using h)
  · refine ⟨boolByte op.1, ?_, ?_⟩
    · have := splice_getElem_inside m p (intOpBytes op) 0 (by simpa using h) (by simp)
      simpa [intOpBytes] using this
    · cases op.1 <;> simp [boolByte]
  · intro i hi
    have := splice_getElem_inside m p (intOpBytes op) (1 + i) (by simpa using h) (by simp; omega)
    rw [← Nat.add_assoc] at this
    rw [this]
    have h4 : i = 0 ∨ i = 1 ∨ i = 2 ∨ i = 3 := by omega
    rcases h4 with rfl | rfl | rfl | rfl <;> simp [intOpBytes, intBytes]
  · obtain ⟨pre, x, rest, rfl, hpre, hx⟩ := List.split_at_block m p 5 h
    rw [splice_block pre x rest (intOpBytes op) p hpre.symm (by simpa using hx)]
    have := Mem.readInt_block pre [boolByte op.1] rest op.2 (p + 1) (by simp [hpre])
    simpa [intOpBytes] using this
  · intro q hq
    rcases hq with hq | hq
    · exact splice_getElem_before _ _ _ _ (by simpa using h) hq
    · exact splice_getElem_after _ _ _ _ (by simpa using h) (by simpa using hq)

/-- C20 for the operand `@-2` written at cursor 1 of a seven-byte buffer. -/
theorem C20_insertIntegerOperand_witness :
    1 + 5 ≤ [9, 9, 9, 9, 9, 9, 9].length ∧
    ∃ m1, insertIntegerOperand 1 (true, -2) [9, 9, 9, 9, 9, 9, 9] = .ok (1 + 5) m1 ∧
      m1.length = [9, 9, 9, 9, 9, 9, 9].length ∧
      (∃ flag, m1[1]? = some flag ∧ (flag ≠ 0 ↔ (true, (-2 : Int)).1 = true)) ∧
      (∀ i, i < 4 → m1[1 + 1 + i]? = some (((true, (-2 : Int)).2 % 4294967296).toNat / 256 ^ i % 256)) ∧
      Mem.readInt m1 (1 + 1) = some (toInt32 (true, (-2 : Int)).2) ∧
      (∀ q, q < 1 ∨ 1 + 5 ≤ q → m1[q]? = [9, 9, 9, 9, 9, 9, 9][q]?) :=
  ⟨by decide, C20_insertIntegerOperand (true, -2) 1 [9, 9, 9, 9, 9, 9, 9] (by decide)⟩

/-! ## The frame of the encoder methods and the agreement of encoder and handlers -/

/-- C21: every encoder method, run with room for its instruction in the buffer,
writes its opcode tag at the old cursor, advances the cursor by the tabulated
size of the opcode (11 for ISTORE/MOVE/COPY/REF/SWAP, 16 for the three-operand
instructions, 6 for IINC/IDEC/NOT/PRINT/ECHO/RET, 8 for BSTORE, 5 for JUMP, 14
for BRANCH, 1 for HALT/PASS), changes no byte outside the old and the new
cursor, keeps the size of the buffer, and leaves `branches` as it was, except
that JUMP and BRANCH append the old cursor. -/
theorem C21_encoder_frame (c : Call) (p : Program) (h : p.addr_ptr + c.size ≤ p.program.length) :
    ∃ p1, c.run p = .ok () p1 ∧
      p1.program[p.addr_ptr]? = some c.opcode.toByte ∧
      p1.addr_ptr = p.addr_ptr + c.size ∧
      OP_SIZES (OP_NAMES c.opcode) = some c.size ∧
      c.size = (match c.opcode with
        | .ISTORE | .MOVE | .COPY | .REF | .SWAP => 11
        | .IADD | .ISUB | .IMUL | .IDIV | .ILT | .ILTE | .IGT | .IGTE | .IEQ | .AND | .OR => 16
        | .IINC | .IDEC | .NOT | .PRINT | .ECHO | .RET => 6
        | .BSTORE => 8
        | .JUMP => 5
        | .BRANCH => 14
        | .HALT | .PASS => 1
        | .DELETE => 0) ∧
      (∀ q, q < p.addr_ptr ∨ p1.addr_ptr ≤ q → p1.program[q]? = p.program[q]?) ∧
      p1.program.length = p.program.length ∧ p1.bytes = p.bytes ∧
      p1.branches = (if c.opcode = .JUMP ∨ c.opcode = .BRANCH
        then p.branches ++ [p.addr_ptr] else p.branches) := by
  have hlen : p.addr_ptr + c.bytes.length ≤ p.program.length := by
    rw [Call.size_eq_length]; exact h
  refine ⟨_, Call.run_eq c p h, ?_, rfl, Call.size_some c, ?_, ?_, ?_, rfl, ?_⟩
  · obtain ⟨tl, htl⟩ := Call.bytes_head c
    have := splice_getElem_inside p.program p.addr_ptr c.bytes 0 hlen (by rw [htl]; simp)
    simpa [htl] using this
  · cases c <;> rfl
  · intro q hq
    rcases hq with hq | hq
    · exact splice_getElem_before _ _ _ _ hlen hq
    · exact splice_getElem_after _ _ _ _ hlen (by rw [Call.size_eq_length]; exact hq)
  · exact splice_length _ _ _ hlen
  · cases c <;> simp [Call.isBranch, Call.opcode]

/-- C21 for `branch(@2, 7, 8)` on a fresh buffer of twenty bytes. -/
theorem C21_encoder_frame_witness :
    (Program.new 20).addr_ptr + (Call.branch (true, 2) 7 8).size ≤ (Program.new 20).program.length ∧
    ∃ p1, (Call.branch (true, 2) 7 8).run (Program.new 20) = .ok () p1 ∧
      p1.program[0]? = some OPCODE.BRANCH.toByte ∧ p1.addr_ptr = 14 ∧ p1.branches = [0] := by
  refine ⟨by decide, ?_⟩
  obtain ⟨p1, h1, h2, h3, _, _, _, _, _, h4⟩ :=
    C21_encoder_frame (Call.branch (true, 2) 7 8) (Program.new 20) (by decide)
  exact ⟨p1, h1, h2, h3, h4⟩

/-- A bind that returns has a first step that returns. -/
theorem Res.bind_eq_ok {σ α β : Type} (r : Res σ α) (f : α → σ → Res σ β) (b : β) (s : σ)
    (h : r.bind f = .ok b s) : ∃ a s1, r = .ok a s1 ∧ f a s1 = .ok b s := by
  cases r with
  | ok a s1 => exact ⟨a, s1, rfl, h⟩
  | thrown msg s1 => simp at h
  | undefined => simp at h

/-- When `CPU::istore` returns, it returns the address ten bytes after its operand address. -/
theorem CPU.istore_address (c c1 : CPU) (addr r : Nat) (h : c.istore addr = .ok r c1) :
    r = addr + 10 := by
  unfold CPU.istore at h
  obtain ⟨_, _, _, h⟩ := Res.bind_eq_ok _ _ _ _ h
  obtain ⟨_, _, _, h⟩ := Res.bind_eq_ok _ _ _ _ h
  obtain ⟨_, _, _, h⟩ := Res.bind_eq_ok _ _ _ _ h
  obtain ⟨_, _, _, h⟩ := Res.bind_eq_ok _ _ _ _ h
  obtain ⟨_, _, _, h⟩ := Res.bind_eq_ok _ _ _ _ h
  obtain ⟨_, _, _, h⟩ := Res.bind_eq_ok _ _ _ _ h
  obtain ⟨_, _, _, h⟩ := Res.bind_eq_ok _ _ _ _ h
  obtain ⟨_, _, _, h⟩ := Res.bind_eq_ok _ _ _ _ h
  simp only [Res.ok.injEq] at h
  exact h.1.symm

/-- When `CPU::ilt` returns, it returns the address fifteen bytes after its operand address. -/
theorem CPU.ilt_address (c c1 : CPU) (addr r : Nat) (h : c.ilt addr = .ok r c1) :
    r = addr + 15 := by
  unfold CPU.ilt at h
  obtain ⟨_, _, _, h⟩ := Res.bind_eq_ok _ _ _ _ h
  obtain ⟨_, _, _, h⟩ := Res.bind_eq_ok _ _ _ _ h
  obtain ⟨_, _, _, h⟩ := Res.bind_eq_ok _ _ _ _ h
  obtain ⟨_, _, _, h⟩ := Res.bind_eq_ok _ _ _ _ h
  obtain ⟨_, _, _, h⟩ := Res.bind_eq_ok _ _ _ _ h
  obtain ⟨_, _, _, h⟩ := Res.bind_eq_ok _ _ _ _ h
  obtain ⟨_, _, _, h⟩ := Res.bind_eq_ok _ _ _ _ h
  obtain ⟨_, _, _, h⟩ := Res.bind_eq_ok _ _ _ _ h
  obtain ⟨_, _, _, h⟩ := Res.bind_eq_ok _ _ _ _ h
  obtain ⟨_, _, _, h⟩ := Res.bind_eq_ok _ _ _ _ h
  obtain ⟨_, _, _, h⟩ := Res.bind_eq_ok _ _ _ _ h
  obtain ⟨_, _, _, h⟩ := Res.bind_eq_ok _ _ _ _ h
  obtain ⟨_, _, _, h⟩ := Res.bind_eq_ok _ _ _ _ h
  simp only [Res.ok.injEq] at h
  exact h.1.symm

/-- When `CPU::iinc` returns, it returns the address five bytes after its operand address. -/
theorem CPU.iinc_address (c c1 : CPU) (addr r : Nat) (h : c.iinc addr = .ok r c1) :
    r = addr + 5 := by
  unfold CPU.iinc at h
  obtain ⟨_, _, _, h⟩ := Res.bind_eq_ok _ _ _ _ h
  obtain ⟨_, _, _, h⟩ := Res.bind_eq_ok _ _ _ _ h
  obtain ⟨_, _, _, h⟩ := Res.bind_eq_ok _ _ _ _ h
  obtain ⟨_, _, _, h⟩ := Res.bind_eq_ok _ _ _ _ h
  obtain ⟨_, _, _, h⟩ := Res.bind_eq_ok _ _ _ _ h
  simp only [Res.ok.injEq] at h
  exact h.1.symm

theorem Mem.readBool_block (pre a b : List Nat) (f : Bool) (pos : Nat)
    (hpos : pos = pre.length + a.length) :
    Mem.readBool (pre ++ (a ++ boolByte f :: b)) pos = some f := by
  subst hpos
  have h : pre ++ (a ++ boolByte f :: b) = (pre ++ a) ++ (boolByte f :: b) := by simp
  simp only [Mem.readBool, Mem.read]
  rw [if_pos (by simp; omega), h, ← List.length_append, List.drop_left]
  cases f <;> simp [boolByte]

/-- The operand a handler reads at the place where the encoder wrote it. -/
theorem decode_operand (m : List Nat) (pos : Nat) (bs a b : List Nat) (op : int_op)
    (h : pos + bs.length ≤ m.length) (hbs : bs = a ++ intOpBytes op ++ b) :
    Mem.readBool (splice m pos bs) (pos + a.length) = some op.1 ∧
    Mem.readInt (splice m pos bs) (pos + a.length + 1) = some (toInt32 op.2) := by
  obtain ⟨pre, x, rest, hm, hpre, hx⟩ := List.split_at_block m pos bs.length h
  rw [hm, splice_block pre x rest bs pos hpre.symm hx, hbs]
  constructor
  · have : pre ++ (a ++ intOpBytes op ++ b) ++ rest
        = pre ++ (a ++ boolByte op.1 :: (intBytes op.2 ++ b ++ rest)) := by
      simp [intOpBytes]
    rw [this]
    exact Mem.readBool_block _ _ _ _ _ (by omega)
  · have : pre ++ (a ++ intOpBytes op ++ b) ++ rest
        = pre ++ ((a ++ [boolByte op.1]) ++ intBytes op.2 ++ (b ++ rest)) := by
      simp [intOpBytes]
    rw [this]
    exact Mem.readInt_block _ _ _ _ _ (by simp; omega)

theorem CPU.mem_of_bytecode (c : CPU) (m : List Nat) (h : c.bytecode = some m) : c.mem = m := by
  simp [CPU.mem, h]

/-- What a `fetch` that returns has checked: the index is a slot of the register
file, the slot is not empty, the result is its pointer and the state is the
one `fetch` started in. -/
theorem CPU.fetch_eq_ok (c c1 : CPU) (i : Int) (ptr : Nat) (h : c.fetch i = .ok ptr c1) :
    0 ≤ i ∧ i < c.reg_count ∧ ptr = c.registers i.toNat ∧ c1 = c := by
  unfold CPU.fetch CPU.loadRegister at h
  split_ifs at h with h1 h2
  · simp only [Res.bind_ok] at h
    split_ifs at h with h3
    simp only [Res.ok.injEq] at h
    exact ⟨h2.1, h2.2, h.1.symm, h.2.symm⟩
  · simp at h

/-- C22: for operands that are `int`s and a buffer with room, let `Program::istore`,
`Program::ilt` or `Program::iinc` write at the cursor, and load the buffer in
a CPU. The reads of the matching handler, started at the byte after the tag,
yield the flags and values that were encoded, and the handler does with them
what its body says: run on these bytes it is the rest of its body with
`(reg_ref, reg, num_ref, num)` (for `ilt` the three operands, for `iinc` the
one) equal to the encoded operands. Whenever the handler returns, it returns
the cursor the encoder left, the address of the byte after the instruction;
and for direct operands that name registers the handler can use it does
return, with the encoded value in the encoded target: the `Integer` `i` in
register `regno` for `istore`, the `Boolean` of the comparison of the two
operand registers in register `regr` for `ilt`, the incremented `Integer` in
register `regno` for `iinc`. -/
theorem C22_encoder_decoder_agreement (p : Program) (c : CPU) :
    (∀ regno i : int_op, fitsInt regno.2 → fitsInt i.2 → p.addr_ptr + 11 ≤ p.program.length →
      ∃ p1, p.istore regno i = .ok () p1 ∧ p1.addr_ptr = p.addr_ptr + 11 ∧
        (c.bytecode = some p1.program →
          c.readBool (p.addr_ptr + 1) = .ok regno.1 c ∧ c.readInt (p.addr_ptr + 2) = .ok regno.2 c ∧
          c.readBool (p.addr_ptr + 6) = .ok i.1 c ∧ c.readInt (p.addr_ptr + 7) = .ok i.2 c ∧
          c.istore (p.addr_ptr + 1) =
            ((if regno.1 then c.fetchInteger regno.2 else Res.ok regno.2 c).bind fun reg c =>
             (if i.1 then c.fetchInteger i.2 else Res.ok i.2 c).bind fun num c =>
             (c.new (.Integer num)).bind fun obj c =>
             (c.storeRegister reg obj).bind fun _ c => .ok p1.addr_ptr c) ∧
          (∀ r c1, c.istore (p.addr_ptr + 1) = .ok r c1 → r = p1.addr_ptr) ∧
          (regno.1 = false → i.1 = false → 0 ≤ regno.2 → regno.2 < c.reg_count →
            ∃ c1, c.istore (p.addr_ptr + 1) = .ok p1.addr_ptr c1 ∧
              c1.heap (c1.registers regno.2.toNat) = some (.Integer i.2)))) ∧
    (∀ rega regb regr : int_op, fitsInt rega.2 → fitsInt regb.2 → fitsInt regr.2 →
      p.addr_ptr + 16 ≤ p.program.length →
      ∃ p1, p.ilt rega regb regr = .ok () p1 ∧ p1.addr_ptr = p.addr_ptr + 16 ∧
        (c.bytecode = some p1.program →
          c.readBool (p.addr_ptr + 1) = .ok rega.1 c ∧ c.readInt (p.addr_ptr + 2) = .ok rega.2 c ∧
          c.readBool (p.addr_ptr + 6) = .ok regb.1 c ∧ c.readInt (p.addr_ptr + 7) = .ok regb.2 c ∧
          c.readBool (p.addr_ptr + 11) = .ok regr.1 c ∧ c.readInt (p.addr_ptr + 12) = .ok regr.2 c ∧
          c.ilt (p.addr_ptr + 1) =
            ((if rega.1 then c.rawInteger rega.2 else Res.ok rega.2 c).bind fun rega_num c =>
             (if regb.1 then c.rawInteger regb.2 else Res.ok regb.2 c).bind fun regb_num c =>
             (if regr.1 then c.rawInteger rega_num else Res.ok rega_num c).bind fun rega_num c =>
             (c.fetchInteger rega_num).bind fun x c =>
             (c.fetchInteger regb_num).bind fun y c =>
             (c.new (.Boolean (decide (x < y)))).bind fun obj c =>
             (c.storeRegister regr.2 obj).bind fun _ c => .ok p1.addr_ptr c) ∧
          (∀ r c1, c.ilt (p.addr_ptr + 1) = .ok r c1 → r = p1.addr_ptr) ∧
          (rega.1 = false → regb.1 = false → regr.1 = false →
            ∀ x y, c.fetchInteger rega.2 = .ok x c → c.fetchInteger regb.2 = .ok y c →
            0 ≤ regr.2 → regr.2 < c.reg_count →
            ∃ c1, c.ilt (p.addr_ptr + 1) = .ok p1.addr_ptr c1 ∧
              c1.heap (c1.registers regr.2.toNat) = some (.Boolean (decide (x < y)))))) ∧
    (∀ regno : int_op, fitsInt regno.2 → p.addr_ptr + 6 ≤ p.program.length →
      ∃ p1, p.iinc regno = .ok () p1 ∧ p1.addr_ptr = p.addr_ptr + 6 ∧
        (c.bytecode = some p1.program →
          c.readBool (p.addr_ptr + 1) = .ok regno.1 c ∧ c.readInt (p.addr_ptr + 2) = .ok regno.2 c ∧
          c.iinc (p.addr_ptr + 1) =
            ((if regno.1 then c.fetchInteger regno.2 else Res.ok regno.2 c).bind fun r c =>
             (c.fetch r).bind fun ptr c =>
             (c.incrementInteger ptr).bind fun _ c => .ok p1.addr_ptr c) ∧
          (∀ r c1, c.iinc (p.addr_ptr + 1) = .ok r c1 → r = p1.addr_ptr) ∧
          (regno.1 = false → ∀ n, c.fetchInteger regno.2 = .ok n c →
            ∃ c1, c.iinc (p.addr_ptr + 1) = .ok p1.addr_ptr c1 ∧
              c1.registers = c.registers ∧
              c1.heap (c.registers regno.2.toNat) = some (.Integer (toInt32 (n + 1)))))) := by
  refine ⟨?_, ?_, ?_⟩
  · intro regno i hr hi hroom
    refine ⟨_, Call.run_eq (.istore regno i) p hroom, rfl, ?_⟩
    intro hbc
    have hmem : c.mem = splice p.program p.addr_ptr (Call.istore regno i).bytes := CPU.mem_of_bytecode c _ hbc
    have hlen : p.addr_ptr + (Call.istore regno i).bytes.length ≤ p.program.length := hroom
    obtain ⟨ha1, ha2⟩ := decode_operand p.program p.addr_ptr (Call.istore regno i).bytes
      [OPCODE.ISTORE.toByte] (intOpBytes i) regno hlen (by simp [Call.bytes])
    obtain ⟨hb1, hb2⟩ := decode_operand p.program p.addr_ptr (Call.istore regno i).bytes
      (OPCODE.ISTORE.toByte :: intOpBytes regno) [] i hlen (by simp [Call.bytes])
    rw [toInt32_of_range _ hr.1 hr.2] at ha2
    rw [toInt32_of_range _ hi.1 hi.2] at hb2
    rw [← hmem] at ha1 ha2 hb1 hb2
    have h1 : c.readBool (p.addr_ptr + 1) = .ok regno.1 c :=
      CPU.readBool_of_mem c _ _ (by simpa using ha1)
    have h2 : c.readInt (p.addr_ptr + 2) = .ok regno.2 c :=
      CPU.readInt_of_mem c _ _ (by simpa using ha2)
    have h3 : c.readBool (p.addr_ptr + 6) = .ok i.1 c :=
      CPU.readBool_of_mem c _ _ (by simpa using hb1)
    have h4 : c.readInt (p.addr_ptr + 7) = .ok i.2 c :=
      CPU.readInt_of_mem c _ _ (by simpa using hb2)
    have heq : c.istore (p.addr_ptr + 1) =
        ((if regno.1 then c.fetchInteger regno.2 else Res.ok regno.2 c).bind fun reg c =>
         (if i.1 then c.fetchInteger i.2 else Res.ok i.2 c).bind fun num c =>
         (c.new (.Integer num)).bind fun obj c =>
         (c.storeRegister reg obj).bind fun _ c => .ok (p.addr_ptr + 11) c) := by
      unfold CPU.istore
      rw [h1]
      simp only [Res.bind_ok]
      rw [show p.addr_ptr + 1 + 1 = p.addr_ptr + 2 from rfl, h2]
      simp only [Res.bind_ok]
      rw [show p.addr_ptr + 1 + 5 = p.addr_ptr + 6 from rfl, h3]
      simp only [Res.bind_ok]
      rw [show p.addr_ptr + 1 + 6 = p.addr_ptr + 7 from rfl, h4]
      simp only [Res.bind_ok]
    refine ⟨h1, h2, h3, h4, heq, ?_, ?_⟩
    · intro r c1 h
      have := CPU.istore_address c c1 _ r h
      show r = p.addr_ptr + 11
      omega
    · intro hd1 hd2 h0 hlt
      show ∃ c1, c.istore (p.addr_ptr + 1) = .ok (p.addr_ptr + 11) c1 ∧ _
      rw [heq]
      have hin : 0 ≤ regno.2 ∧ regno.2 < (c.reg_count : Int) := ⟨h0, hlt⟩
      simp only [Res.bind_ok, hd1, hd2, Bool.false_eq_true, if_false, CPU.new, CPU.storeRegister,
        hin, and_self, if_true]
      exact ⟨_, rfl, by simp [CPU.setRegister]⟩
  · intro rega regb regr ha hb hr hroom
    refine ⟨_, Call.run_eq (.ilt rega regb regr) p hroom, rfl, ?_⟩
    intro hbc
    have hmem : c.mem = splice p.program p.addr_ptr (Call.ilt rega regb regr).bytes := CPU.mem_of_bytecode c _ hbc
    have hlen : p.addr_ptr + (Call.ilt rega regb regr).bytes.length ≤ p.program.length := hroom
    obtain ⟨ha1, ha2⟩ := decode_operand p.program p.addr_ptr (Call.ilt rega regb regr).bytes
      [OPCODE.ILT.toByte] (intOpBytes regb ++ intOpBytes regr) rega hlen (by simp [Call.bytes])
    obtain ⟨hb1, hb2⟩ := decode_operand p.program p.addr_ptr (Call.ilt rega regb regr).bytes
      (OPCODE.ILT.toByte :: intOpBytes rega) (intOpBytes regr) regb hlen (by simp [Call.bytes])
    obtain ⟨hr1, hr2⟩ := decode_operand p.program p.addr_ptr (Call.ilt rega regb regr).bytes
      (OPCODE.ILT.toByte :: (intOpBytes rega ++ intOpBytes regb)) [] regr hlen (by simp [Call.bytes])
    rw [toInt32_of_range _ ha.1 ha.2] at ha2
    rw [toInt32_of_range _ hb.1 hb.2] at hb2
    rw [toInt32_of_range _ hr.1 hr.2] at hr2
    rw [← hmem] at ha1 ha2 hb1 hb2 hr1 hr2
    have h1 : c.readBool (p.addr_ptr + 1) = .ok rega.1 c :=
      CPU.readBool_of_mem c _ _ (by simpa using ha1)
    have h2 : c.readInt (p.addr_ptr + 2) = .ok rega.2 c :=
      CPU.readInt_of_mem c _ _ (by simpa using ha2)
    have h3 : c.readBool (p.addr_ptr + 6) = .ok regb.1 c :=
      CPU.readBool_of_mem c _ _ (by simpa using hb1)
    have h4 : c.readInt (p.addr_ptr + 7) = .ok regb.2 c :=
      CPU.readInt_of_mem c _ _ (by simpa using hb2)
    have h5 : c.readBool (p.addr_ptr + 11) = .ok regr.1 c :=
      CPU.readBool_of_mem c _ _ (by simpa using hr1)
    have h6 : c.readInt (p.addr_ptr + 12) = .ok regr.2 c :=
      CPU.readInt_of_mem c _ _ (by simpa using hr2)
    have heq : c.ilt (p.addr_ptr + 1) =
        ((if rega.1 then c.rawInteger rega.2 else Res.ok rega.2 c).bind fun rega_num c =>
         (if regb.1 then c.rawInteger regb.2 else Res.ok regb.2 c).bind fun regb_num c =>
         (if regr.1 then c.rawInteger rega_num else Res.ok rega_num c).bind fun rega_num c =>
         (c.fetchInteger rega_num).bind fun x c =>
         (c.fetchInteger regb_num).bind fun y c =>
         (c.new (.Boolean (decide (x < y)))).bind fun obj c =>
         (c.storeRegister regr.2 obj).bind fun _ c => .ok (p.addr_ptr + 16) c) := by
      unfold CPU.ilt
      rw [h1]
      simp only [Res.bind_ok]
      rw [show p.addr_ptr + 1 + 1 = p.addr_ptr + 2 from rfl, h2]
      simp only [Res.bind_ok]
      rw [show p.addr_ptr + 1 + 5 = p.addr_ptr + 6 from rfl, h3]
      simp only [Res.bind_ok]
      rw [show p.addr_ptr + 1 + 6 = p.addr_ptr + 7 from rfl, h4]
      simp only [Res.bind_ok]
      rw [show p.addr_ptr + 1 + 10 = p.addr_ptr + 11 from rfl, h5]
      simp only [Res.bind_ok]
      rw [show p.addr_ptr + 1 + 11 = p.addr_ptr + 12 from rfl, h6]
      simp only [Res.bind_ok]
    refine ⟨h1, h2, h3, h4, h5, h6, heq, ?_, ?_⟩
    · intro r c1 h
      have := CPU.ilt_address c c1 _ r h
      show r = p.addr_ptr + 16
      omega
    · intro hd1 hd2 hd3 x y hx hy h0 hlt
      show ∃ c1, c.ilt (p.addr_ptr + 1) = .ok (p.addr_ptr + 16) c1 ∧ _
      rw [heq]
      simp only [Res.bind_ok, hd1, hd2, hd3, Bool.false_eq_true, if_false]
      rw [hx]
      simp only [Res.bind_ok]
      rw [hy]
      have hin : 0 ≤ regr.2 ∧ regr.2 < (c.reg_count : Int) := ⟨h0, hlt⟩
      simp only [Res.bind_ok, CPU.new, CPU.storeRegister, hin, and_self, if_true]
      exact ⟨_, rfl, by simp [CPU.setRegister]⟩
  · intro regno hr hroom
    refine ⟨_, Call.run_eq (.iinc regno) p hroom, rfl, ?_⟩
    intro hbc
    have hmem : c.mem = splice p.program p.addr_ptr (Call.iinc regno).bytes := CPU.mem_of_bytecode c _ hbc
    have hlen : p.addr_ptr + (Call.iinc regno).bytes.length ≤ p.program.length := hroom
    obtain ⟨ha1, ha2⟩ := decode_operand p.program p.addr_ptr (Call.iinc regno).bytes
      [OPCODE.IINC.toByte] [] regno hlen (by simp [Call.bytes])
    rw [toInt32_of_range _ hr.1 hr.2] at ha2
    rw [← hmem] at ha1 ha2
    have h1 : c.readBool (p.addr_ptr + 1) = .ok regno.1 c :=
      CPU.readBool_of_mem c _ _ (by simpa using ha1)
    have h2 : c.readInt (p.addr_ptr + 2) = .ok regno.2 c :=
      CPU.readInt_of_mem c _ _ (by simpa using ha2)
    have heq : c.iinc (p.addr_ptr + 1) =
        ((if regno.1 then c.fetchInteger regno.2 else Res.ok regno.2 c).bind fun r c =>
         (c.fetch r).bind fun ptr c =>
         (c.incrementInteger ptr).bind fun _ c => .ok (p.addr_ptr + 6) c) := by
      unfold CPU.iinc
      rw [h1]
      simp only [Res.bind_ok]
      rw [show p.addr_ptr + 1 + 1 = p.addr_ptr + 2 from rfl, h2]
      simp only [Res.bind_ok]
    refine ⟨h1, h2, heq, ?_, ?_⟩
    · intro r c1 h
      have := CPU.iinc_address c c1 _ r h
      show r = p.addr_ptr + 6
      omega
    · intro hd1 n hn
      show ∃ c1, c.iinc (p.addr_ptr + 1) = .ok (p.addr_ptr + 6) c1 ∧ _
      rw [heq]
      simp only [Res.bind_ok, hd1, Bool.false_eq_true, if_false]
      unfold CPU.fetchInteger at hn
      obtain ⟨ptr, c2, hf, hv⟩ := Res.bind_eq_ok _ _ _ _ hn
      obtain ⟨_, _, hptr, hc2⟩ := CPU.fetch_eq_ok _ _ _ _ hf
      subst hc2
      rw [hf]
      simp only [Res.bind_ok]
      unfold CPU.integerValue at hv
      unfold CPU.incrementInteger
      split at hv
      · rename_i v hheap
        simp only [Res.ok.injEq, and_true] at hv
        subst hv
        exact ⟨_, rfl, rfl, by rw [← hptr]; simp⟩
      · simp at hv

/-! ## Operand and jump resolution in the assembler -/

theorem isDigit_not_special (d : Char) (h : d.isDigit = true) :
    isspace d = false ∧ d ≠ '-' ∧ d ≠ '+' ∧ d ≠ '@' ∧ d ≠ ':' := by
  refine ⟨?_, ?_, ?_, ?_, ?_⟩
  · by_contra hs
    simp only [isspace, Bool.not_eq_false, Bool.or_eq_true, beq_iff_eq] at hs
    rcases hs with ((((hs | hs) | hs) | hs) | hs) | hs <;> (subst hs; exact absurd h (by decide))
  all_goals (intro hs; subst hs; exact absurd h (by decide))

/-- The sign-stripping step of `std::stoi` keeps a text that starts with no sign. -/
theorem stoi_unsigned (cs : List Char) (hm : cs.head? ≠ some '-') (hp : cs.head? ≠ some '+') :
    stoi.match_1 (fun _ => List Char) cs (fun r => r) (fun r => r) (fun _ => cs) = cs := by
  split
  · simp at hm
  · simp at hp
  · rfl

/-- `std::stoi` on a non-empty run of decimal digits whose value fits an `int`. -/
theorem stoi_digits (s : String) (h : str.isnum s = true) (hv : digitsValue s.data ≤ 2147483647) :
    stoi s = .ok (digitsValue s.data : Int) := by
  simp only [str.isnum, Bool.and_eq_true, Bool.not_eq_true', List.isEmpty_eq_false,
    List.all_eq_true] at h
  obtain ⟨hne, hall⟩ := h
  obtain ⟨d, rest, hd⟩ := List.exists_cons_of_ne_nil hne
  have hdig : d.isDigit = true := hall d (by rw [hd]; simp)
  obtain ⟨hsp, hm, hp, _, _⟩ := isDigit_not_special d hdig
  have htw : (d :: rest).takeWhile Char.isDigit = d :: rest := by
    rw [List.takeWhile_eq_self_iff]
    intro x hx
    exact hall x (by rw [hd]; exact hx)
  unfold stoi
  rw [hd] at hv ⊢
  simp only [List.dropWhile_cons, hsp, Bool.false_eq_true, if_false, List.head?_cons]
  have hneg : decide (some d = some '-') = false := by simp [hm]
  rw [stoi_unsigned _ (by simp [hm]) (by simp [hp]), htw]
  simp only [hneg, List.isEmpty_cons, Bool.false_eq_true, if_false]
  rw [if_neg (by omega)]

/-- `std::stoi` on a minus sign followed by a non-empty run of decimal digits. -/
theorem stoi_negative (s : String) (ds : List Char) (hs : s.data = '-' :: ds) (hne : ds ≠ [])
    (hall : ∀ x ∈ ds, x.isDigit = true) (hv : digitsValue ds ≤ 2147483648) :
    stoi s = .ok (-(digitsValue ds : Int)) := by
  have htw : ds.takeWhile Char.isDigit = ds := by
    rw [List.takeWhile_eq_self_iff]
    exact hall
  obtain ⟨d, rest, hd⟩ := List.exists_cons_of_ne_nil hne
  unfold stoi
  rw [hs]
  have hsp : isspace '-' = false := by decide
  simp only [List.dropWhile_cons, hsp, Bool.false_eq_true, if_false, List.head?_cons, htw,
    decide_True, if_true]
  rw [hd] at hv ⊢
  simp only [List.isEmpty_cons, Bool.false_eq_true, if_false]
  rw [if_neg (by omega)]

theorem digitChar_digit (k : Nat) (h : k < 10) :
    (Nat.digitChar k).isDigit = true ∧ (Nat.digitChar k).toNat - 48 = k := by
  interval_cases k <;> exact ⟨rfl, rfl⟩

/-- The digits `Nat.toDigitsCore` puts in front of `ds` are decimal digits and
read back, most significant first, as the number. -/
theorem toDigitsCore_value (fuel : Nat) : ∀ (n : Nat) (ds : List Char), n < fuel →
    (∀ c ∈ ds, c.isDigit = true) →
    Nat.toDigitsCore 10 fuel n ds ≠ [] ∧
    (∀ c ∈ Nat.toDigitsCore 10 fuel n ds, c.isDigit = true) ∧
    (Nat.toDigitsCore 10 fuel n ds).foldl (fun a d => 10 * a + (d.toNat - 48)) 0
      = ds.foldl (fun a d => 10 * a + (d.toNat - 48)) n := by
  induction fuel with
  | zero => intro n ds h; omega
  | succ fuel ih =>
    intro n ds hn hds
    obtain ⟨hdig, hval⟩ := digitChar_digit (n % 10) (Nat.mod_lt _ (by decide))
    have hds1 : ∀ c ∈ Nat.digitChar (n % 10) :: ds, c.isDigit = true := by
      intro c hc
      rcases List.mem_cons.1 hc with h | h
      · rw [h]; exact hdig
      · exact hds c h
    unfold Nat.toDigitsCore
    by_cases h0 : n / 10 = 0
    · simp only [h0, if_true]
      refine ⟨by simp, hds1, ?_⟩
      simp only [List.foldl_cons, hval]
      congr 1
      omega
    · simp only [h0, if_false]
      obtain ⟨h1, h2, h3⟩ := ih (n / 10) (Nat.digitChar (n % 10) :: ds) (by omega) hds1
      refine ⟨h1, h2, ?_⟩
      rw [h3]
      simp only [List.foldl_cons, hval]
      congr 1
      omega

/-- The decimal text of a natural number. -/
theorem repr_digits (n : Nat) :
    (Nat.repr n).data ≠ [] ∧ (∀ c ∈ (Nat.repr n).data, c.isDigit = true) ∧
    digitsValue (Nat.repr n).data = n := by
  obtain ⟨h1, h2, h3⟩ := toDigitsCore_value (n + 1) n [] (by omega) (by simp)
  exact ⟨h1, h2, h3⟩

/-- `std::stoi` reads back the decimal text of an `int`. -/
theorem stoi_toString (v : Int) (h : fitsInt v) : stoi (toString v) = .ok v := by
  obtain ⟨h0, h1⟩ := h
  cases v with
  | ofNat m =>
    have h1 : (m : Int) < 2147483648 := h1
    obtain ⟨hne, hall, hval⟩ := repr_digits m
    have := stoi_digits (Nat.repr m)
      (by simp only [str.isnum, Bool.and_eq_true, Bool.not_eq_true', List.isEmpty_eq_false,
            List.all_eq_true]; exact ⟨hne, hall⟩)
      (by rw [hval]; omega)
    rw [hval] at this
    exact this
  | negSucc m =>
    rw [Int.negSucc_coe] at h0
    obtain ⟨hne, hall, hval⟩ := repr_digits (m + 1)
    have := stoi_negative ("-" ++ Nat.repr (m + 1)) (Nat.repr (m + 1)).data
      (by rw [String.data_append]; rfl) hne hall (by rw [hval]; omega)
    rw [hval, ← Int.negSucc_coe] at this
    exact this

/-- The decimal text of an integer does not start with `@`. -/
theorem toString_head (v : Int) : (toString v).data.head? ≠ some '@' := by
  cases v with
  | ofNat m =>
    obtain ⟨hne, hall, _⟩ := repr_digits m
    obtain ⟨d, rest, hd⟩ := List.exists_cons_of_ne_nil hne
    show (Nat.repr m).data.head? ≠ some '@'
    rw [hd]
    have := (isDigit_not_special d (hall d (by rw [hd]; simp))).2.2.2.1
    simpa using this
  | negSucc m =>
    show ("-" ++ Nat.repr (m + 1)).data.head? ≠ some '@'
    rw [String.data_append]
    show some '-' ≠ some '@'
    decide

theorem str.sub_prefixed (c : Char) (t : String) : str.sub (String.singleton c ++ t) 1 = t := by
  simp [str.sub, String.data_append, String.singleton]

theorem str.isnum_prefixed (c : Char) (t : String) (h : c.isDigit = false) :
    str.isnum (String.singleton c ++ t) = false := by
  simp [str.isnum, String.data_append, String.singleton, h]

theorem str.head_prefixed (c : Char) (t : String) :
    (String.singleton c ++ t).data.head? = some c := by
  simp [String.data_append, String.singleton]

theorem str.isnum_head (tok : String) (h : str.isnum tok = true) :
    ∃ d, tok.data.head? = some d ∧ d.isDigit = true := by
  simp only [str.isnum, Bool.and_eq_true, Bool.not_eq_true', List.isEmpty_eq_false,
    List.all_eq_true] at h
  obtain ⟨d, rest, hd⟩ := List.exists_cons_of_ne_nil h.1
  exact ⟨d, by rw [hd]; rfl, h.2 d (by rw [hd]; simp)⟩

theorem getint_op_digits (tok : String) (h : str.isnum tok = true)
    (hv : digitsValue tok.data ≤ 2147483647) :
    getint_op tok = .ok (false, (digitsValue tok.data : Int)) ∧
    getint_op ("@" ++ tok) = .ok (true, (digitsValue tok.data : Int)) := by
  obtain ⟨d, hd, hdig⟩ := str.isnum_head tok h
  have hat : d ≠ '@' := (isDigit_not_special d hdig).2.2.2.1
  constructor
  · simp only [getint_op, stoiThrow, hd, Option.some.injEq, hat, decide_False,
      Bool.false_eq_true, if_false, stoi_digits tok h hv]
  · have e : ("@" : String) = String.singleton '@' := rfl
    simp only [getint_op, stoiThrow, e, str.head_prefixed, decide_True, if_true,
      str.sub_prefixed, stoi_digits tok h hv]

theorem getint_op_toString (v : Int) (h : fitsInt v) :
    getint_op ("" ++ toString v) = .ok (false, v) ∧
    getint_op ("@" ++ toString v) = .ok (true, v) := by
  constructor
  · rw [String.empty_append]
    have hh := toString_head v
    simp only [getint_op, stoiThrow, hh, decide_False, Bool.false_eq_true, if_false,
      stoi_toString v h]
  · have e : ("@" : String) = String.singleton '@' := rfl
    simp only [getint_op, stoiThrow, e, str.head_prefixed, decide_True, if_true,
      str.sub_prefixed, stoi_toString v h]

/-- C25: for every names table, `getint_op(resolveregister(tok, names))` is
`(false, n)` for the decimal integer `n` and `(true, n)` for `@` followed by
it (`n` an `int`); it is `(false, names[a])` for a declared name `a` and
`(true, names[a])` for `@a`; for a name that is not in the table
`resolveregister` raises `undeclared name: a`, with or without `@`. -/
theorem C25_register_operand (names : Table) :
    (∀ tok, str.isnum tok = true → digitsValue tok.data ≤ 2147483647 →
      registerOperand tok names = .ok (false, (digitsValue tok.data : Int)) ∧
      registerOperand ("@" ++ tok) names = .ok (true, (digitsValue tok.data : Int))) ∧
    (∀ a v, isName a → names a = some v → fitsInt v →
      registerOperand a names = .ok (false, v) ∧
      registerOperand ("@" ++ a) names = .ok (true, v)) ∧
    (∀ a, isName a → names a = none →
      resolveregister a names = .error ("undeclared name: " ++ a) ∧
      resolveregister ("@" ++ a) names = .error ("undeclared name: " ++ a)) := by
  have e : ("@" : String) = String.singleton '@' := rfl
  have hat : Char.isDigit '@' = false := by decide
  refine ⟨?_, ?_, ?_⟩
  · intro tok h hv
    obtain ⟨g1, g2⟩ := getint_op_digits tok h hv
    constructor
    · simp only [registerOperand, resolveregister, h, if_true, g1]
    · rw [e] at g2 ⊢
      simp only [registerOperand, resolveregister, str.isnum_prefixed _ _ hat,
        Bool.false_eq_true, if_false, str.head_prefixed, str.sub_prefixed, h, and_self,
        if_true, g2]
  · intro a v ha hn hv
    obtain ⟨g1, g2⟩ := getint_op_toString v hv
    obtain ⟨ha1, ha2⟩ := ha
    constructor
    · simp only [registerOperand, resolveregister, ha1, Bool.false_eq_true, if_false, ha2,
        false_and, hn, g1]
    · rw [e]
      simp only [registerOperand, resolveregister, str.isnum_prefixed _ _ hat,
        Bool.false_eq_true, if_false, str.head_prefixed, str.sub_prefixed, ha1, and_false,
        if_true, hn, g2]
  · intro a ha hn
    obtain ⟨ha1, ha2⟩ := ha
    constructor
    · simp only [resolveregister, ha1, Bool.false_eq_true, if_false, ha2, false_and, hn]
    · rw [e]
      simp only [resolveregister, str.isnum_prefixed _ _ hat,
        Bool.false_eq_true, if_false, str.head_prefixed, str.sub_prefixed, ha1, and_false,
        if_true, hn]

/-- C26: for every marks table, a decimal integer that is an `int` resolves to
itself, `:m` resolves to `marks[m]` when `m` is in the table, and raises `jump
to unrecognised marker: m` when it is not. -/
theorem C26_resolvejump (marks : Table) :
    (∀ tok, str.isnum tok = true → digitsValue tok.data ≤ 2147483647 →
      resolvejump tok marks = .ok (digitsValue tok.data : Int)) ∧
    (∀ m addr, marks m = some addr → resolvejump (":" ++ m) marks = .ok addr) ∧
    (∀ m, marks m = none →
      resolvejump (":" ++ m) marks = .error ("jump to unrecognised marker: " ++ m)) := by
  have e : (":" : String) = String.singleton ':' := rfl
  have hc : Char.isDigit ':' = false := by decide
  refine ⟨?_, ?_, ?_⟩
  · intro tok h hv
    simp only [resolvejump, h, if_true, stoiThrow, stoi_digits tok h hv]
  · intro m addr hm
    rw [e]
    simp only [resolvejump, str.isnum_prefixed _ _ hc, Bool.false_eq_true, if_false,
      str.sub_prefixed, hm]
  · intro m hm
    rw [e]
    simp only [resolvejump, str.isnum_prefixed _ _ hc, Bool.false_eq_true, if_false,
      str.sub_prefixed, hm]

/-! ## The mark pass -/

theorem str.mark_not_name (line : String) (h : str.startswith line ".mark:" = true) :
    str.startswith line ".name:" = false := by
  unfold str.startswith at h ⊢
  have e1 : (".mark:" : String).data = ['.', 'm', 'a', 'r', 'k', ':'] := rfl
  have e2 : (".name:" : String).data = ['.', 'n', 'a', 'm', 'e', ':'] := rfl
  rw [e1] at h
  rw [e2]
  generalize line.data = cs at h ⊢
  rcases cs with _ | ⟨c1, _ | ⟨c2, rest⟩⟩
  · simp [List.isPrefixOf] at h
  · simp [List.isPrefixOf] at h
  · simp only [List.isPrefixOf, Bool.and_eq_true, beq_iff_eq] at h
    have h2 : c2 ≠ 'n' := by
      rw [← h.2.1]
      decide
    simp only [List.isPrefixOf, Bool.and_eq_false_imp, beq_iff_eq]
    intro _ hc
    exact absurd hc.symm h2

/-- The loop of `getmarks` over lines that do not declare `m` leaves the entry of `m`. -/
theorem getmarksLoop_other (m : String) : ∀ (ls : List String) (n : Int) (t : Table),
    (∀ l ∈ ls, markOf l ≠ some m) → getmarksLoop ls n t m = t m := by
  intro ls
  induction ls with
  | nil => intro n t _; rfl
  | cons l rest ih =>
    intro n t h
    have hl := h l (by simp)
    have hrest : ∀ l' ∈ rest, markOf l' ≠ some m := fun l' hl' => h l' (by simp [hl'])
    unfold getmarksLoop
    by_cases hn : str.startswith l ".name:" = true
    · simp only [hn, if_true]
      exact ih _ _ hrest
    · simp only [hn, Bool.false_eq_true, if_false]
      by_cases hm : str.startswith l ".mark:" = true
      · simp only [hm, Bool.not_true, Bool.false_eq_true, if_false]
        rw [ih _ _ hrest]
        simp only [markOf, hm, if_true, ne_eq, Option.some.injEq] at hl
        exact Function.update_noteq (fun e => hl e.symm) _ _
      · simp only [hm, Bool.not_false, if_true]
        exact ih _ _ hrest

/-- The loop of `getmarks` up to and after the last line that declares `m`. -/
theorem getmarksLoop_last (m l : String) (post : List String) (hl : markOf l = some m)
    (hpost : ∀ l' ∈ post, markOf l' ≠ some m) : ∀ (pre : List String) (n : Int) (t : Table),
    getmarksLoop (pre ++ l :: post) n t m = some (n + ((pre.filter isInstructionLine).length : Int)) := by
  have hlm : str.startswith l ".mark:" = true := by
    by_contra hc
    simp [markOf, hc] at hl
  intro pre
  induction pre with
  | nil =>
    intro n t
    simp only [List.nil_append, List.filter_nil, List.length_nil, Nat.cast_zero, add_zero]
    unfold getmarksLoop
    simp only [str.mark_not_name l hlm, Bool.false_eq_true, if_false, hlm, Bool.not_true]
    rw [getmarksLoop_other m post _ _ hpost]
    simp only [markOf, hlm, if_true, Option.some.injEq] at hl
    rw [hl]
    exact Function.update_same _ _ _
  | cons x pre ih =>
    intro n t
    simp only [List.cons_append]
    unfold getmarksLoop
    by_cases hn : str.startswith x ".name:" = true
    · simp only [hn, if_true]
      rw [ih]
      simp [List.filter_cons, isInstructionLine, hn]
    · simp only [hn, Bool.false_eq_true, if_false]
      by_cases hm : str.startswith x ".mark:" = true
      · simp only [hm, Bool.not_true, Bool.false_eq_true, if_false]
        rw [ih]
        simp [List.filter_cons, isInstructionLine, hm]
      · simp only [hm, Bool.not_false, if_true]
        rw [ih]
        simp only [List.filter_cons, isInstructionLine, hm, hn, Bool.or_self, Bool.not_false,
          if_true, List.length_cons, Nat.cast_add, Nat.cast_one]
        congr 1
        omega

/-- C23: for every list of lines and every name `m`, if `l` is the last line that
declares the mark `m` (`lines = pre ++ l :: post`, no line of `post` declares
`m`), `getmarks` maps `m` to the number of lines of `pre` that start with
neither `.mark:` nor `.name:`; if no line declares `m`, the table has no entry
for `m`. -/
theorem C23_getmarks (lines : List String) (m : String) :
    (∀ pre l post, lines = pre ++ l :: post → markOf l = some m →
      (∀ l' ∈ post, markOf l' ≠ some m) →
      getmarks lines m = some ((pre.filter isInstructionLine).length : Int)) ∧
    ((∀ l ∈ lines, markOf l ≠ some m) → getmarks lines m = none) := by
  constructor
  · intro pre l post hlines hl hpost
    rw [hlines]
    unfold getmarks
    rw [getmarksLoop_last m l post hl hpost pre 0 _]
    simp
  · intro h
    unfold getmarks
    rw [getmarksLoop_other m lines 0 _ h]

/-- C23 on scenario 4 of the specification: `loop` maps to 1, `end` maps to 4 and
`start`, which is not declared, is absent. -/
theorem C23_getmarks_witness :
    getmarks scenario4 "loop" = some 1 ∧ getmarks scenario4 "end" = some 4 ∧
    getmarks scenario4 "start" = none :=
  ⟨(C23_getmarks scenario4 "loop").1 ["istore 1 3"] ".mark: loop"
      ["idec 1", "ilt 1 0 2", "branch 2 :end :loop", ".mark: end", "print 1", "halt"]
      rfl rfl (by decide),
   (C23_getmarks scenario4 "end").1
      ["istore 1 3", ".mark: loop", "idec 1", "ilt 1 0 2", "branch 2 :end :loop"] ".mark: end"
      ["print 1", "halt"] rfl rfl (by decide),
   (C23_getmarks scenario4 "start").2 (by decide)⟩

/-! ## The sizing pass -/

/-- The loop of `countBytes` from a counter `b` that is a `uint16_t`. -/
theorem countBytesLoop_eq : ∀ (ls : List String) (b : Nat), b < 65536 →
    ((∃ l ∈ ls, isRejected l) → ∃ msg, countBytesLoop ls b = .error msg) ∧
    ((∀ l ∈ ls, ¬ isRejected l) → countBytesLoop ls b = .ok ((b + sizeSum ls) % 65536)) := by
  intro ls
  induction ls with
  | nil =>
    intro b hb
    refine ⟨by simp, fun _ => ?_⟩
    simp only [countBytesLoop, sizeSum, List.filter_nil, List.map_nil, List.sum_nil, add_zero]
    rw [Nat.mod_eq_of_lt hb]
  | cons l rest ih =>
    intro b hb
    unfold countBytesLoop
    by_cases hd : isDirective l = true
    · have hd1 : (str.startswith (str.lstrip l) ".mark:" || str.startswith (str.lstrip l) ".name:") = true := hd
      have hs : sizeSum (l :: rest) = sizeSum rest := by
        simp [sizeSum, List.filter_cons, hd]
      simp only [hd1, if_true, hs]
      obtain ⟨i1, i2⟩ := ih b hb
      refine ⟨?_, ?_⟩
      · rintro ⟨x, hx, hbad⟩
        rcases List.mem_cons.1 hx with h | h
        · subst h
          rw [hbad.1] at hd
          exact absurd hd (by simp)
        · exact i1 ⟨x, h, hbad⟩
      · intro h
        exact i2 fun x hx => h x (List.mem_cons_of_mem _ hx)
    · have hd0 : isDirective l = false := by simpa using hd
      have hd1 : (str.startswith (str.lstrip l) ".mark:" || str.startswith (str.lstrip l) ".name:") = false := hd0
      simp only [hd1, Bool.false_eq_true, if_false]
      cases hsz : OP_SIZES (str.chunk (str.lstrip l)) with
      | none =>
        simp only
        refine ⟨fun _ => ⟨_, rfl⟩, fun h => ?_⟩
        exact absurd ⟨hd0, Or.inl hsz⟩ (h l (by simp))
      | some inc =>
        simp only
        by_cases h0 : inc = 0
        · simp only [h0, if_true]
          refine ⟨fun _ => ⟨_, rfl⟩, fun h => ?_⟩
          exact absurd ⟨hd0, Or.inr (by rw [← h0]; exact hsz)⟩ (h l (by simp))
        · simp only [h0, if_false]
          have hs : sizeSum (l :: rest) = inc + sizeSum rest := by
            simp [sizeSum, List.filter_cons, hd0, lineSize, hsz]
          obtain ⟨i1, i2⟩ := ih ((b + inc) % 65536) (Nat.mod_lt _ (by decide))
          refine ⟨?_, ?_⟩
          · rintro ⟨x, hx, hbad⟩
            rcases List.mem_cons.1 hx with h | h
            · subst h
              rcases hbad.2 with h1 | h1
              · rw [lineSize, hsz] at h1
                simp at h1
              · rw [lineSize, hsz] at h1
                simp only [Option.some.injEq] at h1
                exact absurd h1 h0
            · exact i1 ⟨x, h, hbad⟩
          · intro h
            rw [i2 fun x hx => h x (List.mem_cons_of_mem _ hx), hs]
            congr 1
            omega

/-- C29, amended: `countBytes` fails if and only if some line that is not a
directive has a first token that is not in the opcode-size table or has the
tabulated size 0; otherwise its result is the sum of the tabulated sizes of
the first tokens of the lines that are not directives, reduced modulo 65536
(the result is a `uint16_t`), which is the sum itself when the sum is below
65536. -/
theorem C29_countBytes_wraps (lines : List String) :
    ((∃ msg, countBytes lines = .error msg) ↔ ∃ l ∈ lines, isRejected l) ∧
    ((∀ l ∈ lines, ¬ isRejected l) → countBytes lines = .ok (sizeSum lines % 65536)) ∧
    ((∀ l ∈ lines, ¬ isRejected l) → sizeSum lines < 65536 →
      countBytes lines = .ok (sizeSum lines)) := by
  obtain ⟨h1, h2⟩ := countBytesLoop_eq lines 0 (by decide)
  have h2 : (∀ l ∈ lines, ¬ isRejected l) → countBytes lines = .ok (sizeSum lines % 65536) := by
    intro h
    have := h2 h
    rw [Nat.zero_add] at this
    exact this
  refine ⟨⟨?_, h1⟩, h2, ?_⟩
  · rintro ⟨msg, hmsg⟩
    by_contra hc
    have hall : ∀ l ∈ lines, ¬ isRejected l := fun l hl hbad => hc ⟨l, hl, hbad⟩
    rw [h2 hall] at hmsg
    simp at hmsg
  · intro h hlt
    rw [h2 h, Nat.mod_eq_of_lt hlt]

theorem isRejected_iadd : ¬ isRejected "iadd 1 2 3" := by
  intro h
  rcases h.2 with h1 | h1
  · exact absurd h1 (by decide)
  · exact absurd h1 (by decide)

theorem sizeSum_replicate_iadd (n : Nat) : sizeSum (List.replicate n "iadd 1 2 3") = n * 16 := by
  have hd : isDirective "iadd 1 2 3" = false := by decide
  have hs : lineSize "iadd 1 2 3" = some 16 := by decide
  simp [sizeSum, List.filter_replicate, hd, hs]

/-- C29 as stated fails: for 4096 lines `iadd 1 2 3` the sum of the tabulated
sizes is 65536 and `countBytes` returns 0. -/
theorem C29_sum_overflows :
    countBytes (List.replicate 4096 "iadd 1 2 3") = .ok 0 ∧
    sizeSum (List.replicate 4096 "iadd 1 2 3") = 65536 := by
  have hs := sizeSum_replicate_iadd 4096
  have hall : ∀ l ∈ List.replicate 4096 "iadd 1 2 3", ¬ isRejected l := by
    intro l hl
    rw [List.eq_of_mem_replicate hl]
    exact isRejected_iadd
  have := (countBytesLoop_eq (List.replicate 4096 "iadd 1 2 3") 0 (by decide)).2 hall
  rw [hs] at this
  exact ⟨this, hs⟩

/-! ## Witnesses and evaluations for the assembler and the encoder -/

/-- C22 on `istore 1 42`, `ilt 1 2 3` and `iinc 1` written at the start of a
buffer of their size: the handlers return 11, 16 and 6, and leave the
`Integer` 42 in register 1, the `Boolean` of `2 < 5` in register 3 and the
`Integer` 3 in register 1. -/
theorem C22_encoder_decoder_agreement_witness :
    (∃ c1, (CPU.fresh 16 [0, 0, 1, 0, 0, 0, 0, 42, 0, 0, 0]).istore 1 = .ok 11 c1 ∧
      c1.heap (c1.registers 1) = some (.Integer 42)) ∧
    (∃ c1, (CPU.withIntegers [2, 5] [7, 0, 1, 0, 0, 0, 0, 2, 0, 0, 0, 0, 3, 0, 0, 0]).ilt 1
      = .ok 16 c1 ∧ c1.heap (c1.registers 3) = some (.Boolean true)) ∧
    (∃ c1, (CPU.withIntegers [2] [5, 0, 1, 0, 0, 0]).iinc 1 = .ok 6 c1 ∧
      c1.heap (c1.registers 1) = some (.Integer 3)) := by
  refine ⟨?_, ?_, ?_⟩
  · obtain ⟨p1, h1, _, h3⟩ :=
      (C22_encoder_decoder_agreement (Program.new 11)
        (CPU.fresh 16 [0, 0, 1, 0, 0, 0, 0, 42, 0, 0, 0])).1
        (false, 1) (false, 42) (by decide) (by decide) (by decide)
    have hp : p1 = { program := [0, 0, 1, 0, 0, 0, 0, 42, 0, 0, 0], bytes := 11, addr_ptr := 11,
                     branches := [] } := by
      have e : (Program.new 11).istore (false, 1) (false, 42) = .ok ()
          { program := [0, 0, 1, 0, 0, 0, 0, 42, 0, 0, 0], bytes := 11, addr_ptr := 11,
            branches := [] } := rfl
      rw [e] at h1
      simp only [Res.ok.injEq, true_and] at h1
      exact h1.symm
    subst hp
    exact (h3 rfl).2.2.2.2.2.2 rfl rfl (by decide) (by decide)
  · obtain ⟨p1, h1, _, h3⟩ :=
      (C22_encoder_decoder_agreement (Program.new 16)
        (CPU.withIntegers [2, 5] [7, 0, 1, 0, 0, 0, 0, 2, 0, 0, 0, 0, 3, 0, 0, 0])).2.1
        (false, 1) (false, 2) (false, 3) (by decide) (by decide) (by decide) (by decide)
    have hp : p1 = { program := [7, 0, 1, 0, 0, 0, 0, 2, 0, 0, 0, 0, 3, 0, 0, 0], bytes := 16,
                     addr_ptr := 16, branches := [] } := by
      have e : (Program.new 16).ilt (false, 1) (false, 2) (false, 3) = .ok ()
          { program := [7, 0, 1, 0, 0, 0, 0, 2, 0, 0, 0, 0, 3, 0, 0, 0], bytes := 16,
            addr_ptr := 16, branches := [] } := rfl
      rw [e] at h1
      simp only [Res.ok.injEq, true_and] at h1
      exact h1.symm
    subst hp
    exact (h3 rfl).2.2.2.2.2.2.2.2 rfl rfl rfl 2 5 rfl rfl (by decide) (by decide)
  · obtain ⟨p1, h1, _, h3⟩ :=
      (C22_encoder_decoder_agreement (Program.new 6)
        (CPU.withIntegers [2] [5, 0, 1, 0, 0, 0])).2.2
        (false, 1) (by decide) (by decide)
    have hp : p1 = { program := [5, 0, 1, 0, 0, 0], bytes := 6, addr_ptr := 6,
                     branches := [] } := by
      have e : (Program.new 6).iinc (false, 1) = .ok ()
          { program := [5, 0, 1, 0, 0, 0], bytes := 6, addr_ptr := 6, branches := [] } := rfl
      rw [e] at h1
      simp only [Res.ok.injEq, true_and] at h1
      exact h1.symm
    subst hp
    obtain ⟨c1, e1, e2, e3⟩ := (h3 rfl).2.2.2.2 rfl 2 rfl
    refine ⟨c1, e1, ?_⟩
    rw [e2]
    exact e3

/-- C25 for the tokens `12`, `@12`, `base`, `@base` and `top` with the table that
maps `base` to 3. -/
theorem C25_register_operand_witness :
    str.isnum "12" = true ∧ isName "base" ∧
    registerOperand "12" (Function.update (fun _ => none) "base" (some 3)) = .ok (false, 12) ∧
    registerOperand ("@" ++ "12") (Function.update (fun _ => none) "base" (some 3))
      = .ok (true, 12) ∧
    registerOperand "base" (Function.update (fun _ => none) "base" (some 3)) = .ok (false, 3) ∧
    registerOperand ("@" ++ "base") (Function.update (fun _ => none) "base" (some 3))
      = .ok (true, 3) ∧
    resolveregister "top" (Function.update (fun _ => none) "base" (some 3))
      = .error ("undeclared name: " ++ "top") :=
  ⟨by decide, by decide,
   ((C25_register_operand (Function.update (fun _ => none) "base" (some 3))).1 "12"
      (by decide) (by decide)).1,
   ((C25_register_operand (Function.update (fun _ => none) "base" (some 3))).1 "12"
      (by decide) (by decide)).2,
   ((C25_register_operand (Function.update (fun _ => none) "base" (some 3))).2.1 "base" 3
      (by decide) (by decide) (by decide)).1,
   ((C25_register_operand (Function.update (fun _ => none) "base" (some 3))).2.1 "base" 3
      (by decide) (by decide) (by decide)).2,
   ((C25_register_operand (Function.update (fun _ => none) "base" (some 3))).2.2 "top"
      (by decide) (by decide)).1⟩

/-- C26 for the tokens `7`, `:end` and `:exit` with the marks of scenario 4. -/
theorem C26_resolvejump_witness :
    resolvejump "7" (getmarks scenario4) = .ok 7 ∧
    resolvejump (":" ++ "end") (getmarks scenario4) = .ok 4 ∧
    resolvejump (":" ++ "exit") (getmarks scenario4)
      = .error ("jump to unrecognised marker: " ++ "exit") :=
  ⟨(C26_resolvejump (getmarks scenario4)).1 "7" (by decide) (by decide),
   (C26_resolvejump (getmarks scenario4)).2.1 "end" 4 (by decide),
   (C26_resolvejump (getmarks scenario4)).2.2 "exit" (by decide)⟩

/-- C29, amended, on scenario 4: the sizes sum to 54 and `countBytes` returns the sum. -/
theorem C29_countBytes_wraps_witness :
    sizeSum scenario4 = 54 ∧ countBytes scenario4 = .ok (sizeSum scenario4) :=
  ⟨by decide, (C29_countBytes_wraps scenario4).2.2 (by decide) (by decide)⟩

/-- C24 fails on the code: the register token of `.name: 1x acc` is not a decimal
integer, and `getnames` does not fail: `std::stoi` reads the leading `1` and
the table maps `acc` to 1. -/
theorem C24_name_index_trailing_text :
    str.isnum "1x" = false ∧
    ∃ names, getnames [".name: 1x acc"] = .ok names ∧ names "acc" = some 1 :=
  ⟨by decide, _, rfl, by decide⟩

/-- C27 fails on the code: `xend` is not a decimal integer and does not begin with
`:`, `end` is a mark of scenario 4 with index 4, and `resolvejump` drops the
first character of `xend` and resolves it to the mark `end`, index 4. -/
theorem C27_jump_target_without_colon :
    str.isnum "xend" = false ∧ str.startswith "xend" ":" = false ∧
    getmarks scenario4 "end" = some 4 ∧
    resolvejump "xend" (getmarks scenario4) = .ok 4 :=
  ⟨by decide, by decide, by decide, rfl⟩

/-- C28 fails on the code after a `delete` line: in `delete 1 ; branch 1 0 ;
istore 2 5 ; halt` the short-form branch is instruction 1, `assemble` emits
it at offset 0 with the true target 0 and the false target 2, and
`calculateBranches` patches the false target to 25, the offset of `halt`,
not to 14, the offset of the `istore` that follows the branch. -/
theorem C28_short_branch_after_delete :
    countBytes ["delete 1", "branch 1 0", "istore 2 5", "halt"] = .ok 32 ∧
    ∃ p p2, assemble (Program.new 32) ["delete 1", "branch 1 0", "istore 2 5", "halt"] = .ok () p ∧
      p.program[0]? = some OPCODE.BRANCH.toByte ∧
      Mem.readInt p.program 6 = some 0 ∧ Mem.readInt p.program 10 = some 2 ∧
      p.calculateBranches = .ok () p2 ∧
      Mem.readInt p2.program 10 = some 25 ∧ p2.program[14]? = some OPCODE.ISTORE.toByte ∧
      p2.program[25]? = some OPCODE.HALT.toByte :=
  ⟨rfl, _, _, rfl, rfl, rfl, rfl, rfl, rfl, rfl, rfl⟩

/-- C30 fails on the code: each of the two header writes of `main` asks for 16
bytes of a two-byte variable, which reads past the variable, so the write of
the file is undefined for every program; in particular for the program
assembled from `istore 1 42 ; print 1 ; halt`, 18 bytes long. -/
theorem C30_header_fields_sixteen_bytes :
    (∀ bytes bytecode, mainWrite bytes 0 bytecode = .undefined) ∧
    ∃ p p2 bytecode, countBytes (getilines ["istore 1 42", "print 1", "halt"]) = .ok 18 ∧
      assemble (Program.new 18) (getilines ["istore 1 42", "print 1", "halt"]) = .ok () p ∧
      p.calculateBranches = .ok () p2 ∧ p2.bytecode = .ok bytecode p2 ∧
      bytecode.length = 18 ∧ mainWrite 18 0 bytecode = .undefined :=
  ⟨fun _ _ => rfl, _, _, _, rfl, rfl, rfl, rfl, rfl, rfl⟩

/-! ## The frame of `calculateBranches` -/

/-- The bytes of a patched call differ from the bytes of the call at most in the
address operands: bytes 1 to 4 of a `JUMP`, bytes 6 to 13 of a `BRANCH`. -/
theorem patchCall_bytes (sizes : List Nat) (count : Int) (c c1 : Call)
    (h : patchCall sizes count c = some c1) (q : Nat) :
    c1.bytes[q]? = c.bytes[q]? ∨
      (c.opcode = .JUMP ∧ 1 ≤ q ∧ q ≤ 4) ∨ (c.opcode = .BRANCH ∧ 6 ≤ q ∧ q ≤ 13) := by
  by_cases hb : c.isBranch = true
  · rcases Call.isBranch_cases c hb with ⟨k, rfl⟩ | ⟨r, t, f, rfl⟩
    · simp only [patchCall] at h
      cases hr : resolveTarget sizes count k with
      | none => simp [hr] at h
      | some o =>
        simp only [hr, Option.map_some', Option.some.injEq] at h
        subst h
        rcases Nat.lt_or_ge q 1 with h0 | h0
        · left
          have : q = 0 := by omega
          subst this
          rfl
        · rcases Nat.lt_or_ge 4 q with h4 | h4
          · left
            have h1 : (Call.jump o).bytes.length = 5 := rfl
            have h2 : (Call.jump k).bytes.length = 5 := rfl
            rw [List.getElem?_eq_none (by omega), List.getElem?_eq_none (by omega)]
          · exact Or.inr (Or.inl ⟨rfl, h0, h4⟩)
    · simp only [patchCall] at h
      cases ht : resolveTarget sizes count t with
      | none => simp [ht] at h
      | some t1 =>
        cases hf : resolveTarget sizes count f with
        | none => simp [ht, hf] at h
        | some f1 =>
          simp only [ht, hf, Option.some.injEq] at h
          subst h
          rcases Nat.lt_or_ge q 6 with h0 | h0
          · left
            have e1 : (Call.branch r t1 f1).bytes
                = (OPCODE.BRANCH.toByte :: intOpBytes r) ++ (intBytes t1 ++ intBytes f1) := by
              simp [Call.bytes]
            have e2 : (Call.branch r t f).bytes
                = (OPCODE.BRANCH.toByte :: intOpBytes r) ++ (intBytes t ++ intBytes f) := by
              simp [Call.bytes]
            rw [e1, e2, List.getElem?_append_left (by simpa using h0),
              List.getElem?_append_left (by simpa using h0)]
          · rcases Nat.lt_or_ge 13 q with h4 | h4
            · left
              have h1 : (Call.branch r t1 f1).bytes.length = 14 := rfl
              have h2 : (Call.branch r t f).bytes.length = 14 := rfl
              rw [List.getElem?_eq_none (by omega), List.getElem?_eq_none (by omega)]
            · exact Or.inr (Or.inr ⟨rfl, h0, h4⟩)
  · have hb2 : c.isBranch = false := by simpa using hb
    rw [patchCall_of_not_isBranch _ _ _ hb2] at h
    simp only [Option.some.injEq] at h
    subst h
    exact Or.inl rfl

/-- The encodings of a patched sequence differ from the encodings of the
sequence at most in the address operands of its jumps and branches. -/
theorem encode_patched (sizes : List Nat) (count : Int) : ∀ (cs cs1 : List Call),
    patchCalls sizes count cs = some cs1 → ∀ q,
    (encode cs1)[q]? = (encode cs)[q]? ∨
      ∃ j c, cs[j]? = some c ∧
        ((c.opcode = .JUMP ∧ offsetOf cs j + 1 ≤ q ∧ q ≤ offsetOf cs j + 4) ∨
         (c.opcode = .BRANCH ∧ offsetOf cs j + 6 ≤ q ∧ q ≤ offsetOf cs j + 13)) := by
  intro cs
  induction cs with
  | nil =>
    intro cs1 h q
    simp [patchCalls] at h
    subst h
    exact Or.inl rfl
  | cons d cs ih =>
    intro cs1 h q
    obtain ⟨d1, l, rfl, hd, hl⟩ := patchCalls_cons _ _ _ _ _ h
    have hsz : d1.bytes.length = d.bytes.length := by
      rw [Call.size_eq_length, Call.size_eq_length, (patchCall_size _ _ _ _ hd).1]
    simp only [encode_cons]
    rcases Nat.lt_or_ge q d.bytes.length with hq | hq
    · rw [List.getElem?_append_left (by omega), List.getElem?_append_left hq]
      rcases patchCall_bytes _ _ _ _ hd q with h1 | h1 | h1
      · exact Or.inl h1
      · exact Or.inr ⟨0, d, by simp, Or.inl (by simpa using h1)⟩
      · exact Or.inr ⟨0, d, by simp, Or.inr (by simpa using h1)⟩
    · rw [List.getElem?_append_right (by omega), List.getElem?_append_right hq, hsz]
      rcases ih l hl (q - d.bytes.length) with h1 | ⟨j, c, hjc, h1⟩
      · exact Or.inl h1
      · refine Or.inr ⟨j + 1, c, by simpa using hjc, ?_⟩
        rw [offsetOf_succ, ← Call.size_eq_length]
        rcases h1 with ⟨ho, h2, h3⟩ | ⟨ho, h2, h3⟩
        · exact Or.inl ⟨ho, by omega, by omega⟩
        · exact Or.inr ⟨ho, by omega, by omega⟩

/-- The position of a jump or a branch is among the recorded positions. -/
theorem branchPositions_mem : ∀ (cs : List Call) (base j : Nat) (c : Call),
    cs[j]? = some c → c.isBranch = true → base + offsetOf cs j ∈ branchPositions cs base := by
  intro cs
  induction cs with
  | nil => intro base j c h; simp at h
  | cons d cs ih =>
    intro base j c h hb
    cases j with
    | zero =>
      simp at h
      subst h
      simp [branchPositions, hb]
    | succ j =>
      simp only [List.getElem?_cons_succ] at h
      have := ih (base + d.size) j c h hb
      rw [offsetOf_succ, ← Nat.add_assoc]
      simp only [branchPositions, List.mem_append]
      exact Or.inr this

/-- C36: in a buffer exactly filled by encoder calls, a `calculateBranches` that
returns leaves the size, the cursor and the `branches` list as they were and
changes a byte only inside an address operand: bytes 1 to 4 after a recorded
position whose tag is `JUMP`, bytes 6 to 13 after a recorded position whose
tag is `BRANCH`. Every other byte (tags, flag bytes, operand values, the
condition operand of a `BRANCH`) is unchanged, and every instruction still
starts, with its tag, at the offset it had. -/
theorem C36_calculateBranches_frame (cs : List Call) :
    ∃ p, build cs = .ok () p ∧
      ∀ p1, p.calculateBranches = .ok () p1 →
        p1.bytes = p.bytes ∧ p1.branches = p.branches ∧ p1.addr_ptr = p.addr_ptr ∧
        p1.program.length = p.program.length ∧
        (∀ q, p1.program[q]? ≠ p.program[q]? →
          ∃ b ∈ p.branches,
            (p.program[b]? = some OPCODE.JUMP.toByte ∧ b + 1 ≤ q ∧ q ≤ b + 4) ∨
            (p.program[b]? = some OPCODE.BRANCH.toByte ∧ b + 6 ≤ q ∧ q ≤ b + 13)) ∧
        (∀ (j : Nat) (c : Call), cs[j]? = some c →
          p1.program[offsetOf cs j]? = some c.opcode.toByte) := by
  refine ⟨_, build_eq cs, ?_⟩
  intro p1 hp1
  obtain ⟨N, hN⟩ := Program.calculateBranches_built cs
  cases hcs1 : patchCalls (cs.map Call.size) N cs with
  | none =>
    rw [hcs1] at hN
    obtain ⟨s, hs⟩ := hN
    rw [hs] at hp1
    exact absurd hp1 (by simp)
  | some cs1 =>
    rw [hcs1] at hN
    simp only [] at hN
    rw [hN] at hp1
    simp only [Res.ok.injEq, true_and] at hp1
    subst hp1
    have hlen : encodedSize cs1 = encodedSize cs := by
      unfold encodedSize
      rw [patchCalls_sizes _ _ _ _ hcs1]
    refine ⟨rfl, rfl, rfl, ?_, ?_, ?_⟩
    · show (encode cs1).length = (encode cs).length
      rw [encode_length, encode_length, hlen]
    · intro q hq
      rcases encode_patched _ _ cs cs1 hcs1 q with h1 | ⟨j, c, hjc, h1⟩
      · exact absurd h1 hq
      · have htag := encode_tag cs j c hjc
        rcases h1 with ⟨ho, h2, h3⟩ | ⟨ho, h2, h3⟩
        · have hb : c.isBranch = true := by cases c <;> simp_all [Call.opcode, Call.isBranch]
          have hmem := branchPositions_mem cs 0 j c hjc hb
          rw [Nat.zero_add] at hmem
          exact ⟨_, hmem, Or.inl ⟨by rw [htag, ho], h2, h3⟩⟩
        · have hb : c.isBranch = true := by cases c <;> simp_all [Call.opcode, Call.isBranch]
          have hmem := branchPositions_mem cs 0 j c hjc hb
          rw [Nat.zero_add] at hmem
          exact ⟨_, hmem, Or.inr ⟨by rw [htag, ho], h2, h3⟩⟩
    · intro j c hjc
      obtain ⟨c1, hc1, hpc⟩ := patchCalls_getElem _ _ _ _ hcs1 j _ hjc
      have := encode_tag cs1 j c1 hc1
      rw [offsetOf_patched _ _ _ _ hcs1, (patchCall_size _ _ _ _ hpc).2] at this
      exact this

/-! ## The operands of a line -/

theorem List.dropWhile_blank (w t : List Char) (hw : ∀ c ∈ w, str.isWhitespace c = true)
    (ht : ∀ c, t.head? = some c → str.isWhitespace c = false) :
    (w ++ t).dropWhile str.isWhitespace = t := by
  induction w with
  | nil =>
    cases t with
    | nil => rfl
    | cons c r => simp [List.dropWhile, ht c rfl]
  | cons x w ih =>
    simp only [List.cons_append, List.dropWhile_cons, hw x (by simp), if_true]
    exact ih fun c hc => hw c (by simp [hc])

theorem List.takeWhile_token (a t : List Char) (ha : ∀ c ∈ a, str.isWhitespace c = false)
    (ht : ∀ c, t.head? = some c → str.isWhitespace c = true) :
    (a ++ t).takeWhile (fun c => !str.isWhitespace c) = a := by
  induction a with
  | nil =>
    cases t with
    | nil => rfl
    | cons c r => simp [List.takeWhile, ht c rfl]
  | cons x a ih =>
    simp only [List.cons_append, List.takeWhile_cons, ha x (by simp), Bool.not_false, if_true]
    rw [ih fun c hc => ha c (by simp [hc])]

/-- The first token of a text that starts with a token followed by whitespace or nothing. -/
theorem str.chunk_token (a t : String) (ha : isToken a)
    (ht : ∀ c, t.data.head? = some c → str.isWhitespace c = true) : str.chunk (a ++ t) = a := by
  obtain ⟨hne, hall⟩ := ha
  obtain ⟨x, r, hx⟩ := List.exists_cons_of_ne_nil hne
  have hd : (a.data ++ t.data).dropWhile str.isWhitespace = a.data ++ t.data := by
    rw [hx]
    simp [List.dropWhile, hall x (by rw [hx]; simp)]
  unfold str.chunk
  rw [String.data_append, hd, List.takeWhile_token _ _ hall ht]

theorem str.sub_token (a t : String) : str.sub (a ++ t) a.length = t := by
  unfold str.sub
  rw [String.data_append]
  show String.mk (List.drop a.data.length (a.data ++ t.data)) = t
  rw [List.drop_left]

theorem str.lstrip_blank (w t : String) (hw : isBlank w)
    (ht : ∀ c, t.data.head? = some c → str.isWhitespace c = false) : str.lstrip (w ++ t) = t := by
  unfold str.lstrip
  rw [String.data_append, List.dropWhile_blank _ _ hw ht]

theorem isBlank_head (w t : String) (hw : isBlank w) (hne : w ≠ "") :
    ∀ c, (w ++ t).data.head? = some c → str.isWhitespace c = true := by
  intro c hc
  rw [String.data_append] at hc
  have hd : w.data ≠ [] := by
    intro h
    apply hne
    cases w
    simp_all
  obtain ⟨x, r, hx⟩ := List.exists_cons_of_ne_nil hd
  rw [hx] at hc
  simp only [List.cons_append, List.head?_cons, Option.some.injEq] at hc
  rw [← hc]
  exact hw x (by rw [hx]; simp)

theorem isBlank_head_self (w : String) (hw : isBlank w) :
    ∀ c, w.data.head? = some c → str.isWhitespace c = true := by
  intro c hc
  cases hd : w.data with
  | nil => rw [hd] at hc; simp at hc
  | cons x r =>
    rw [hd] at hc
    simp only [List.head?_cons, Option.some.injEq] at hc
    rw [← hc]
    exact hw x (by rw [hd]; simp)

theorem isToken_head (a t : String) (ha : isToken a) :
    ∀ c, (a ++ t).data.head? = some c → str.isWhitespace c = false := by
  intro c hc
  rw [String.data_append] at hc
  obtain ⟨x, r, hx⟩ := List.exists_cons_of_ne_nil ha.1
  rw [hx] at hc
  simp only [List.cons_append, List.head?_cons, Option.some.injEq] at hc
  rw [← hc]
  exact ha.2 x (by rw [hx]; simp)

theorem isToken_length (a : String) (ha : isToken a) : a.length ≠ 0 := by
  intro h
  apply ha.1
  have : a.data.length = 0 := h
  exact List.length_eq_zero.1 this

/-- `get3operands` on two operands followed by whitespace or nothing. -/
theorem get3operands_two (a b w1 w3 : String) (ha : isToken a) (hb : isToken b)
    (hw1 : isBlank w1) (h1 : w1 ≠ "") (hw3 : isBlank w3) (fill : Bool) :
    get3operands (a ++ (w1 ++ (b ++ w3))) fill = (a, b, if fill then a else "") := by
  have e3 : w3 = w3 ++ "" := by simp
  have hnil : ∀ c, ("" : String).data.head? = some c → str.isWhitespace c = false := by
    intro c hc
    simp at hc
  unfold get3operands
  simp only [str.chunk_token a _ ha (isBlank_head w1 _ hw1 h1), str.sub_token,
    str.lstrip_blank w1 _ hw1 (isToken_head b w3 hb),
    str.chunk_token b _ hb (isBlank_head_self w3 hw3)]
  rw [e3, str.lstrip_blank w3 "" hw3 hnil]
  cases fill
  · simp [str.chunk]
  · simp

/-- `get3operands` on three operands. -/
theorem get3operands_three (a b c w1 w2 w3 : String) (ha : isToken a) (hb : isToken b)
    (hc : isToken c) (hw1 : isBlank w1) (h1 : w1 ≠ "") (hw2 : isBlank w2) (h2 : w2 ≠ "")
    (hw3 : isBlank w3) (fill : Bool) :
    get3operands (a ++ (w1 ++ (b ++ (w2 ++ (c ++ w3))))) fill = (a, b, c) := by
  have hlen : (c ++ w3).length ≠ 0 := by
    rw [String.length_append]
    have := isToken_length c hc
    omega
  unfold get3operands
  simp only [str.chunk_token a _ ha (isBlank_head w1 _ hw1 h1), str.sub_token,
    str.lstrip_blank w1 _ hw1 (isToken_head b _ hb),
    str.chunk_token b _ hb (isBlank_head w2 _ hw2 h2),
    str.lstrip_blank w2 _ hw2 (isToken_head c w3 hc), hlen, false_and, if_false,
    str.chunk_token c _ hc (isBlank_head_self w3 hw3)]

/-- C32: for operand tokens `a`, `b`, `c` separated by whitespace, on a text that
starts with its first operand, `get3operands` with `fill_third` returns
`(a, b, a)` for two operands and without it `(a, b, "")`; for three operands
it returns `(a, b, c)` either way. So a three-operand instruction with two
operands is assembled as the one with the first operand repeated, and the
line `iadd 1 2` is assembled as `iadd 1 2 1`. -/
theorem C32_get3operands (a b c w1 w2 w3 : String) (ha : isToken a) (hb : isToken b)
    (hc : isToken c) (hw1 : isBlank w1) (h1 : w1 ≠ "") (hw2 : isBlank w2) (h2 : w2 ≠ "")
    (hw3 : isBlank w3) :
    get3operands (a ++ (w1 ++ (b ++ w3))) true = (a, b, a) ∧
    get3operands (a ++ (w1 ++ (b ++ w3))) false = (a, b, "") ∧
    (∀ fill, get3operands (a ++ (w1 ++ (b ++ (w2 ++ (c ++ w3))))) fill = (a, b, c)) ∧
    (∀ program names instr,
      assemble_three_intop_instruction program names instr (a ++ (w1 ++ (b ++ w3)))
        = assemble_three_intop_instruction program names instr
            (a ++ (w1 ++ (b ++ (w2 ++ (a ++ w3)))))) ∧
    (∀ program marks names instruction,
      assembleLine program marks names instruction "iadd 1 2"
        = assembleLine program marks names instruction "iadd 1 2 1") := by
  refine ⟨get3operands_two a b w1 w3 ha hb hw1 h1 hw3 true,
    get3operands_two a b w1 w3 ha hb hw1 h1 hw3 false,
    fun fill => get3operands_three a b c w1 w2 w3 ha hb hc hw1 h1 hw2 h2 hw3 fill, ?_, ?_⟩
  · intro program names instr
    unfold assemble_three_intop_instruction
    rw [get3operands_two a b w1 w3 ha hb hw1 h1 hw3 true,
      get3operands_three a b a w1 w2 w3 ha hb ha hw1 h1 hw2 h2 hw3 true]
    rfl
  · intro program marks names instruction
    rfl

/-- C32 on the operand texts `1 2` and `1 2 3`. -/
theorem C32_get3operands_witness :
    get3operands ("1" ++ (" " ++ ("2" ++ ""))) true = ("1", "2", "1") ∧
    get3operands ("1" ++ (" " ++ ("2" ++ ""))) false = ("1", "2", "") ∧
    get3operands ("1" ++ (" " ++ ("2" ++ (" " ++ ("3" ++ ""))))) true = ("1", "2", "3") :=
  ⟨(C32_get3operands "1" "2" "3" " " " " "" (by decide) (by decide) (by decide) (by decide)
      (by decide) (by decide) (by decide) (by decide)).1,
   (C32_get3operands "1" "2" "3" " " " " "" (by decide) (by decide) (by decide) (by decide)
      (by decide) (by decide) (by decide) (by decide)).2.1,
   (C32_get3operands "1" "2" "3" " " " " "" (by decide) (by decide) (by decide) (by decide)
      (by decide) (by decide) (by decide) (by decide)).2.2.1 true⟩

/-! ## The instruction counter of `assemble` -/

theorem Res.bind_assoc {σ α β γ : Type} (r : Res σ α) (f : α → σ → Res σ β)
    (g : β → σ → Res σ γ) : (r.bind f).bind g = r.bind fun a s => (f a s).bind g := by
  cases r <;> rfl

/-- The main loop of `assemble` over two lists of lines, one after the other. -/
theorem assembleLoop_append (marks names : Table) : ∀ (pre rest : List String) (n : Int)
    (p : Program),
    assembleLoop marks names (pre ++ rest) n p
      = (assembleLoop marks names pre n p).bind fun k p1 => assembleLoop marks names rest k p1 := by
  intro pre
  induction pre with
  | nil => intro rest n p; rfl
  | cons l pre ih =>
    intro rest n p
    simp only [List.cons_append, assembleLoop]
    by_cases hd : (str.startswith l ".mark:" || str.startswith l ".name:") = true
    · simp only [hd, if_true]
      exact ih rest n p
    · simp only [hd, Bool.false_eq_true, if_false, Res.bind_assoc]
      congr 1
      funext _ p1
      exact ih rest (n + 1) p1

/-- The instruction counter after the main loop of `assemble` has run over some lines. -/
theorem assembleLoop_counter (marks names : Table) : ∀ (pre : List String) (n k : Int)
    (p p1 : Program), assembleLoop marks names pre n p = .ok k p1 →
    k = n + ((pre.filter isInstructionLine).length : Int) := by
  intro pre
  induction pre with
  | nil =>
    intro n k p p1 h
    simp only [assembleLoop, Res.ok.injEq] at h
    simp [h.1]
  | cons l pre ih =>
    intro n k p p1 h
    unfold assembleLoop at h
    by_cases hd : (str.startswith l ".mark:" || str.startswith l ".name:") = true
    · simp only [hd, if_true] at h
      rw [ih n k p p1 h]
      simp [List.filter_cons, isInstructionLine, hd]
    · simp only [hd, Bool.false_eq_true, if_false] at h
      obtain ⟨_, p2, _, h2⟩ := Res.bind_eq_ok _ _ _ _ h
      rw [ih (n + 1) k p2 p1 h2]
      have hi : isInstructionLine l = true := by simp [isInstructionLine, hd]
      simp only [List.filter_cons, hi, if_true, List.length_cons, Nat.cast_add, Nat.cast_one]
      omega

theorem jump_line_data (m : String) :
    ("jump :" ++ m).data = 'j' :: 'u' :: 'm' :: 'p' :: ' ' :: ':' :: m.data := by
  rw [String.data_append]
  rfl

/-- The line `jump :m` is assembled into `jump` with the index of the mark `m`. -/
theorem assembleLine_jump (program : Program) (marks names : Table) (instruction addr : Int)
    (m : String) (hm : marks m = some addr) :
    assembleLine program marks names instruction ("jump :" ++ m) = program.jump addr := by
  have hchunk : str.chunk ("jump :" ++ m) = "jump" := by
    simp [str.chunk, jump_line_data, List.dropWhile, List.takeWhile, str.isWhitespace]
  have hops : str.lstrip (str.sub ("jump :" ++ m) "jump".length) = ":" ++ m := by
    have e : ("jump" : String).length = 4 := rfl
    rw [e]
    simp [str.lstrip, str.sub, jump_line_data, List.dropWhile, str.isWhitespace]
    rfl
  have hres : resolvejump (":" ++ m) marks = .ok addr := by
    have e : (":" : String) = String.singleton ':' := rfl
    have hc : Char.isDigit ':' = false := by decide
    rw [e]
    simp only [resolvejump, str.isnum_prefixed _ _ hc, Bool.false_eq_true, if_false,
      str.sub_prefixed, hm]
  unfold assembleLine
  simp only [hchunk, hops, hres]
  simp [str.startswith, str.startswithchunk, hchunk, jump_line_data, List.isPrefixOf,
    Res.ofExcept]

/-- The main loop of `assemble` when it reaches an instruction line: the counter
is the number of instruction lines before it. -/
theorem assembleLoop_at (marks names : Table) (pre post : List String) (line : String)
    (program p1 : Program) (k : Int) (hline : isInstructionLine line = true)
    (h : assembleLoop marks names pre 0 program = .ok k p1) :
    k = ((pre.filter isInstructionLine).length : Int) ∧
    assembleLoop marks names (pre ++ line :: post) 0 program
      = (assembleLine p1 marks names k line).bind fun _ p2 =>
          assembleLoop marks names post (k + 1) p2 := by
  have hk := assembleLoop_counter marks names pre 0 k program p1 h
  rw [zero_add] at hk
  refine ⟨hk, ?_⟩
  rw [assembleLoop_append, h]
  simp only [Res.bind_ok]
  have hd : (str.startswith line ".mark:" || str.startswith line ".name:") = false := by
    simpa [isInstructionLine] using hline
  conv_lhs => unfold assembleLoop
  simp only [hd, Bool.false_eq_true, if_false]

/-- C33: when the main loop of `assemble` has run over the lines `pre` and reaches
an instruction line, its counter is the number of lines of `pre` that start
with neither `.mark:` nor `.name:`, and the line is assembled with that
counter. A line `.mark: m` placed immediately before the instruction line
(and not declared again after it) gets this same number from `getmarks`, the
counter is not advanced by it, and a line `jump :m` is assembled into `jump`
with this number, the index of the first instruction after the mark. -/
theorem C33_mark_and_emit_indices (names : Table) (pre post : List String) (line : String)
    (program : Program) (hline : isInstructionLine line = true) :
    (∀ marks k p1, assembleLoop marks names pre 0 program = .ok k p1 →
      k = ((pre.filter isInstructionLine).length : Int) ∧
      assembleLoop marks names (pre ++ line :: post) 0 program
        = (assembleLine p1 marks names k line).bind fun _ p2 =>
            assembleLoop marks names post (k + 1) p2) ∧
    (∀ l m, markOf l = some m → (∀ l1 ∈ post, markOf l1 ≠ some m) →
      getmarks (pre ++ l :: line :: post) m = some ((pre.filter isInstructionLine).length : Int) ∧
      (∀ marks k p1, assembleLoop marks names (pre ++ [l]) 0 program = .ok k p1 →
        k = ((pre.filter isInstructionLine).length : Int) ∧
        assembleLoop marks names (pre ++ l :: line :: post) 0 program
          = (assembleLine p1 marks names k line).bind fun _ p2 =>
              assembleLoop marks names post (k + 1) p2) ∧
      (∀ p instruction,
        assembleLine p (getmarks (pre ++ l :: line :: post)) names instruction ("jump :" ++ m)
          = p.jump ((pre.filter isInstructionLine).length : Int))) := by
  refine ⟨fun marks k p1 h => assembleLoop_at marks names pre post line program p1 k hline h, ?_⟩
  intro l m hl hpost
  have hlm : str.startswith l ".mark:" = true := by
    by_contra hc
    simp [markOf, hc] at hl
  have hmarks : getmarks (pre ++ l :: line :: post) m
      = some ((pre.filter isInstructionLine).length : Int) := by
    have hline2 : markOf line ≠ some m := by
      have : str.startswith line ".mark:" = false := by
        simp only [isInstructionLine, Bool.not_eq_true', Bool.or_eq_false_iff] at hline
        exact hline.1
      simp [markOf, this]
    unfold getmarks
    rw [getmarksLoop_last m l (line :: post) hl (by
      intro l1 h1
      rcases List.mem_cons.1 h1 with h | h
      · rw [h]; exact hline2
      · exact hpost l1 h) pre 0 _]
    simp
  refine ⟨hmarks, ?_, ?_⟩
  · intro marks k p1 h
    have hcount : ((pre ++ [l]).filter isInstructionLine).length
        = (pre.filter isInstructionLine).length := by
      simp [List.filter_append, isInstructionLine, hlm]
    have hsplit : pre ++ l :: line :: post = (pre ++ [l]) ++ (line :: post) := by simp
    have := assembleLoop_at marks names (pre ++ [l]) post line program p1 k hline h
    rw [hcount, ← hsplit] at this
    exact this
  · intro p instruction
    exact assembleLine_jump p _ names instruction _ m hmarks

/-- C33 on scenario 4: the mark `end` and the counter at `print 1` are both 4, and
`jump :end` is emitted with the address operand 4. -/
theorem C33_mark_and_emit_indices_witness :
    getmarks scenario4 "end" = some 4 ∧
    (∃ k p1, assembleLoop (getmarks scenario4) (fun _ => none)
        ["istore 1 3", ".mark: loop", "idec 1", "ilt 1 0 2", "branch 2 :end :loop", ".mark: end"]
        0 (Program.new 54) = .ok k p1 ∧ k = 4) ∧
    (∃ p, assembleLine (Program.new 5) (getmarks scenario4) (fun _ => none) 0 ("jump :" ++ "end")
        = .ok () p ∧ Mem.readInt p.program 1 = some 4) := by
  obtain ⟨_, h⟩ := C33_mark_and_emit_indices (fun _ => none)
    ["istore 1 3", ".mark: loop", "idec 1", "ilt 1 0 2", "branch 2 :end :loop"] ["halt"]
    "print 1" (Program.new 54) rfl
  obtain ⟨h1, h2, h3⟩ := h ".mark: end" "end" rfl (by decide)
  exact ⟨h1, ⟨_, _, rfl, (h2 (getmarks scenario4) _ _ rfl).1⟩, _, h3 (Program.new 5) 0, rfl⟩

/-! ## What a line makes `assemble` emit -/

theorem List.isPrefixOf_token (w a rest : List Char)
    (hw : ∀ c ∈ w, str.isWhitespace c = false)
    (hrest : ∀ c, rest.head? = some c → str.isWhitespace c = true) :
    w.isPrefixOf (a ++ rest) = w.isPrefixOf a := by
  induction w generalizing a with
  | nil => simp [List.isPrefixOf]
  | cons x w ih =>
    cases a with
    | nil =>
      cases rest with
      | nil => rfl
      | cons c r =>
        have hc := hrest c rfl
        have hx := hw x (by simp)
        have hne : x ≠ c := by
          intro h
          rw [h, hc] at hx
          exact absurd hx (by simp)
        simp [List.isPrefixOf, hne]
    | cons y a =>
      have := ih a (fun c hc => hw c (by simp [hc]))
      simp only [List.cons_append, List.isPrefixOf]
      show (x == y && w.isPrefixOf (a ++ rest)) = (x == y && w.isPrefixOf a)
      rw [this]

/-- A stripped line is its first token followed by whitespace or nothing. -/
theorem str.chunk_split (line : String) (hl : str.lstrip line = line) :
    ∃ rest, line.data = (str.chunk line).data ++ rest ∧
      ∀ c, rest.head? = some c → str.isWhitespace c = true := by
  have hd : line.data.dropWhile str.isWhitespace = line.data := by
    have := congrArg String.data hl
    simpa [str.lstrip] using this
  refine ⟨line.data.dropWhile fun c => !str.isWhitespace c, ?_, ?_⟩
  · unfold str.chunk
    rw [hd]
    exact (List.takeWhile_append_dropWhile _ _).symm
  · intro c hc
    generalize line.data = cs at hc
    induction cs with
    | nil => simp at hc
    | cons x cs ih =>
      by_cases hx : str.isWhitespace x = true
      · simp only [List.dropWhile_cons, hx, Bool.not_true, Bool.false_eq_true, if_false,
          List.head?_cons, Option.some.injEq] at hc
        rw [← hc]
        exact hx
      · simp only [List.dropWhile_cons, hx, Bool.not_false, if_true] at hc
        exact ih hc

/-- On a stripped line, the test for a mnemonic at the start of the line is the
test on the first token. -/
theorem str.startswith_line (line w : String) (hl : str.lstrip line = line)
    (hw : ∀ c ∈ w.data, str.isWhitespace c = false) :
    str.startswith line w = str.startswith (str.chunk line) w := by
  obtain ⟨rest, hdata, hrest⟩ := str.chunk_split line hl
  unfold str.startswith
  rw [hdata]
  exact List.isPrefixOf_token _ _ _ hw hrest

/-- A pure step that can throw, followed by more: when the whole returns, the
step returned and left the state as it was. -/
theorem Res.ofExcept_bind_ok {σ α β : Type} (e : Except String α) (s s1 : σ)
    (f : α → σ → Res σ β) (b : β) (h : (Res.ofExcept e s).bind f = .ok b s1) :
    ∃ a, e = .ok a ∧ f a s = .ok b s1 := by
  cases e with
  | error msg => simp [Res.ofExcept] at h
  | ok a => exact ⟨a, rfl, h⟩

theorem Res.ofExcept_state {σ α : Type} (e : Except String α) (s s1 : σ) (a : α)
    (h : Res.ofExcept e s = .ok a s1) : s1 = s := by
  cases e with
  | error msg => simp [Res.ofExcept] at h
  | ok b =>
    simp only [Res.ofExcept, Res.ok.injEq] at h
    exact h.2.symm

theorem assembleTwoIntOps_ok (program p1 : Program) (names : Table) (operands : String)
    (f : Program → int_op → int_op → Res Program Unit)
    (h : assembleTwoIntOps program names operands f = .ok () p1) :
    ∃ a b, f program a b = .ok () p1 := by
  unfold assembleTwoIntOps at h
  obtain ⟨b, _, h⟩ := Res.ofExcept_bind_ok _ _ _ _ _ h
  obtain ⟨a, _, h⟩ := Res.ofExcept_bind_ok _ _ _ _ _ h
  exact ⟨a, b, h⟩

theorem assembleOneIntOp_ok (program p1 : Program) (names : Table) (operands : String)
    (f : Program → int_op → Res Program Unit)
    (h : assembleOneIntOp program names operands f = .ok () p1) :
    ∃ a, f program a = .ok () p1 := by
  unfold assembleOneIntOp at h
  obtain ⟨a, _, h⟩ := Res.ofExcept_bind_ok _ _ _ _ _ h
  exact ⟨a, h⟩

theorem assemble_three_intop_instruction_ok (program p1 : Program) (names : Table)
    (instr operands : String)
    (h : assemble_three_intop_instruction program names instr operands = .ok () p1) :
    ∃ f a b r, THREE_INTOP_ASM_FUNCTIONS instr = some f ∧ f program a b r = .ok () p1 := by
  unfold assemble_three_intop_instruction at h
  obtain ⟨_, _, h⟩ := Res.ofExcept_bind_ok _ _ _ _ _ h
  obtain ⟨_, _, h⟩ := Res.ofExcept_bind_ok _ _ _ _ _ h
  obtain ⟨_, _, h⟩ := Res.ofExcept_bind_ok _ _ _ _ _ h
  cases hf : THREE_INTOP_ASM_FUNCTIONS instr with
  | none => simp [hf] at h
  | some f =>
    simp only [hf] at h
    obtain ⟨r, _, h⟩ := Res.ofExcept_bind_ok _ _ _ _ _ h
    obtain ⟨b, _, h⟩ := Res.ofExcept_bind_ok _ _ _ _ _ h
    obtain ⟨a, _, h⟩ := Res.ofExcept_bind_ok _ _ _ _ _ h
    exact ⟨f, a, b, r, rfl, h⟩

/-- The entries of the opcode-size table. -/
theorem OP_SIZES_some (tok : String) (sz : Nat) (h : OP_SIZES tok = some sz) :
    (tok = "istore" ∧ sz = 11) ∨
    (tok = "iadd" ∧ sz = 16) ∨
    (tok = "isub" ∧ sz = 16) ∨
    (tok = "imul" ∧ sz = 16) ∨
    (tok = "idiv" ∧ sz = 16) ∨
    (tok = "iinc" ∧ sz = 6) ∨
    (tok = "idec" ∧ sz = 6) ∨
    (tok = "ilt" ∧ sz = 16) ∨
    (tok = "ilte" ∧ sz = 16) ∨
    (tok = "igt" ∧ sz = 16) ∨
    (tok = "igte" ∧ sz = 16) ∨
    (tok = "ieq" ∧ sz = 16) ∨
    (tok = "bstore" ∧ sz = 8) ∨
    (tok = "not" ∧ sz = 6) ∨
    (tok = "and" ∧ sz = 16) ∨
    (tok = "or" ∧ sz = 16) ∨
    (tok = "move" ∧ sz = 11) ∨
    (tok = "copy" ∧ sz = 11) ∨
    (tok = "ref" ∧ sz = 11) ∨
    (tok = "swap" ∧ sz = 11) ∨
    (tok = "delete" ∧ sz = 6) ∨
    (tok = "print" ∧ sz = 6) ∨
    (tok = "echo" ∧ sz = 6) ∨
    (tok = "jump" ∧ sz = 5) ∨
    (tok = "branch" ∧ sz = 14) ∨
    (tok = "ret" ∧ sz = 6) ∨
    (tok = "halt" ∧ sz = 1) ∨
    (tok = "pass" ∧ sz = 1) := by
  unfold OP_SIZES at h
  by_cases h0 : tok = "istore"
  · rw [if_pos h0] at h
    simp only [Option.some.injEq] at h
    exact Or.inl ⟨h0, h.symm⟩
  rw [if_neg h0] at h
  by_cases h1 : tok = "iadd"
  · rw [if_pos h1] at h
    simp only [Option.some.injEq] at h
    exact Or.inr (Or.inl ⟨h1, h.symm⟩)
  rw [if_neg h1] at h
  by_cases h2 : tok = "isub"
  · rw [if_pos h2] at h
    simp only [Option.some.injEq] at h
    exact Or.inr (Or.inr (Or.inl ⟨h2, h.symm⟩))
  rw [if_neg h2] at h
  by_cases h3 : tok = "imul"
  · rw [if_pos h3] at h
    simp only [Option.some.injEq] at h
    exact Or.inr (Or.inr (Or.inr (Or.inl ⟨h3, h.symm⟩)))
  rw [if_neg h3] at h
  by_cases h4 : tok = "idiv"
  · rw [if_pos h4] at h
    simp only [Option.some.injEq] at h
    exact Or.inr (Or.inr (Or.inr (Or.inr (Or.inl ⟨h4, h.symm⟩))))
  rw [if_neg h4] at h
  by_cases h5 : tok = "iinc"
  · rw [if_pos h5] at h
    simp only [Option.some.injEq] at h
    exact Or.inr (Or.inr (Or.inr (Or.inr (Or.inr (Or.inl ⟨h5, h.symm⟩)))))
  rw [if_neg h5] at h
  by_cases h6 : tok = "idec"
  · rw [if_pos h6] at h
    simp only [Option.some.injEq] at h
    exact Or.inr (Or.inr (Or.inr (Or.inr (Or.inr (Or.inr (Or.inl ⟨h6, h.symm⟩))))))
  rw [if_neg h6] at h
  by_cases h7 : tok = "ilt"
  · rw [if_pos h7] at h
    simp only [Option.some.injEq] at h
    exact Or.inr (Or.inr (Or.inr (Or.inr (Or.inr (Or.inr (Or.inr (Or.inl ⟨h7, h.symm⟩)))))))
  rw [if_neg h7] at h
  by_cases h8 : tok = "ilte"
  · rw [if_pos h8] at h
    simp only [Option.some.injEq] at h
    exact Or.inr (Or.inr (Or.inr (Or.inr (Or.inr (Or.inr (Or.inr (Or.inr (Or.inl ⟨h8, h.symm⟩))))))))
  rw [if_neg h8] at h
  by_cases h9 : tok = "igt"
  · rw [if_pos h9] at h
    simp only [Option.some.injEq] at h
    exact Or.inr (Or.inr (Or.inr (Or.inr (Or.inr (Or.inr (Or.inr (Or.inr (Or.inr (Or.inl ⟨h9, h.symm⟩)))))))))
  rw [if_neg h9] at h
  by_cases h10 : tok = "igte"
  · rw [if_pos h10] at h
    simp only [Option.some.injEq] at h
    exact Or.inr (Or.inr (Or.inr (Or.inr (Or.inr (Or.inr (Or.inr (Or.inr (Or.inr (Or.inr (Or.inl ⟨h10, h.symm⟩))))))))))
  rw [if_neg h10] at h
  by_cases h11 : tok = "ieq"
  · rw [if_pos h11] at h
    simp only [Option.some.injEq] at h
    exact Or.inr (Or.inr (Or.inr (Or.inr (Or.inr (Or.inr (Or.inr (Or.inr (Or.inr (Or.inr (Or.inr (Or.inl ⟨h11, h.symm⟩)))))))))))
  rw [if_neg h11] at h
  by_cases h12 : tok = "bstore"
  · rw [if_pos h12] at h
    simp only [Option.some.injEq] at h
    exact Or.inr (Or.inr (Or.inr (Or.inr (Or.inr (Or.inr (Or.inr (Or.inr (Or.inr (Or.inr (Or.inr (Or.inr (Or.inl ⟨h12, h.symm⟩))))))))))))
  rw [if_neg h12] at h
  by_cases h13 : tok = "not"
  · rw [if_pos h13] at h
    simp only [Option.some.injEq] at h
    exact Or.inr (Or.inr (Or.inr (Or.inr (Or.inr (Or.inr (Or.inr (Or.inr (Or.inr (Or.inr (Or.inr (Or.inr (Or.inr (Or.inl ⟨h13, h.symm⟩)))))))))))))
  rw [if_neg h13] at h
  by_cases h14 : tok = "and"
  · rw [if_pos h14] at h
    simp only [Option.some.injEq] at h
    exact Or.inr (Or.inr (Or.inr (Or.inr (Or.inr (Or.inr (Or.inr (Or.inr (Or.inr (Or.inr (Or.inr (Or.inr (Or.inr (Or.inr (Or.inl ⟨h14, h.symm⟩))))))))))))))
  rw [if_neg h14] at h
  by_cases h15 : tok = "or"
  · rw [if_pos h15] at h
    simp only [Option.some.injEq] at h
    exact Or.inr (Or.inr (Or.inr (Or.inr (Or.inr (Or.inr (Or.inr (Or.inr (Or.inr (Or.inr (Or.inr (Or.inr (Or.inr (Or.inr (Or.inr (Or.inl ⟨h15, h.symm⟩)))))))))))))))
  rw [if_neg h15] at h
  by_cases h16 : tok = "move"
  · rw [if_pos h16] at h
    simp only [Option.some.injEq] at h
    exact Or.inr (Or.inr (Or.inr (Or.inr (Or.inr (Or.inr (Or.inr (Or.inr (Or.inr (Or.inr (Or.inr (Or.inr (Or.inr (Or.inr (Or.inr (Or.inr (Or.inl ⟨h16, h.symm⟩))))))))))))))))
  rw [if_neg h16] at h
  by_cases h17 : tok = "copy"
  · rw [if_pos h17] at h
    simp only [Option.some.injEq] at h
    exact Or.inr (Or.inr (Or.inr (Or.inr (Or.inr (Or.inr (Or.inr (Or.inr (Or.inr (Or.inr (Or.inr (Or.inr (Or.inr (Or.inr (Or.inr (Or.inr (Or.inr (Or.inl ⟨h17, h.symm⟩)))))))))))))))))
  rw [if_neg h17] at h
  by_cases h18 : tok = "ref"
  · rw [if_pos h18] at h
    simp only [Option.some.injEq] at h
    exact Or.inr (Or.inr (Or.inr (Or.inr (Or.inr (Or.inr (Or.inr (Or.inr (Or.inr (Or.inr (Or.inr (Or.inr (Or.inr (Or.inr (Or.inr (Or.inr (Or.inr (Or.inr (Or.inl ⟨h18, h.symm⟩))))))))))))))))))
  rw [if_neg h18] at h
  by_cases h19 : tok = "swap"
  · rw [if_pos h19] at h
    simp only [Option.some.injEq] at h
    exact Or.inr (Or.inr (Or.inr (Or.inr (Or.inr (Or.inr (Or.inr (Or.inr (Or.inr (Or.inr (Or.inr (Or.inr (Or.inr (Or.inr (Or.inr (Or.inr (Or.inr (Or.inr (Or.inr (Or.inl ⟨h19, h.symm⟩)))))))))))))))))))
  rw [if_neg h19] at h
  by_cases h20 : tok = "delete"
  · rw [if_pos h20] at h
    simp only [Option.some.injEq] at h
    exact Or.inr (Or.inr (Or.inr (Or.inr (Or.inr (Or.inr (Or.inr (Or.inr (Or.inr (Or.inr (Or.inr (Or.inr (Or.inr (Or.inr (Or.inr (Or.inr (Or.inr (Or.inr (Or.inr (Or.inr (Or.inl ⟨h20, h.symm⟩))))))))))))))))))))
  rw [if_neg h20] at h
  by_cases h21 : tok = "print"
  · rw [if_pos h21] at h
    simp only [Option.some.injEq] at h
    exact Or.inr (Or.inr (Or.inr (Or.inr (Or.inr (Or.inr (Or.inr (Or.inr (Or.inr (Or.inr (Or.inr (Or.inr (Or.inr (Or.inr (Or.inr (Or.inr (Or.inr (Or.inr (Or.inr (Or.inr (Or.inr (Or.inl ⟨h21, h.symm⟩)))))))))))))))))))))
  rw [if_neg h21] at h
  by_cases h22 : tok = "echo"
  · rw [if_pos h22] at h
    simp only [Option.some.injEq] at h
    exact Or.inr (Or.inr (Or.inr (Or.inr (Or.inr (Or.inr (Or.inr (Or.inr (Or.inr (Or.inr (Or.inr (Or.inr (Or.inr (Or.inr (Or.inr (Or.inr (Or.inr (Or.inr (Or.inr (Or.inr (Or.inr (Or.inr (Or.inl ⟨h22, h.symm⟩))))))))))))))))))))))
  rw [if_neg h22] at h
  by_cases h23 : tok = "jump"
  · rw [if_pos h23] at h
    simp only [Option.some.injEq] at h
    exact Or.inr (Or.inr (Or.inr (Or.inr (Or.inr (Or.inr (Or.inr (Or.inr (Or.inr (Or.inr (Or.inr (Or.inr (Or.inr (Or.inr (Or.inr (Or.inr (Or.inr (Or.inr (Or.inr (Or.inr (Or.inr (Or.inr (Or.inr (Or.inl ⟨h23, h.symm⟩)))))))))))))))))))))))
  rw [if_neg h23] at h
  by_cases h24 : tok = "branch"
  · rw [if_pos h24] at h
    simp only [Option.some.injEq] at h
    exact Or.inr (Or.inr (Or.inr (Or.inr (Or.inr (Or.inr (Or.inr (Or.inr (Or.inr (Or.inr (Or.inr (Or.inr (Or.inr (Or.inr (Or.inr (Or.inr (Or.inr (Or.inr (Or.inr (Or.inr (Or.inr (Or.inr (Or.inr (Or.inr (Or.inl ⟨h24, h.symm⟩))))))))))))))))))))))))
  rw [if_neg h24] at h
  by_cases h25 : tok = "ret"
  · rw [if_pos h25] at h
    simp only [Option.some.injEq] at h
    exact Or.inr (Or.inr (Or.inr (Or.inr (Or.inr (Or.inr (Or.inr (Or.inr (Or.inr (Or.inr (Or.inr (Or.inr (Or.inr (Or.inr (Or.inr (Or.inr (Or.inr (Or.inr (Or.inr (Or.inr (Or.inr (Or.inr (Or.inr (Or.inr (Or.inr (Or.inl ⟨h25, h.symm⟩)))))))))))))))))))))))))
  rw [if_neg h25] at h
  by_cases h26 : tok = "halt"
  · rw [if_pos h26] at h
    simp only [Option.some.injEq] at h
    exact Or.inr (Or.inr (Or.inr (Or.inr (Or.inr (Or.inr (Or.inr (Or.inr (Or.inr (Or.inr (Or.inr (Or.inr (Or.inr (Or.inr (Or.inr (Or.inr (Or.inr (Or.inr (Or.inr (Or.inr (Or.inr (Or.inr (Or.inr (Or.inr (Or.inr (Or.inr (Or.inl ⟨h26, h.symm⟩))))))))))))))))))))))))))
  rw [if_neg h26] at h
  by_cases h27 : tok = "pass"
  · rw [if_pos h27] at h
    simp only [Option.some.injEq] at h
    exact Or.inr (Or.inr (Or.inr (Or.inr (Or.inr (Or.inr (Or.inr (Or.inr (Or.inr (Or.inr (Or.inr (Or.inr (Or.inr (Or.inr (Or.inr (Or.inr (Or.inr (Or.inr (Or.inr (Or.inr (Or.inr (Or.inr (Or.inr (Or.inr (Or.inr (Or.inr (Or.inr (⟨h27, h.symm⟩)))))))))))))))))))))))))))
  rw [if_neg h27] at h
  exact absurd h (by simp)

set_option maxHeartbeats 2000000 in
/-- What a stripped line whose first token is in the opcode-size table makes
`assemble` emit: nothing for `delete`, and otherwise one encoder call, of the
tabulated size of the token. -/
theorem assembleLine_emits (program p1 : Program) (marks names : Table) (k : Int) (line : String)
    (sz : Nat) (hl : str.lstrip line = line) (hsz : OP_SIZES (str.chunk line) = some sz)
    (h : assembleLine program marks names k line = .ok () p1) :
    (str.chunk line = "delete" ∧ sz = 6 ∧ p1 = program) ∨
    ∃ c : Call, c.run program = .ok () p1 ∧ c.size = sz ∧ OP_NAMES c.opcode = str.chunk line := by
  unfold assembleLine at h
  dsimp only at h
  generalize str.lstrip (str.sub line (str.chunk line).length) = operands at h
  rw [str.startswith_line line "istore" hl (by decide)] at h
  rw [str.startswith_line line "iadd" hl (by decide)] at h
  rw [str.startswith_line line "isub" hl (by decide)] at h
  rw [str.startswith_line line "imul" hl (by decide)] at h
  rw [str.startswith_line line "idiv" hl (by decide)] at h
  rw [str.startswith_line line "igte" hl (by decide)] at h
  rw [str.startswith_line line "igt" hl (by decide)] at h
  rw [str.startswith_line line "ieq" hl (by decide)] at h
  rw [str.startswith_line line "iinc" hl (by decide)] at h
  rw [str.startswith_line line "idec" hl (by decide)] at h
  rw [str.startswith_line line "bstore" hl (by decide)] at h
  rw [str.startswith_line line "not" hl (by decide)] at h
  rw [str.startswith_line line "and" hl (by decide)] at h
  rw [str.startswith_line line "or" hl (by decide)] at h
  rw [str.startswith_line line "move" hl (by decide)] at h
  rw [str.startswith_line line "copy" hl (by decide)] at h
  rw [str.startswith_line line "ref" hl (by decide)] at h
  rw [str.startswith_line line "swap" hl (by decide)] at h
  rw [str.startswith_line line "ret" hl (by decide)] at h
  rw [str.startswith_line line "print" hl (by decide)] at h
  rw [str.startswith_line line "echo" hl (by decide)] at h
  rw [str.startswith_line line "branch" hl (by decide)] at h
  rw [str.startswith_line line "jump" hl (by decide)] at h
  rw [str.startswith_line line "pass" hl (by decide)] at h
  rw [str.startswith_line line "halt" hl (by decide)] at h
  unfold str.startswithchunk at h
  rcases OP_SIZES_some _ _ hsz with ⟨t1, rfl⟩ | ⟨t2, rfl⟩ | ⟨t3, rfl⟩ | ⟨t4, rfl⟩ | ⟨t5, rfl⟩ | ⟨t6, rfl⟩ | ⟨t7, rfl⟩ | ⟨t8, rfl⟩ | ⟨t9, rfl⟩ | ⟨t10, rfl⟩ | ⟨t11, rfl⟩ | ⟨t12, rfl⟩ | ⟨t13, rfl⟩ | ⟨t14, rfl⟩ | ⟨t15, rfl⟩ | ⟨t16, rfl⟩ | ⟨t17, rfl⟩ | ⟨t18, rfl⟩ | ⟨t19, rfl⟩ | ⟨t20, rfl⟩ | ⟨t21, rfl⟩ | ⟨t22, rfl⟩ | ⟨t23, rfl⟩ | ⟨t24, rfl⟩ | ⟨t25, rfl⟩ | ⟨t26, rfl⟩ | ⟨t27, rfl⟩ | ⟨t28, rfl⟩
  · rw [t1] at h ⊢
    rw [if_pos (show str.startswith "istore" "istore" = true by decide)] at h
    obtain ⟨a, b, hab⟩ := assembleTwoIntOps_ok _ _ _ _ _ h
    exact Or.inr ⟨.istore a b, hab, rfl, rfl⟩
  · rw [t2] at h ⊢
    rw [if_neg (show ¬ (str.startswith "iadd" "istore" = true) by decide)] at h
    rw [if_pos (show str.startswith "iadd" "iadd" = true by decide)] at h
    obtain ⟨f, a, b, r, hf, hr⟩ := assemble_three_intop_instruction_ok _ _ _ _ _ h
    have hf1 : THREE_INTOP_ASM_FUNCTIONS "iadd" = some Program.iadd := rfl
    rw [hf1] at hf
    simp only [Option.some.injEq] at hf
    subst hf
    exact Or.inr ⟨.iadd a b r, hr, rfl, rfl⟩
  · rw [t3] at h ⊢
    rw [if_neg (show ¬ (str.startswith "isub" "istore" = true) by decide)] at h
    rw [if_neg (show ¬ (str.startswith "isub" "iadd" = true) by decide)] at h
    rw [if_pos (show str.startswith "isub" "isub" = true by decide)] at h
    obtain ⟨f, a, b, r, hf, hr⟩ := assemble_three_intop_instruction_ok _ _ _ _ _ h
    have hf1 : THREE_INTOP_ASM_FUNCTIONS "isub" = some Program.isub := rfl
    rw [hf1] at hf
    simp only [Option.some.injEq] at hf
    subst hf
    exact Or.inr ⟨.isub a b r, hr, rfl, rfl⟩
  · rw [t4] at h ⊢
    rw [if_neg (show ¬ (str.startswith "imul" "istore" = true) by decide)] at h
    rw [if_neg (show ¬ (str.startswith "imul" "iadd" = true) by decide)] at h
    rw [if_neg (show ¬ (str.startswith "imul" "isub" = true) by decide)] at h
    rw [if_pos (show str.startswith "imul" "imul" = true by decide)] at h
    obtain ⟨f, a, b, r, hf, hr⟩ := assemble_three_intop_instruction_ok _ _ _ _ _ h
    have hf1 : THREE_INTOP_ASM_FUNCTIONS "imul" = some Program.imul := rfl
    rw [hf1] at hf
    simp only [Option.some.injEq] at hf
    subst hf
    exact Or.inr ⟨.imul a b r, hr, rfl, rfl⟩
  · rw [t5] at h ⊢
    rw [if_neg (show ¬ (str.startswith "idiv" "istore" = true) by decide)] at h
    rw [if_neg (show ¬ (str.startswith "idiv" "iadd" = true) by decide)] at h
    rw [if_neg (show ¬ (str.startswith "idiv" "isub" = true) by decide)] at h
    rw [if_neg (show ¬ (str.startswith "idiv" "imul" = true) by decide)] at h
    rw [if_pos (show str.startswith "idiv" "idiv" = true by decide)] at h
    obtain ⟨f, a, b, r, hf, hr⟩ := assemble_three_intop_instruction_ok _ _ _ _ _ h
    have hf1 : THREE_INTOP_ASM_FUNCTIONS "idiv" = some Program.idiv := rfl
    rw [hf1] at hf
    simp only [Option.some.injEq] at hf
    subst hf
    exact Or.inr ⟨.idiv a b r, hr, rfl, rfl⟩
  · rw [t6] at h ⊢
    rw [if_neg (show ¬ (str.startswith "iinc" "istore" = true) by decide)] at h
    rw [if_neg (show ¬ (str.startswith "iinc" "iadd" = true) by decide)] at h
    rw [if_neg (show ¬ (str.startswith "iinc" "isub" = true) by decide)] at h
    rw [if_neg (show ¬ (str.startswith "iinc" "imul" = true) by decide)] at h
    rw [if_neg (show ¬ (str.startswith "iinc" "idiv" = true) by decide)] at h
    rw [if_neg (show ¬ (decide ("iinc" = "ilt") = true) by decide)] at h
    rw [if_neg (show ¬ (decide ("iinc" = "ilte") = true) by decide)] at h
    rw [if_neg (show ¬ (str.startswith "iinc" "igte" = true) by decide)] at h
    rw [if_neg (show ¬ (str.startswith "iinc" "igt" = true) by decide)] at h
    rw [if_neg (show ¬ (str.startswith "iinc" "ieq" = true) by decide)] at h
    rw [if_pos (show str.startswith "iinc" "iinc" = true by decide)] at h
    obtain ⟨a, ha⟩ := assembleOneIntOp_ok _ _ _ _ _ h
    exact Or.inr ⟨.iinc a, ha, rfl, rfl⟩
  · rw [t7] at h ⊢
    rw [if_neg (show ¬ (str.startswith "idec" "istore" = true) by decide)] at h
    rw [if_neg (show ¬ (str.startswith "idec" "iadd" = true) by decide)] at h
    rw [if_neg (show ¬ (str.startswith "idec" "isub" = true) by decide)] at h
    rw [if_neg (show ¬ (str.startswith "idec" "imul" = true) by decide)] at h
    rw [if_neg (show ¬ (str.startswith "idec" "idiv" = true) by decide)] at h
    rw [if_neg (show ¬ (decide ("idec" = "ilt") = true) by decide)] at h
    rw [if_neg (show ¬ (decide ("idec" = "ilte") = true) by decide)] at h
    rw [if_neg (show ¬ (str.startswith "idec" "igte" = true) by decide)] at h
    rw [if_neg (show ¬ (str.startswith "idec" "igt" = true) by decide)] at h
    rw [if_neg (show ¬ (str.startswith "idec" "ieq" = true) by decide)] at h
    rw [if_neg (show ¬ (str.startswith "idec" "iinc" = true) by decide)] at h
    rw [if_pos (show str.startswith "idec" "idec" = true by decide)] at h
    obtain ⟨a, ha⟩ := assembleOneIntOp_ok _ _ _ _ _ h
    exact Or.inr ⟨.idec a, ha, rfl, rfl⟩
  · rw [t8] at h ⊢
    rw [if_neg (show ¬ (str.startswith "ilt" "istore" = true) by decide)] at h
    rw [if_neg (show ¬ (str.startswith "ilt" "iadd" = true) by decide)] at h
    rw [if_neg (show ¬ (str.startswith "ilt" "isub" = true) by decide)] at h
    rw [if_neg (show ¬ (str.startswith "ilt" "imul" = true) by decide)] at h
    rw [if_neg (show ¬ (str.startswith "ilt" "idiv" = true) by decide)] at h
    rw [if_pos (show decide ("ilt" = "ilt") = true by decide)] at h
    obtain ⟨f, a, b, r, hf, hr⟩ := assemble_three_intop_instruction_ok _ _ _ _ _ h
    have hf1 : THREE_INTOP_ASM_FUNCTIONS "ilt" = some Program.ilt := rfl
    rw [hf1] at hf
    simp only [Option.some.injEq] at hf
    subst hf
    exact Or.inr ⟨.ilt a b r, hr, rfl, rfl⟩
  · rw [t9] at h ⊢
    rw [if_neg (show ¬ (str.startswith "ilte" "istore" = true) by decide)] at h
    rw [if_neg (show ¬ (str.startswith "ilte" "iadd" = true) by decide)] at h
    rw [if_neg (show ¬ (str.startswith "ilte" "isub" = true) by decide)] at h
    rw [if_neg (show ¬ (str.startswith "ilte" "imul" = true) by decide)] at h
    rw [if_neg (show ¬ (str.startswith "ilte" "idiv" = true) by decide)] at h
    rw [if_neg (show ¬ (decide ("ilte" = "ilt") = true) by decide)] at h
    rw [if_pos (show decide ("ilte" = "ilte") = true by decide)] at h
    obtain ⟨f, a, b, r, hf, hr⟩ := assemble_three_intop_instruction_ok _ _ _ _ _ h
    have hf1 : THREE_INTOP_ASM_FUNCTIONS "ilte" = some Program.ilte := rfl
    rw [hf1] at hf
    simp only [Option.some.injEq] at hf
    subst hf
    exact Or.inr ⟨.ilte a b r, hr, rfl, rfl⟩
  · rw [t10] at h ⊢
    rw [if_neg (show ¬ (str.startswith "igt" "istore" = true) by decide)] at h
    rw [if_neg (show ¬ (str.startswith "igt" "iadd" = true) by decide)] at h
    rw [if_neg (show ¬ (str.startswith "igt" "isub" = true) by decide)] at h
    rw [if_neg (show ¬ (str.startswith "igt" "imul" = true) by decide)] at h
    rw [if_neg (show ¬ (str.startswith "igt" "idiv" = true) by decide)] at h
    rw [if_neg (show ¬ (decide ("igt" = "ilt") = true) by decide)] at h
    rw [if_neg (show ¬ (decide ("igt" = "ilte") = true) by decide)] at h
    rw [if_neg (show ¬ (str.startswith "igt" "igte" = true) by decide)] at h
    rw [if_pos (show str.startswith "igt" "igt" = true by decide)] at h
    obtain ⟨f, a, b, r, hf, hr⟩ := assemble_three_intop_instruction_ok _ _ _ _ _ h
    have hf1 : THREE_INTOP_ASM_FUNCTIONS "igt" = some Program.igt := rfl
    rw [hf1] at hf
    simp only [Option.some.injEq] at hf
    subst hf
    exact Or.inr ⟨.igt a b r, hr, rfl, rfl⟩
  · rw [t11] at h ⊢
    rw [if_neg (show ¬ (str.startswith "igte" "istore" = true) by decide)] at h
    rw [if_neg (show ¬ (str.startswith "igte" "iadd" = true) by decide)] at h
    rw [if_neg (show ¬ (str.startswith "igte" "isub" = true) by decide)] at h
    rw [if_neg (show ¬ (str.startswith "igte" "imul" = true) by decide)] at h
    rw [if_neg (show ¬ (str.startswith "igte" "idiv" = true) by decide)] at h
    rw [if_neg (show ¬ (decide ("igte" = "ilt") = true) by decide)] at h
    rw [if_neg (show ¬ (decide ("igte" = "ilte") = true) by decide)] at h
    rw [if_pos (show str.startswith "igte" "igte" = true by decide)] at h
    obtain ⟨f, a, b, r, hf, hr⟩ := assemble_three_intop_instruction_ok _ _ _ _ _ h
    have hf1 : THREE_INTOP_ASM_FUNCTIONS "igte" = some Program.igte := rfl
    rw [hf1] at hf
    simp only [Option.some.injEq] at hf
    subst hf
    exact Or.inr ⟨.igte a b r, hr, rfl, rfl⟩
  · rw [t12] at h ⊢
    rw [if_neg (show ¬ (str.startswith "ieq" "istore" = true) by decide)] at h
    rw [if_neg (show ¬ (str.startswith "ieq" "iadd" = true) by decide)] at h
    rw [if_neg (show ¬ (str.startswith "ieq" "isub" = true) by decide)] at h
    rw [if_neg (show ¬ (str.startswith "ieq" "imul" = true) by decide)] at h
    rw [if_neg (show ¬ (str.startswith "ieq" "idiv" = true) by decide)] at h
    rw [if_neg (show ¬ (decide ("ieq" = "ilt") = true) by decide)] at h
    rw [if_neg (show ¬ (decide ("ieq" = "ilte") = true) by decide)] at h
    rw [if_neg (show ¬ (str.startswith "ieq" "igte" = true) by decide)] at h
    rw [if_neg (show ¬ (str.startswith "ieq" "igt" = true) by decide)] at h
    rw [if_pos (show str.startswith "ieq" "ieq" = true by decide)] at h
    obtain ⟨f, a, b, r, hf, hr⟩ := assemble_three_intop_instruction_ok _ _ _ _ _ h
    have hf1 : THREE_INTOP_ASM_FUNCTIONS "ieq" = some Program.ieq := rfl
    rw [hf1] at hf
    simp only [Option.some.injEq] at hf
    subst hf
    exact Or.inr ⟨.ieq a b r, hr, rfl, rfl⟩
  · rw [t13] at h ⊢
    rw [if_neg (show ¬ (str.startswith "bstore" "istore" = true) by decide)] at h
    rw [if_neg (show ¬ (str.startswith "bstore" "iadd" = true) by decide)] at h
    rw [if_neg (show ¬ (str.startswith "bstore" "isub" = true) by decide)] at h
    rw [if_neg (show ¬ (str.startswith "bstore" "imul" = true) by decide)] at h
    rw [if_neg (show ¬ (str.startswith "bstore" "idiv" = true) by decide)] at h
    rw [if_neg (show ¬ (decide ("bstore" = "ilt") = true) by decide)] at h
    rw [if_neg (show ¬ (decide ("bstore" = "ilte") = true) by decide)] at h
    rw [if_neg (show ¬ (str.startswith "bstore" "igte" = true) by decide)] at h
    rw [if_neg (show ¬ (str.startswith "bstore" "igt" = true) by decide)] at h
    rw [if_neg (show ¬ (str.startswith "bstore" "ieq" = true) by decide)] at h
    rw [if_neg (show ¬ (str.startswith "bstore" "iinc" = true) by decide)] at h
    rw [if_neg (show ¬ (str.startswith "bstore" "idec" = true) by decide)] at h
    rw [if_pos (show str.startswith "bstore" "bstore" = true by decide)] at h
    obtain ⟨b, _, h⟩ := Res.ofExcept_bind_ok _ _ _ _ _ h
    obtain ⟨a, _, h⟩ := Res.ofExcept_bind_ok _ _ _ _ _ h
    exact Or.inr ⟨.bstore a b, h, rfl, rfl⟩
  · rw [t14] at h ⊢
    rw [if_neg (show ¬ (str.startswith "not" "istore" = true) by decide)] at h
    rw [if_neg (show ¬ (str.startswith "not" "iadd" = true) by decide)] at h
    rw [if_neg (show ¬ (str.startswith "not" "isub" = true) by decide)] at h
    rw [if_neg (show ¬ (str.startswith "not" "imul" = true) by decide)] at h
    rw [if_neg (show ¬ (str.startswith "not" "idiv" = true) by decide)] at h
    rw [if_neg (show ¬ (decide ("not" = "ilt") = true) by decide)] at h
    rw [if_neg (show ¬ (decide ("not" = "ilte") = true) by decide)] at h
    rw [if_neg (show ¬ (str.startswith "not" "igte" = true) by decide)] at h
    rw [if_neg (show ¬ (str.startswith "not" "igt" = true) by decide)] at h
    rw [if_neg (show ¬ (str.startswith "not" "ieq" = true) by decide)] at h
    rw [if_neg (show ¬ (str.startswith "not" "iinc" = true) by decide)] at h
    rw [if_neg (show ¬ (str.startswith "not" "idec" = true) by decide)] at h
    rw [if_neg (show ¬ (str.startswith "not" "bstore" = true) by decide)] at h
    rw [if_pos (show str.startswith "not" "not" = true by decide)] at h
    obtain ⟨a, ha⟩ := assembleOneIntOp_ok _ _ _ _ _ h
    exact Or.inr ⟨.lognot a, ha, rfl, rfl⟩
  · rw [t15] at h ⊢
    rw [if_neg (show ¬ (str.startswith "and" "istore" = true) by decide)] at h
    rw [if_neg (show ¬ (str.startswith "and" "iadd" = true) by decide)] at h
    rw [if_neg (show ¬ (str.startswith "and" "isub" = true) by decide)] at h
    rw [if_neg (show ¬ (str.startswith "and" "imul" = true) by decide)] at h
    rw [if_neg (show ¬ (str.startswith "and" "idiv" = true) by decide)] at h
    rw [if_neg (show ¬ (decide ("and" = "ilt") = true) by decide)] at h
    rw [if_neg (show ¬ (decide ("and" = "ilte") = true) by decide)] at h
    rw [if_neg (show ¬ (str.startswith "and" "igte" = true) by decide)] at h
    rw [if_neg (show ¬ (str.startswith "and" "igt" = true) by decide)] at h
    rw [if_neg (show ¬ (str.startswith "and" "ieq" = true) by decide)] at h
    rw [if_neg (show ¬ (str.startswith "and" "iinc" = true) by decide)] at h
    rw [if_neg (show ¬ (str.startswith "and" "idec" = true) by decide)] at h
    rw [if_neg (show ¬ (str.startswith "and" "bstore" = true) by decide)] at h
    rw [if_neg (show ¬ (str.startswith "and" "not" = true) by decide)] at h
    rw [if_pos (show str.startswith "and" "and" = true by decide)] at h
    obtain ⟨f, a, b, r, hf, hr⟩ := assemble_three_intop_instruction_ok _ _ _ _ _ h
    have hf1 : THREE_INTOP_ASM_FUNCTIONS "and" = some Program.logand := rfl
    rw [hf1] at hf
    simp only [Option.some.injEq] at hf
    subst hf
    exact Or.inr ⟨.logand a b r, hr, rfl, rfl⟩
  · rw [t16] at h ⊢
    rw [if_neg (show ¬ (str.startswith "or" "istore" = true) by decide)] at h
    rw [if_neg (show ¬ (str.startswith "or" "iadd" = true) by decide)] at h
    rw [if_neg (show ¬ (str.startswith "or" "isub" = true) by decide)] at h
    rw [if_neg (show ¬ (str.startswith "or" "imul" = true) by decide)] at h
    rw [if_neg (show ¬ (str.startswith "or" "idiv" = true) by decide)] at h
    rw [if_neg (show ¬ (decide ("or" = "ilt") = true) by decide)] at h
    rw [if_neg (show ¬ (decide ("or" = "ilte") = true) by decide)] at h
    rw [if_neg (show ¬ (str.startswith "or" "igte" = true) by decide)] at h
    rw [if_neg (show ¬ (str.startswith "or" "igt" = true) by decide)] at h
    rw [if_neg (show ¬ (str.startswith "or" "ieq" = true) by decide)] at h
    rw [if_neg (show ¬ (str.startswith "or" "iinc" = true) by decide)] at h
    rw [if_neg (show ¬ (str.startswith "or" "idec" = true) by decide)] at h
    rw [if_neg (show ¬ (str.startswith "or" "bstore" = true) by decide)] at h
    rw [if_neg (show ¬ (str.startswith "or" "not" = true) by decide)] at h
    rw [if_neg (show ¬ (str.startswith "or" "and" = true) by decide)] at h
    rw [if_pos (show str.startswith "or" "or" = true by decide)] at h
    obtain ⟨f, a, b, r, hf, hr⟩ := assemble_three_intop_instruction_ok _ _ _ _ _ h
    have hf1 : THREE_INTOP_ASM_FUNCTIONS "or" = some Program.logor := rfl
    rw [hf1] at hf
    simp only [Option.some.injEq] at hf
    subst hf
    exact Or.inr ⟨.logor a b r, hr, rfl, rfl⟩
  · rw [t17] at h ⊢
    rw [if_neg (show ¬ (str.startswith "move" "istore" = true) by decide)] at h
    rw [if_neg (show ¬ (str.startswith "move" "iadd" = true) by decide)] at h
    rw [if_neg (show ¬ (str.startswith "move" "isub" = true) by decide)] at h
    rw [if_neg (show ¬ (str.startswith "move" "imul" = true) by decide)] at h
    rw [if_neg (show ¬ (str.startswith "move" "idiv" = true) by decide)] at h
    rw [if_neg (show ¬ (decide ("move" = "ilt") = true) by decide)] at h
    rw [if_neg (show ¬ (decide ("move" = "ilte") = true) by decide)] at h
    rw [if_neg (show ¬ (str.startswith "move" "igte" = true) by decide)] at h
    rw [if_neg (show ¬ (str.startswith "move" "igt" = true) by decide)] at h
    rw [if_neg (show ¬ (str.startswith "move" "ieq" = true) by decide)] at h
    rw [if_neg (show ¬ (str.startswith "move" "iinc" = true) by decide)] at h
    rw [if_neg (show ¬ (str.startswith "move" "idec" = true) by decide)] at h
    rw [if_neg (show ¬ (str.startswith "move" "bstore" = true) by decide)] at h
    rw [if_neg (show ¬ (str.startswith "move" "not" = true) by decide)] at h
    rw [if_neg (show ¬ (str.startswith "move" "and" = true) by decide)] at h
    rw [if_neg (show ¬ (str.startswith "move" "or" = true) by decide)] at h
    rw [if_pos (show str.startswith "move" "move" = true by decide)] at h
    obtain ⟨a, b, hab⟩ := assembleTwoIntOps_ok _ _ _ _ _ h
    exact Or.inr ⟨.move a b, hab, rfl, rfl⟩
  · rw [t18] at h ⊢
    rw [if_neg (show ¬ (str.startswith "copy" "istore" = true) by decide)] at h
    rw [if_neg (show ¬ (str.startswith "copy" "iadd" = true) by decide)] at h
    rw [if_neg (show ¬ (str.startswith "copy" "isub" = true) by decide)] at h
    rw [if_neg (show ¬ (str.startswith "copy" "imul" = true) by decide)] at h
    rw [if_neg (show ¬ (str.startswith "copy" "idiv" = true) by decide)] at h
    rw [if_neg (show ¬ (decide ("copy" = "ilt") = true) by decide)] at h
    rw [if_neg (show ¬ (decide ("copy" = "ilte") = true) by decide)] at h
    rw [if_neg (show ¬ (str.startswith "copy" "igte" = true) by decide)] at h
    rw [if_neg (show ¬ (str.startswith "copy" "igt" = true) by decide)] at h
    rw [if_neg (show ¬ (str.startswith "copy" "ieq" = true) by decide)] at h
    rw [if_neg (show ¬ (str.startswith "copy" "iinc" = true) by decide)] at h
    rw [if_neg (show ¬ (str.startswith "copy" "idec" = true) by decide)] at h
    rw [if_neg (show ¬ (str.startswith "copy" "bstore" = true) by decide)] at h
    rw [if_neg (show ¬ (str.startswith "copy" "not" = true) by decide)] at h
    rw [if_neg (show ¬ (str.startswith "copy" "and" = true) by decide)] at h
    rw [if_neg (show ¬ (str.startswith "copy" "or" = true) by decide)] at h
    rw [if_neg (show ¬ (str.startswith "copy" "move" = true) by decide)] at h
    rw [if_pos (show str.startswith "copy" "copy" = true by decide)] at h
    obtain ⟨a, b, hab⟩ := assembleTwoIntOps_ok _ _ _ _ _ h
    exact Or.inr ⟨.copy a b, hab, rfl, rfl⟩
  · rw [t19] at h ⊢
    rw [if_neg (show ¬ (str.startswith "ref" "istore" = true) by decide)] at h
    rw [if_neg (show ¬ (str.startswith "ref" "iadd" = true) by decide)] at h
    rw [if_neg (show ¬ (str.startswith "ref" "isub" = true) by decide)] at h
    rw [if_neg (show ¬ (str.startswith "ref" "imul" = true) by decide)] at h
    rw [if_neg (show ¬ (str.startswith "ref" "idiv" = true) by decide)] at h
    rw [if_neg (show ¬ (decide ("ref" = "ilt") = true) by decide)] at h
    rw [if_neg (show ¬ (decide ("ref" = "ilte") = true) by decide)] at h
    rw [if_neg (show ¬ (str.startswith "ref" "igte" = true) by decide)] at h
    rw [if_neg (show ¬ (str.startswith "ref" "igt" = true) by decide)] at h
    rw [if_neg (show ¬ (str.startswith "ref" "ieq" = true) by decide)] at h
    rw [if_neg (show ¬ (str.startswith "ref" "iinc" = true) by decide)] at h
    rw [if_neg (show ¬ (str.startswith "ref" "idec" = true) by decide)] at h
    rw [if_neg (show ¬ (str.startswith "ref" "bstore" = true) by decide)] at h
    rw [if_neg (show ¬ (str.startswith "ref" "not" = true) by decide)] at h
    rw [if_neg (show ¬ (str.startswith "ref" "and" = true) by decide)] at h
    rw [if_neg (show ¬ (str.startswith "ref" "or" = true) by decide)] at h
    rw [if_neg (show ¬ (str.startswith "ref" "move" = true) by decide)] at h
    rw [if_neg (show ¬ (str.startswith "ref" "copy" = true) by decide)] at h
    rw [if_pos (show str.startswith "ref" "ref" = true by decide)] at h
    obtain ⟨a, b, hab⟩ := assembleTwoIntOps_ok _ _ _ _ _ h
    exact Or.inr ⟨.ref a b, hab, rfl, rfl⟩
  · rw [t20] at h ⊢
    rw [if_neg (show ¬ (str.startswith "swap" "istore" = true) by decide)] at h
    rw [if_neg (show ¬ (str.startswith "swap" "iadd" = true) by decide)] at h
    rw [if_neg (show ¬ (str.startswith "swap" "isub" = true) by decide)] at h
    rw [if_neg (show ¬ (str.startswith "swap" "imul" = true) by decide)] at h
    rw [if_neg (show ¬ (str.startswith "swap" "idiv" = true) by decide)] at h
    rw [if_neg (show ¬ (decide ("swap" = "ilt") = true) by decide)] at h
    rw [if_neg (show ¬ (decide ("swap" = "ilte") = true) by decide)] at h
    rw [if_neg (show ¬ (str.startswith "swap" "igte" = true) by decide)] at h
    rw [if_neg (show ¬ (str.startswith "swap" "igt" = true) by decide)] at h
    rw [if_neg (show ¬ (str.startswith "swap" "ieq" = true) by decide)] at h
    rw [if_neg (show ¬ (str.startswith "swap" "iinc" = true) by decide)] at h
    rw [if_neg (show ¬ (str.startswith "swap" "idec" = true) by decide)] at h
    rw [if_neg (show ¬ (str.startswith "swap" "bstore" = true) by decide)] at h
    rw [if_neg (show ¬ (str.startswith "swap" "not" = true) by decide)] at h
    rw [if_neg (show ¬ (str.startswith "swap" "and" = true) by decide)] at h
    rw [if_neg (show ¬ (str.startswith "swap" "or" = true) by decide)] at h
    rw [if_neg (show ¬ (str.startswith "swap" "move" = true) by decide)] at h
    rw [if_neg (show ¬ (str.startswith "swap" "copy" = true) by decide)] at h
    rw [if_neg (show ¬ (str.startswith "swap" "ref" = true) by decide)] at h
    rw [if_pos (show str.startswith "swap" "swap" = true by decide)] at h
    obtain ⟨a, b, hab⟩ := assembleTwoIntOps_ok _ _ _ _ _ h
    exact Or.inr ⟨.swap a b, hab, rfl, rfl⟩
  · rw [t21] at h ⊢
    rw [if_neg (show ¬ (str.startswith "delete" "istore" = true) by decide)] at h
    rw [if_neg (show ¬ (str.startswith "delete" "iadd" = true) by decide)] at h
    rw [if_neg (show ¬ (str.startswith "delete" "isub" = true) by decide)] at h
    rw [if_neg (show ¬ (str.startswith "delete" "imul" = true) by decide)] at h
    rw [if_neg (show ¬ (str.startswith "delete" "idiv" = true) by decide)] at h
    rw [if_neg (show ¬ (decide ("delete" = "ilt") = true) by decide)] at h
    rw [if_neg (show ¬ (decide ("delete" = "ilte") = true) by decide)] at h
    rw [if_neg (show ¬ (str.startswith "delete" "igte" = true) by decide)] at h
    rw [if_neg (show ¬ (str.startswith "delete" "igt" = true) by decide)] at h
    rw [if_neg (show ¬ (str.startswith "delete" "ieq" = true) by decide)] at h
    rw [if_neg (show ¬ (str.startswith "delete" "iinc" = true) by decide)] at h
    rw [if_neg (show ¬ (str.startswith "delete" "idec" = true) by decide)] at h
    rw [if_neg (show ¬ (str.startswith "delete" "bstore" = true) by decide)] at h
    rw [if_neg (show ¬ (str.startswith "delete" "not" = true) by decide)] at h
    rw [if_neg (show ¬ (str.startswith "delete" "and" = true) by decide)] at h
    rw [if_neg (show ¬ (str.startswith "delete" "or" = true) by decide)] at h
    rw [if_neg (show ¬ (str.startswith "delete" "move" = true) by decide)] at h
    rw [if_neg (show ¬ (str.startswith "delete" "copy" = true) by decide)] at h
    rw [if_neg (show ¬ (str.startswith "delete" "ref" = true) by decide)] at h
    rw [if_neg (show ¬ (str.startswith "delete" "swap" = true) by decide)] at h
    rw [if_neg (show ¬ (str.startswith "delete" "ret" = true) by decide)] at h
    rw [if_neg (show ¬ (str.startswith "delete" "print" = true) by decide)] at h
    rw [if_neg (show ¬ (str.startswith "delete" "echo" = true) by decide)] at h
    rw [if_neg (show ¬ (str.startswith "delete" "branch" = true) by decide)] at h
    rw [if_neg (show ¬ (str.startswith "delete" "jump" = true) by decide)] at h
    rw [if_neg (show ¬ (str.startswith "delete" "pass" = true) by decide)] at h
    rw [if_neg (show ¬ (str.startswith "delete" "halt" = true) by decide)] at h
    simp only [Res.ok.injEq, true_and] at h
    exact Or.inl ⟨rfl, rfl, h.symm⟩
  · rw [t22] at h ⊢
    rw [if_neg (show ¬ (str.startswith "print" "istore" = true) by decide)] at h
    rw [if_neg (show ¬ (str.startswith "print" "iadd" = true) by decide)] at h
    rw [if_neg (show ¬ (str.startswith "print" "isub" = true) by decide)] at h
    rw [if_neg (show ¬ (str.startswith "print" "imul" = true) by decide)] at h
    rw [if_neg (show ¬ (str.startswith "print" "idiv" = true) by decide)] at h
    rw [if_neg (show ¬ (decide ("print" = "ilt") = true) by decide)] at h
    rw [if_neg (show ¬ (decide ("print" = "ilte") = true) by decide)] at h
    rw [if_neg (show ¬ (str.startswith "print" "igte" = true) by decide)] at h
    rw [if_neg (show ¬ (str.startswith "print" "igt" = true) by decide)] at h
    rw [if_neg (show ¬ (str.startswith "print" "ieq" = true) by decide)] at h
    rw [if_neg (show ¬ (str.startswith "print" "iinc" = true) by decide)] at h
    rw [if_neg (show ¬ (str.startswith "print" "idec" = true) by decide)] at h
    rw [if_neg (show ¬ (str.startswith "print" "bstore" = true) by decide)] at h
    rw [if_neg (show ¬ (str.startswith "print" "not" = true) by decide)] at h
    rw [if_neg (show ¬ (str.startswith "print" "and" = true) by decide)] at h
    rw [if_neg (show ¬ (str.startswith "print" "or" = true) by decide)] at h
    rw [if_neg (show ¬ (str.startswith "print" "move" = true) by decide)] at h
    rw [if_neg (show ¬ (str.startswith "print" "copy" = true) by decide)] at h
    rw [if_neg (show ¬ (str.startswith "print" "ref" = true) by decide)] at h
    rw [if_neg (show ¬ (str.startswith "print" "swap" = true) by decide)] at h
    rw [if_neg (show ¬ (str.startswith "print" "ret" = true) by decide)] at h
    rw [if_pos (show str.startswith "print" "print" = true by decide)] at h
    obtain ⟨a, ha⟩ := assembleOneIntOp_ok _ _ _ _ _ h
    exact Or.inr ⟨.print a, ha, rfl, rfl⟩
  · rw [t23] at h ⊢
    rw [if_neg (show ¬ (str.startswith "echo" "istore" = true) by decide)] at h
    rw [if_neg (show ¬ (str.startswith "echo" "iadd" = true) by decide)] at h
    rw [if_neg (show ¬ (str.startswith "echo" "isub" = true) by decide)] at h
    rw [if_neg (show ¬ (str.startswith "echo" "imul" = true) by decide)] at h
    rw [if_neg (show ¬ (str.startswith "echo" "idiv" = true) by decide)] at h
    rw [if_neg (show ¬ (decide ("echo" = "ilt") = true) by decide)] at h
    rw [if_neg (show ¬ (decide ("echo" = "ilte") = true) by decide)] at h
    rw [if_neg (show ¬ (str.startswith "echo" "igte" = true) by decide)] at h
    rw [if_neg (show ¬ (str.startswith "echo" "igt" = true) by decide)] at h
    rw [if_neg (show ¬ (str.startswith "echo" "ieq" = true) by decide)] at h
    rw [if_neg (show ¬ (str.startswith "echo" "iinc" = true) by decide)] at h
    rw [if_neg (show ¬ (str.startswith "echo" "idec" = true) by decide)] at h
    rw [if_neg (show ¬ (str.startswith "echo" "bstore" = true) by decide)] at h
    rw [if_neg (show ¬ (str.startswith "echo" "not" = true) by decide)] at h
    rw [if_neg (show ¬ (str.startswith "echo" "and" = true) by decide)] at h
    rw [if_neg (show ¬ (str.startswith "echo" "or" = true) by decide)] at h
    rw [if_neg (show ¬ (str.startswith "echo" "move" = true) by decide)] at h
    rw [if_neg (show ¬ (str.startswith "echo" "copy" = true) by decide)] at h
    rw [if_neg (show ¬ (str.startswith "echo" "ref" = true) by decide)] at h
    rw [if_neg (show ¬ (str.startswith "echo" "swap" = true) by decide)] at h
    rw [if_neg (show ¬ (str.startswith "echo" "ret" = true) by decide)] at h
    rw [if_neg (show ¬ (str.startswith "echo" "print" = true) by decide)] at h
    rw [if_pos (show str.startswith "echo" "echo" = true by decide)] at h
    obtain ⟨a, ha⟩ := assembleOneIntOp_ok _ _ _ _ _ h
    exact Or.inr ⟨.echo a, ha, rfl, rfl⟩
  · rw [t24] at h ⊢
    rw [if_neg (show ¬ (str.startswith "jump" "istore" = true) by decide)] at h
    rw [if_neg (show ¬ (str.startswith "jump" "iadd" = true) by decide)] at h
    rw [if_neg (show ¬ (str.startswith "jump" "isub" = true) by decide)] at h
    rw [if_neg (show ¬ (str.startswith "jump" "imul" = true) by decide)] at h
    rw [if_neg (show ¬ (str.startswith "jump" "idiv" = true) by decide)] at h
    rw [if_neg (show ¬ (decide ("jump" = "ilt") = true) by decide)] at h
    rw [if_neg (show ¬ (decide ("jump" = "ilte") = true) by decide)] at h
    rw [if_neg (show ¬ (str.startswith "jump" "igte" = true) by decide)] at h
    rw [if_neg (show ¬ (str.startswith "jump" "igt" = true) by decide)] at h
    rw [if_neg (show ¬ (str.startswith "jump" "ieq" = true) by decide)] at h
    rw [if_neg (show ¬ (str.startswith "jump" "iinc" = true) by decide)] at h
    rw [if_neg (show ¬ (str.startswith "jump" "idec" = true) by decide)] at h
    rw [if_neg (show ¬ (str.startswith "jump" "bstore" = true) by decide)] at h
    rw [if_neg (show ¬ (str.startswith "jump" "not" = true) by decide)] at h
    rw [if_neg (show ¬ (str.startswith "jump" "and" = true) by decide)] at h
    rw [if_neg (show ¬ (str.startswith "jump" "or" = true) by decide)] at h
    rw [if_neg (show ¬ (str.startswith "jump" "move" = true) by decide)] at h
    rw [if_neg (show ¬ (str.startswith "jump" "copy" = true) by decide)] at h
    rw [if_neg (show ¬ (str.startswith "jump" "ref" = true) by decide)] at h
    rw [if_neg (show ¬ (str.startswith "jump" "swap" = true) by decide)] at h
    rw [if_neg (show ¬ (str.startswith "jump" "ret" = true) by decide)] at h
    rw [if_neg (show ¬ (str.startswith "jump" "print" = true) by decide)] at h
    rw [if_neg (show ¬ (str.startswith "jump" "echo" = true) by decide)] at h
    rw [if_neg (show ¬ (str.startswith "jump" "branch" = true) by decide)] at h
    rw [if_pos (show str.startswith "jump" "jump" = true by decide)] at h
    obtain ⟨a, _, h2⟩ := Res.ofExcept_bind_ok _ _ _ _ _ h
    exact Or.inr ⟨.jump a, h2, rfl, rfl⟩
  · rw [t25] at h ⊢
    rw [if_neg (show ¬ (str.startswith "branch" "istore" = true) by decide)] at h
    rw [if_neg (show ¬ (str.startswith "branch" "iadd" = true) by decide)] at h
    rw [if_neg (show ¬ (str.startswith "branch" "isub" = true) by decide)] at h
    rw [if_neg (show ¬ (str.startswith "branch" "imul" = true) by decide)] at h
    rw [if_neg (show ¬ (str.startswith "branch" "idiv" = true) by decide)] at h
    rw [if_neg (show ¬ (decide ("branch" = "ilt") = true) by decide)] at h
    rw [if_neg (show ¬ (decide ("branch" = "ilte") = true) by decide)] at h
    rw [if_neg (show ¬ (str.startswith "branch" "igte" = true) by decide)] at h
    rw [if_neg (show ¬ (str.startswith "branch" "igt" = true) by decide)] at h
    rw [if_neg (show ¬ (str.startswith "branch" "ieq" = true) by decide)] at h
    rw [if_neg (show ¬ (str.startswith "branch" "iinc" = true) by decide)] at h
    rw [if_neg (show ¬ (str.startswith "branch" "idec" = true) by decide)] at h
    rw [if_neg (show ¬ (str.startswith "branch" "bstore" = true) by decide)] at h
    rw [if_neg (show ¬ (str.startswith "branch" "not" = true) by decide)] at h
    rw [if_neg (show ¬ (str.startswith "branch" "and" = true) by decide)] at h
    rw [if_neg (show ¬ (str.startswith "branch" "or" = true) by decide)] at h
    rw [if_neg (show ¬ (str.startswith "branch" "move" = true) by decide)] at h
    rw [if_neg (show ¬ (str.startswith "branch" "copy" = true) by decide)] at h
    rw [if_neg (show ¬ (str.startswith "branch" "ref" = true) by decide)] at h
    rw [if_neg (show ¬ (str.startswith "branch" "swap" = true) by decide)] at h
    rw [if_neg (show ¬ (str.startswith "branch" "ret" = true) by decide)] at h
    rw [if_neg (show ¬ (str.startswith "branch" "print" = true) by decide)] at h
    rw [if_neg (show ¬ (str.startswith "branch" "echo" = true) by decide)] at h
    rw [if_pos (show str.startswith "branch" "branch" = true by decide)] at h
    obtain ⟨t, _, h2⟩ := Res.ofExcept_bind_ok _ _ _ _ _ h
    obtain ⟨f, p2, hf, h3⟩ := Res.bind_eq_ok _ _ _ _ h2
    have hp2 : p2 = program := by
      split at hf
      · exact Res.ofExcept_state _ _ _ _ hf
      · simp only [Res.ok.injEq] at hf
        exact hf.2.symm
    rw [hp2] at h3
    obtain ⟨c, _, h4⟩ := Res.ofExcept_bind_ok _ _ _ _ _ h3
    exact Or.inr ⟨.branch c t f, h4, rfl, rfl⟩
  · rw [t26] at h ⊢
    rw [if_neg (show ¬ (str.startswith "ret" "istore" = true) by decide)] at h
    rw [if_neg (show ¬ (str.startswith "ret" "iadd" = true) by decide)] at h
    rw [if_neg (show ¬ (str.startswith "ret" "isub" = true) by decide)] at h
    rw [if_neg (show ¬ (str.startswith "ret" "imul" = true) by decide)] at h
    rw [if_neg (show ¬ (str.startswith "ret" "idiv" = true) by decide)] at h
    rw [if_neg (show ¬ (decide ("ret" = "ilt") = true) by decide)] at h
    rw [if_neg (show ¬ (decide ("ret" = "ilte") = true) by decide)] at h
    rw [if_neg (show ¬ (str.startswith "ret" "igte" = true) by decide)] at h
    rw [if_neg (show ¬ (str.startswith "ret" "igt" = true) by decide)] at h
    rw [if_neg (show ¬ (str.startswith "ret" "ieq" = true) by decide)] at h
    rw [if_neg (show ¬ (str.startswith "ret" "iinc" = true) by decide)] at h
    rw [if_neg (show ¬ (str.startswith "ret" "idec" = true) by decide)] at h
    rw [if_neg (show ¬ (str.startswith "ret" "bstore" = true) by decide)] at h
    rw [if_neg (show ¬ (str.startswith "ret" "not" = true) by decide)] at h
    rw [if_neg (show ¬ (str.startswith "ret" "and" = true) by decide)] at h
    rw [if_neg (show ¬ (str.startswith "ret" "or" = true) by decide)] at h
    rw [if_neg (show ¬ (str.startswith "ret" "move" = true) by decide)] at h
    rw [if_neg (show ¬ (str.startswith "ret" "copy" = true) by decide)] at h
    rw [if_neg (show ¬ (str.startswith "ret" "ref" = true) by decide)] at h
    rw [if_neg (show ¬ (str.startswith "ret" "swap" = true) by decide)] at h
    rw [if_pos (show str.startswith "ret" "ret" = true by decide)] at h
    obtain ⟨a, ha⟩ := assembleOneIntOp_ok _ _ _ _ _ h
    exact Or.inr ⟨.ret a, ha, rfl, rfl⟩
  · rw [t27] at h ⊢
    rw [if_neg (show ¬ (str.startswith "halt" "istore" = true) by decide)] at h
    rw [if_neg (show ¬ (str.startswith "halt" "iadd" = true) by decide)] at h
    rw [if_neg (show ¬ (str.startswith "halt" "isub" = true) by decide)] at h
    rw [if_neg (show ¬ (str.startswith "halt" "imul" = true) by decide)] at h
    rw [if_neg (show ¬ (str.startswith "halt" "idiv" = true) by decide)] at h
    rw [if_neg (show ¬ (decide ("halt" = "ilt") = true) by decide)] at h
    rw [if_neg (show ¬ (decide ("halt" = "ilte") = true) by decide)] at h
    rw [if_neg (show ¬ (str.startswith "halt" "igte" = true) by decide)] at h
    rw [if_neg (show ¬ (str.startswith "halt" "igt" = true) by decide)] at h
    rw [if_neg (show ¬ (str.startswith "halt" "ieq" = true) by decide)] at h
    rw [if_neg (show ¬ (str.startswith "halt" "iinc" = true) by decide)] at h
    rw [if_neg (show ¬ (str.startswith "halt" "idec" = true) by decide)] at h
    rw [if_neg (show ¬ (str.startswith "halt" "bstore" = true) by decide)] at h
    rw [if_neg (show ¬ (str.startswith "halt" "not" = true) by decide)] at h
    rw [if_neg (show ¬ (str.startswith "halt" "and" = true) by decide)] at h
    rw [if_neg (show ¬ (str.startswith "halt" "or" = true) by decide)] at h
    rw [if_neg (show ¬ (str.startswith "halt" "move" = true) by decide)] at h
    rw [if_neg (show ¬ (str.startswith "halt" "copy" = true) by decide)] at h
    rw [if_neg (show ¬ (str.startswith "halt" "ref" = true) by decide)] at h
    rw [if_neg (show ¬ (str.startswith "halt" "swap" = true) by decide)] at h
    rw [if_neg (show ¬ (str.startswith "halt" "ret" = true) by decide)] at h
    rw [if_neg (show ¬ (str.startswith "halt" "print" = true) by decide)] at h
    rw [if_neg (show ¬ (str.startswith "halt" "echo" = true) by decide)] at h
    rw [if_neg (show ¬ (str.startswith "halt" "branch" = true) by decide)] at h
    rw [if_neg (show ¬ (str.startswith "halt" "jump" = true) by decide)] at h
    rw [if_neg (show ¬ (str.startswith "halt" "pass" = true) by decide)] at h
    rw [if_pos (show str.startswith "halt" "halt" = true by decide)] at h
    exact Or.inr ⟨.halt, h, rfl, rfl⟩
  · rw [t28] at h ⊢
    rw [if_neg (show ¬ (str.startswith "pass" "istore" = true) by decide)] at h
    rw [if_neg (show ¬ (str.startswith "pass" "iadd" = true) by decide)] at h
    rw [if_neg (show ¬ (str.startswith "pass" "isub" = true) by decide)] at h
    rw [if_neg (show ¬ (str.startswith "pass" "imul" = true) by decide)] at h
    rw [if_neg (show ¬ (str.startswith "pass" "idiv" = true) by decide)] at h
    rw [if_neg (show ¬ (decide ("pass" = "ilt") = true) by decide)] at h
    rw [if_neg (show ¬ (decide ("pass" = "ilte") = true) by decide)] at h
    rw [if_neg (show ¬ (str.startswith "pass" "igte" = true) by decide)] at h
    rw [if_neg (show ¬ (str.startswith "pass" "igt" = true) by decide)] at h
    rw [if_neg (show ¬ (str.startswith "pass" "ieq" = true) by decide)] at h
    rw [if_neg (show ¬ (str.startswith "pass" "iinc" = true) by decide)] at h
    rw [if_neg (show ¬ (str.startswith "pass" "idec" = true) by decide)] at h
    rw [if_neg (show ¬ (str.startswith "pass" "bstore" = true) by decide)] at h
    rw [if_neg (show ¬ (str.startswith "pass" "not" = true) by decide)] at h
    rw [if_neg (show ¬ (str.startswith "pass" "and" = true) by decide)] at h
    rw [if_neg (show ¬ (str.startswith "pass" "or" = true) by decide)] at h
    rw [if_neg (show ¬ (str.startswith "pass" "move" = true) by decide)] at h
    rw [if_neg (show ¬ (str.startswith "pass" "copy" = true) by decide)] at h
    rw [if_neg (show ¬ (str.startswith "pass" "ref" = true) by decide)] at h
    rw [if_neg (show ¬ (str.startswith "pass" "swap" = true) by decide)] at h
    rw [if_neg (show ¬ (str.startswith "pass" "ret" = true) by decide)] at h
    rw [if_neg (show ¬ (str.startswith "pass" "print" = true) by decide)] at h
    rw [if_neg (show ¬ (str.startswith "pass" "echo" = true) by decide)] at h
    rw [if_neg (show ¬ (str.startswith "pass" "branch" = true) by decide)] at h
    rw [if_neg (show ¬ (str.startswith "pass" "jump" = true) by decide)] at h
    rw [if_pos (show str.startswith "pass" "pass" = true by decide)] at h
    exact Or.inr ⟨.pass, h, rfl, rfl⟩

/-! ## Encoder calls that return -/

theorem Mem.store_ok (m m1 : List Nat) (pos : Nat) (bs : List Nat)
    (h : Mem.store m pos bs = .ok () m1) : pos + bs.length ≤ m.length ∧ m1.length = m.length := by
  unfold Mem.store Mem.write at h
  by_cases hfit : pos + bs.length ≤ m.length
  · refine ⟨hfit, ?_⟩
    simp only [hfit, if_true, Res.ok.injEq, true_and] at h
    rw [← h]
    simp
    omega
  · simp [hfit] at h

theorem insertIntegerOperand_ok (pos a : Nat) (op : int_op) (m m1 : List Nat)
    (h : insertIntegerOperand pos op m = .ok a m1) :
    pos + 5 ≤ m.length ∧ m1.length = m.length ∧ a = pos + 5 := by
  unfold insertIntegerOperand at h
  obtain ⟨_, m2, h1, h⟩ := Res.bind_eq_ok _ _ _ _ h
  obtain ⟨_, m3, h2, h⟩ := Res.bind_eq_ok _ _ _ _ h
  obtain ⟨_, e1⟩ := Mem.store_ok _ _ _ _ h1
  obtain ⟨f2, e2⟩ := Mem.store_ok _ _ _ _ h2
  simp only [Res.ok.injEq] at h
  simp only [intBytes_length] at f2
  refine ⟨by omega, by rw [← h.2, e2, e1], h.1.symm⟩

theorem insertOneIntegerOp_ok (pos a : Nat) (o : OPCODE) (x : int_op) (m m1 : List Nat)
    (h : insertOneIntegerOp pos o x m = .ok a m1) : pos + 6 ≤ m.length := by
  unfold insertOneIntegerOp at h
  obtain ⟨_, m2, h1, h⟩ := Res.bind_eq_ok _ _ _ _ h
  obtain ⟨_, e1⟩ := Mem.store_ok _ _ _ _ h1
  obtain ⟨f2, _, _⟩ := insertIntegerOperand_ok _ _ _ _ _ h
  omega

theorem insertTwoIntegerOpsInstruction_ok (pos a : Nat) (o : OPCODE) (x y : int_op)
    (m m1 : List Nat) (h : insertTwoIntegerOpsInstruction pos o x y m = .ok a m1) :
    pos + 11 ≤ m.length := by
  unfold insertTwoIntegerOpsInstruction at h
  obtain ⟨_, m2, h1, h⟩ := Res.bind_eq_ok _ _ _ _ h
  obtain ⟨a2, m3, h2, h⟩ := Res.bind_eq_ok _ _ _ _ h
  obtain ⟨_, e1⟩ := Mem.store_ok _ _ _ _ h1
  obtain ⟨_, e2, ea⟩ := insertIntegerOperand_ok _ _ _ _ _ h2
  obtain ⟨f3, _, _⟩ := insertIntegerOperand_ok _ _ _ _ _ h
  omega

theorem insertThreeIntegerOpsInstruction_ok (pos a : Nat) (o : OPCODE) (x y z : int_op)
    (m m1 : List Nat) (h : insertThreeIntegerOpsInstruction pos o x y z m = .ok a m1) :
    pos + 16 ≤ m.length := by
  unfold insertThreeIntegerOpsInstruction at h
  obtain ⟨_, m2, h1, h⟩ := Res.bind_eq_ok _ _ _ _ h
  obtain ⟨a2, m3, h2, h⟩ := Res.bind_eq_ok _ _ _ _ h
  obtain ⟨a3, m4, h3, h⟩ := Res.bind_eq_ok _ _ _ _ h
  obtain ⟨_, e1⟩ := Mem.store_ok _ _ _ _ h1
  obtain ⟨_, e2, ea⟩ := insertIntegerOperand_ok _ _ _ _ _ h2
  obtain ⟨_, e3, eb⟩ := insertIntegerOperand_ok _ _ _ _ _ h3
  obtain ⟨f3, _, _⟩ := insertIntegerOperand_ok _ _ _ _ _ h
  omega

theorem Program.assign_eq_ok (p p1 : Program) (r : Res (List Nat) Nat)
    (h : p.assign r = .ok () p1) : ∃ a m, r = .ok a m := by
  cases r with
  | ok a m => exact ⟨a, m, rfl⟩
  | thrown msg m => simp [Program.assign] at h
  | undefined => simp [Program.assign] at h

/-- An encoder method that returns had room for its instruction. -/
theorem Call.run_fits (c : Call) (p p1 : Program) (h : c.run p = .ok () p1) :
    p.addr_ptr + c.size ≤ p.program.length := by
  cases c with
  | bstore x b =>
    obtain ⟨a, m, hr⟩ := Program.assign_eq_ok _ _ _ h
    obtain ⟨_, m2, h1, hr⟩ := Res.bind_eq_ok _ _ _ _ hr
    obtain ⟨a2, m3, h2, hr⟩ := Res.bind_eq_ok _ _ _ _ hr
    obtain ⟨_, m4, h3, hr⟩ := Res.bind_eq_ok _ _ _ _ hr
    obtain ⟨_, m5, h4, hr⟩ := Res.bind_eq_ok _ _ _ _ hr
    obtain ⟨_, e1⟩ := Mem.store_ok _ _ _ _ h1
    obtain ⟨_, e2, ea⟩ := insertIntegerOperand_ok _ _ _ _ _ h2
    obtain ⟨_, e3⟩ := Mem.store_ok _ _ _ _ h3
    obtain ⟨f4, _⟩ := Mem.store_ok _ _ _ _ h4
    simp only [List.length_singleton] at f4
    show p.addr_ptr + 8 ≤ p.program.length
    omega
  | jump k =>
    obtain ⟨a, m, hr⟩ := Program.assign_eq_ok _ _ _ h
    obtain ⟨_, m2, h1, hr⟩ := Res.bind_eq_ok _ _ _ _ hr
    obtain ⟨_, m3, h2, hr⟩ := Res.bind_eq_ok _ _ _ _ hr
    obtain ⟨_, e1⟩ := Mem.store_ok _ _ _ _ h1
    obtain ⟨f2, _⟩ := Mem.store_ok _ _ _ _ h2
    simp only [intBytes_length] at f2
    show p.addr_ptr + 5 ≤ p.program.length
    omega
  | branch x t f =>
    obtain ⟨a, m, hr⟩ := Program.assign_eq_ok _ _ _ h
    obtain ⟨_, m2, h1, hr⟩ := Res.bind_eq_ok _ _ _ _ hr
    obtain ⟨a2, m3, h2, hr⟩ := Res.bind_eq_ok _ _ _ _ hr
    obtain ⟨_, m4, h3, hr⟩ := Res.bind_eq_ok _ _ _ _ hr
    obtain ⟨_, m5, h4, hr⟩ := Res.bind_eq_ok _ _ _ _ hr
    obtain ⟨_, e1⟩ := Mem.store_ok _ _ _ _ h1
    obtain ⟨_, e2, ea⟩ := insertIntegerOperand_ok _ _ _ _ _ h2
    obtain ⟨_, e3⟩ := Mem.store_ok _ _ _ _ h3
    obtain ⟨f4, _⟩ := Mem.store_ok _ _ _ _ h4
    simp only [intBytes_length] at f4
    show p.addr_ptr + 14 ≤ p.program.length
    omega
  | pass =>
    obtain ⟨a, m, hr⟩ := Program.assign_eq_ok _ _ _ h
    obtain ⟨_, m2, h1, hr⟩ := Res.bind_eq_ok _ _ _ _ hr
    obtain ⟨f1, _⟩ := Mem.store_ok _ _ _ _ h1
    exact f1
  | halt =>
    obtain ⟨a, m, hr⟩ := Program.assign_eq_ok _ _ _ h
    obtain ⟨_, m2, h1, hr⟩ := Res.bind_eq_ok _ _ _ _ hr
    obtain ⟨f1, _⟩ := Mem.store_ok _ _ _ _ h1
    exact f1
  | istore x y => exact (Program.assign_eq_ok _ _ _ h).elim fun a hm => hm.elim fun m hr =>
      insertTwoIntegerOpsInstruction_ok _ _ _ _ _ _ _ hr
  | move x y => exact (Program.assign_eq_ok _ _ _ h).elim fun a hm => hm.elim fun m hr =>
      insertTwoIntegerOpsInstruction_ok _ _ _ _ _ _ _ hr
  | copy x y => exact (Program.assign_eq_ok _ _ _ h).elim fun a hm => hm.elim fun m hr =>
      insertTwoIntegerOpsInstruction_ok _ _ _ _ _ _ _ hr
  | ref x y => exact (Program.assign_eq_ok _ _ _ h).elim fun a hm => hm.elim fun m hr =>
      insertTwoIntegerOpsInstruction_ok _ _ _ _ _ _ _ hr
  | swap x y => exact (Program.assign_eq_ok _ _ _ h).elim fun a hm => hm.elim fun m hr =>
      insertTwoIntegerOpsInstruction_ok _ _ _ _ _ _ _ hr
  | iinc x => exact (Program.assign_eq_ok _ _ _ h).elim fun a hm => hm.elim fun m hr =>
      insertOneIntegerOp_ok _ _ _ _ _ _ hr
  | idec x => exact (Program.assign_eq_ok _ _ _ h).elim fun a hm => hm.elim fun m hr =>
      insertOneIntegerOp_ok _ _ _ _ _ _ hr
  | lognot x => exact (Program.assign_eq_ok _ _ _ h).elim fun a hm => hm.elim fun m hr =>
      insertOneIntegerOp_ok _ _ _ _ _ _ hr
  | print x => exact (Program.assign_eq_ok _ _ _ h).elim fun a hm => hm.elim fun m hr =>
      insertOneIntegerOp_ok _ _ _ _ _ _ hr
  | echo x => exact (Program.assign_eq_ok _ _ _ h).elim fun a hm => hm.elim fun m hr =>
      insertOneIntegerOp_ok _ _ _ _ _ _ hr
  | ret x => exact (Program.assign_eq_ok _ _ _ h).elim fun a hm => hm.elim fun m hr =>
      insertOneIntegerOp_ok _ _ _ _ _ _ hr
  | _ => exact (Program.assign_eq_ok _ _ _ h).elim fun a hm => hm.elim fun m hr =>
      insertThreeIntegerOpsInstruction_ok _ _ _ _ _ _ _ _ hr

/-! ## A short-form branch as the last instruction, and closing evaluations -/

theorem runCalls_fits : ∀ (cs : List Call) (p p1 : Program),
    p.addr_ptr ≤ p.program.length → runCalls cs p = .ok () p1 →
    p.addr_ptr + encodedSize cs ≤ p.program.length := by
  intro cs
  induction cs with
  | nil => intro p p1 h0 h; simpa using h0
  | cons c cs ih =>
    intro p p1 _ h
    unfold runCalls at h
    obtain ⟨_, p2, h1, h2⟩ := Res.bind_eq_ok _ _ _ _ h
    have hfit := Call.run_fits c p p2 h1
    rw [Call.run_eq c p hfit] at h1
    simp only [Res.ok.injEq, true_and] at h1
    have hlen := splice_length p.program p.addr_ptr c.bytes (by rw [Call.size_eq_length]; exact hfit)
    have := ih p2 p1 (by rw [← h1]; simp only []; rw [hlen]; exact hfit) h2
    rw [← h1] at this
    simp only [] at this
    rw [hlen] at this
    rw [encodedSize_cons]
    omega

theorem runCalls_append : ∀ (as bs : List Call) (p : Program),
    runCalls (as ++ bs) p = (runCalls as p).bind fun _ p1 => runCalls bs p1 := by
  intro as
  induction as with
  | nil => intro bs p; rfl
  | cons a as ih =>
    intro bs p
    simp only [List.cons_append, runCalls, Res.bind_assoc]
    congr 1
    funext _ p1
    exact ih bs p1

theorem encode_replicate_pass (f : Nat) :
    encode (List.replicate f Call.pass) = List.replicate f OPCODE.PASS.toByte := by
  induction f with
  | zero => rfl
  | succ f ih => simp [List.replicate_succ, ih, Call.bytes]

theorem encodedSize_replicate_pass (f : Nat) : encodedSize (List.replicate f Call.pass) = f := by
  induction f with
  | zero => rfl
  | succ f ih =>
    rw [List.replicate_succ, encodedSize_cons, ih]
    have : Call.pass.size = 1 := rfl
    omega

theorem branchPositions_append_pass : ∀ (cs : List Call) (f base : Nat),
    branchPositions (cs ++ List.replicate f Call.pass) base = branchPositions cs base := by
  intro cs
  induction cs with
  | nil =>
    intro f
    induction f with
    | zero => intro base; rfl
    | succ f ih =>
      intro base
      simp only [List.nil_append, List.replicate_succ, branchPositions, Call.isBranch,
        Bool.false_eq_true, if_false, List.nil_append] at ih ⊢
      exact ih _
  | cons c cs ih =>
    intro f base
    simp only [List.cons_append, branchPositions]
    show _ ++ branchPositions (cs ++ List.replicate f Call.pass) (base + c.size) = _
    rw [ih]

/-- The program a sequence of encoder calls leaves in a fresh buffer: the
encodings, then the `PASS` bytes of the constructor. -/
theorem runCalls_new (cs : List Call) (n : Nat) (p : Program)
    (h : runCalls cs (Program.new n) = .ok () p) :
    encodedSize cs ≤ n ∧
    p.program = encode (cs ++ List.replicate (n - encodedSize cs) Call.pass) ∧
    p.bytes = encodedSize (cs ++ List.replicate (n - encodedSize cs) Call.pass) ∧
    p.branches = branchPositions (cs ++ List.replicate (n - encodedSize cs) Call.pass) 0 := by
  have hfit := runCalls_fits cs _ _ (by simp [Program.new]) h
  simp only [Program.new, List.length_replicate, Nat.zero_add] at hfit
  rw [runCalls_eq cs _ (by simpa [Program.new] using hfit)] at h
  simp only [Res.ok.injEq, true_and] at h
  subst h
  refine ⟨hfit, ?_, ?_, ?_⟩
  · simp only [Program.new, splice, List.take_zero, List.nil_append, Nat.zero_add,
      encode_length, List.drop_replicate, encode_append, encode_replicate_pass]
  · simp only [Program.new, encodedSize_append, encodedSize_replicate_pass]
    omega
  · simp only [Program.new, List.nil_append, branchPositions_append_pass]

/-- `calculateBranches` on a buffer that holds exactly the encodings of `cs`, with
their positions recorded. -/
theorem Program.calculateBranches_filled (p : Program) (cs : List Call)
    (hprog : p.program = encode cs) (hbytes : p.bytes = encodedSize cs)
    (hbr : p.branches = branchPositions cs 0) :
    ∃ N : Nat,
      match patchCalls (cs.map Call.size) N cs with
      | some cs1 => p.calculateBranches = .ok () { p with program := encode cs1 }
      | none => ∃ s, p.calculateBranches
          = .thrown "instruction offset out of bounds: check your branches" s := by
  obtain ⟨N, hN⟩ := Program.instructionCount_ok p (by rw [hprog, hbytes, encode_length])
  refine ⟨N, ?_⟩
  have h := Program.calculateBranchesLoop_eq (cs.map Call.size) N cs [] p
    (by simpa using hprog) (by simpa using hbytes) rfl
  rw [encodedSize_nil, ← hbr] at h
  unfold Program.calculateBranches
  rw [hN]
  simp only [Res.bind_ok]
  cases hp : patchCalls (cs.map Call.size) N cs with
  | none => rw [hp] at h; simpa using h
  | some cs1 => rw [hp] at h; simpa using h

/-- The main loop of `assemble` over directives does nothing. -/
theorem assembleLoop_directives (marks names : Table) : ∀ (post : List String) (k : Int)
    (p : Program), (∀ l ∈ post, isInstructionLine l = false) →
    assembleLoop marks names post k p = .ok k p := by
  intro post
  induction post with
  | nil => intro k p _; rfl
  | cons l post ih =>
    intro k p h
    have hl := h l (by simp)
    have hd : (str.startswith l ".mark:" || str.startswith l ".name:") = true := by
      rw [isInstructionLine, Bool.not_eq_false'] at hl
      exact hl
    unfold assembleLoop
    simp only [hd, if_true]
    exact ih k p fun l1 h1 => h l1 (by simp [h1])

theorem isDirective_stripped (l : String) (hl : str.lstrip l = l) :
    isDirective l = !isInstructionLine l := by
  simp [isDirective, isInstructionLine, hl]

/-- What the main loop of `assemble` emits over stripped lines that `countBytes`
accepts: a sequence of encoder calls whose sizes, with six bytes for each of
the `d` lines that emit nothing (the `delete` lines), add up to the sum of the
tabulated sizes. -/
theorem assembleLoop_calls (marks names : Table) : ∀ (lines : List String) (k k1 : Int)
    (p p1 : Program), (∀ l ∈ lines, str.lstrip l = l) → (∀ l ∈ lines, ¬ isRejected l) →
    assembleLoop marks names lines k p = .ok k1 p1 →
    ∃ (cs : List Call) (d : Nat), runCalls cs p = .ok () p1 ∧
      sizeSum lines = encodedSize cs + 6 * d ∧
      (lines.filter isInstructionLine).length = cs.length + d ∧
      ((∀ l ∈ lines, str.chunk l ≠ "delete") → d = 0) := by
  intro lines
  induction lines with
  | nil =>
    intro k k1 p p1 _ _ h
    simp only [assembleLoop, Res.ok.injEq] at h
    exact ⟨[], 0, by simp [runCalls, h.2], by simp [sizeSum], by simp, fun _ => rfl⟩
  | cons l lines ih =>
    intro k k1 p p1 hs hr h
    have hsl := hs l (by simp)
    have hs2 : ∀ l1 ∈ lines, str.lstrip l1 = l1 := fun l1 h1 => hs l1 (by simp [h1])
    have hr2 : ∀ l1 ∈ lines, ¬ isRejected l1 := fun l1 h1 => hr l1 (by simp [h1])
    unfold assembleLoop at h
    by_cases hd : (str.startswith l ".mark:" || str.startswith l ".name:") = true
    · simp only [hd, if_true] at h
      obtain ⟨cs, d, h1, h2, h3, h4⟩ := ih k k1 p p1 hs2 hr2 h
      have hi : isInstructionLine l = false := by simp [isInstructionLine, hd]
      have hdir : isDirective l = true := by rw [isDirective_stripped l hsl, hi]; rfl
      refine ⟨cs, d, h1, ?_, ?_, fun hnd => h4 fun l1 hl1 => hnd l1 (by simp [hl1])⟩
      · rw [← h2]
        simp [sizeSum, List.filter_cons, hdir]
      · rw [← h3]
        simp [List.filter_cons, hi]
    · simp only [hd, Bool.false_eq_true, if_false] at h
      obtain ⟨_, p2, ha, hb⟩ := Res.bind_eq_ok _ _ _ _ h
      obtain ⟨cs, d, h1, h2, h3, h4⟩ := ih (k + 1) k1 p2 p1 hs2 hr2 hb
      have hi : isInstructionLine l = true := by simp [isInstructionLine, hd]
      have hdir : isDirective l = false := by rw [isDirective_stripped l hsl, hi]; rfl
      have hnr := hr l (by simp)
      obtain ⟨sz, hsz⟩ : ∃ sz, OP_SIZES (str.chunk l) = some sz := by
        cases hc : OP_SIZES (str.chunk l) with
        | none =>
          exact absurd ⟨hdir, Or.inl (by rw [lineSize, hsl]; exact hc)⟩ hnr
        | some sz => exact ⟨sz, rfl⟩
      have hls : lineSize l = some sz := by rw [lineSize, hsl]; exact hsz
      have hsum : sizeSum (l :: lines) = sz + sizeSum lines := by
        simp [sizeSum, List.filter_cons, hdir, hls]
      have hcnt : ((l :: lines).filter isInstructionLine).length
          = (lines.filter isInstructionLine).length + 1 := by
        simp [List.filter_cons, hi]
      rcases assembleLine_emits p p2 marks names k l sz hsl hsz ha with ⟨htok, h1sz, hp⟩ | ⟨c, hc, hcs, _⟩
      · subst hp
        refine ⟨cs, d + 1, h1, ?_, ?_, fun hnd => absurd htok (hnd l (by simp))⟩
        · rw [hsum, h2, h1sz]; omega
        · rw [hcnt, h3]; omega
      · refine ⟨c :: cs, d, ?_, ?_, ?_, fun hnd => h4 fun l1 hl1 => hnd l1 (by simp [hl1])⟩
        · simp only [runCalls, hc, Res.bind_ok, h1]
        · rw [hsum, h2, encodedSize_cons, hcs]; omega
        · rw [hcnt, h3]; simp; omega

/-- What `assemble` emits for a stripped `branch` line in its short form: a
`branch` whose false target is the instruction counter plus one. -/
theorem assembleLine_short_branch (program p1 : Program) (marks names : Table) (k : Int)
    (line : String) (hl : str.lstrip line = line) (hs : isShortBranch line)
    (h : assembleLine program marks names k line = .ok () p1) :
    ∃ x t, program.branch x t (k + 1) = .ok () p1 := by
  obtain ⟨htok, hshort⟩ := hs
  unfold assembleLine at h
  dsimp only at h
  generalize str.lstrip (str.sub line (str.chunk line).length) = operands at h hshort
  rw [str.startswith_line line "istore" hl (by decide)] at h
  rw [str.startswith_line line "iadd" hl (by decide)] at h
  rw [str.startswith_line line "isub" hl (by decide)] at h
  rw [str.startswith_line line "imul" hl (by decide)] at h
  rw [str.startswith_line line "idiv" hl (by decide)] at h
  rw [str.startswith_line line "igte" hl (by decide)] at h
  rw [str.startswith_line line "igt" hl (by decide)] at h
  rw [str.startswith_line line "ieq" hl (by decide)] at h
  rw [str.startswith_line line "iinc" hl (by decide)] at h
  rw [str.startswith_line line "idec" hl (by decide)] at h
  rw [str.startswith_line line "bstore" hl (by decide)] at h
  rw [str.startswith_line line "not" hl (by decide)] at h
  rw [str.startswith_line line "and" hl (by decide)] at h
  rw [str.startswith_line line "or" hl (by decide)] at h
  rw [str.startswith_line line "move" hl (by decide)] at h
  rw [str.startswith_line line "copy" hl (by decide)] at h
  rw [str.startswith_line line "ref" hl (by decide)] at h
  rw [str.startswith_line line "swap" hl (by decide)] at h
  rw [str.startswith_line line "ret" hl (by decide)] at h
  rw [str.startswith_line line "print" hl (by decide)] at h
  rw [str.startswith_line line "echo" hl (by decide)] at h
  rw [str.startswith_line line "branch" hl (by decide)] at h
  rw [str.startswith_line line "jump" hl (by decide)] at h
  rw [str.startswith_line line "pass" hl (by decide)] at h
  rw [str.startswith_line line "halt" hl (by decide)] at h
  unfold str.startswithchunk at h
  rw [htok] at h
  rw [if_neg (show ¬ (str.startswith "branch" "istore" = true) by decide)] at h
  rw [if_neg (show ¬ (str.startswith "branch" "iadd" = true) by decide)] at h
  rw [if_neg (show ¬ (str.startswith "branch" "isub" = true) by decide)] at h
  rw [if_neg (show ¬ (str.startswith "branch" "imul" = true) by decide)] at h
  rw [if_neg (show ¬ (str.startswith "branch" "idiv" = true) by decide)] at h
  rw [if_neg (show ¬ (decide ("branch" = "ilt") = true) by decide)] at h
  rw [if_neg (show ¬ (decide ("branch" = "ilte") = true) by decide)] at h
  rw [if_neg (show ¬ (str.startswith "branch" "igte" = true) by decide)] at h
  rw [if_neg (show ¬ (str.startswith "branch" "igt" = true) by decide)] at h
  rw [if_neg (show ¬ (str.startswith "branch" "ieq" = true) by decide)] at h
  rw [if_neg (show ¬ (str.startswith "branch" "iinc" = true) by decide)] at h
  rw [if_neg (show ¬ (str.startswith "branch" "idec" = true) by decide)] at h
  rw [if_neg (show ¬ (str.startswith "branch" "bstore" = true) by decide)] at h
  rw [if_neg (show ¬ (str.startswith "branch" "not" = true) by decide)] at h
  rw [if_neg (show ¬ (str.startswith "branch" "and" = true) by decide)] at h
  rw [if_neg (show ¬ (str.startswith "branch" "or" = true) by decide)] at h
  rw [if_neg (show ¬ (str.startswith "branch" "move" = true) by decide)] at h
  rw [if_neg (show ¬ (str.startswith "branch" "copy" = true) by decide)] at h
  rw [if_neg (show ¬ (str.startswith "branch" "ref" = true) by decide)] at h
  rw [if_neg (show ¬ (str.startswith "branch" "swap" = true) by decide)] at h
  rw [if_neg (show ¬ (str.startswith "branch" "ret" = true) by decide)] at h
  rw [if_neg (show ¬ (str.startswith "branch" "print" = true) by decide)] at h
  rw [if_neg (show ¬ (str.startswith "branch" "echo" = true) by decide)] at h
  rw [if_pos (show str.startswith "branch" "branch" = true by decide)] at h
  obtain ⟨t, _, h2⟩ := Res.ofExcept_bind_ok _ _ _ _ _ h
  have hz : ¬ ((get3operands operands false).2.2.length ≠ 0) := by
    rw [hshort]
    decide
  rw [if_neg hz] at h2
  simp only [Res.bind_ok] at h2
  obtain ⟨x, _, h3⟩ := Res.ofExcept_bind_ok _ _ _ _ _ h2
  exact ⟨x, t, h3⟩

theorem sizeSum_append (as bs : List String) : sizeSum (as ++ bs) = sizeSum as + sizeSum bs := by
  simp [sizeSum, List.filter_append]

theorem sizeSum_directives : ∀ (post : List String), (∀ l ∈ post, str.lstrip l = l) →
    (∀ l ∈ post, isInstructionLine l = false) → sizeSum post = 0 := by
  intro post
  induction post with
  | nil => intro _ _; rfl
  | cons l post ih =>
    intro hs h
    have hd : isDirective l = true := by
      rw [isDirective_stripped l (hs l (by simp)), h l (by simp)]
      rfl
    have := ih (fun l1 h1 => hs l1 (by simp [h1])) (fun l1 h1 => h l1 (by simp [h1]))
    simp only [sizeSum, List.filter_cons, hd, Bool.not_true, Bool.false_eq_true, if_false] at this ⊢
    exact this

theorem filter_directives : ∀ (post : List String), (∀ l ∈ post, isInstructionLine l = false) →
    post.filter isInstructionLine = [] := by
  intro post h
  rw [List.filter_eq_nil_iff]
  intro l hl
  rw [h l hl]
  simp

/-- What `countBytes` has checked and computed when it returns. -/
theorem countBytes_ok (lines : List String) (n : Nat) (h : countBytes lines = .ok n) :
    (∀ l ∈ lines, ¬ isRejected l) ∧ n = sizeSum lines % 65536 := by
  obtain ⟨h1, h2⟩ := countBytesLoop_eq lines 0 (by decide)
  have hall : ∀ l ∈ lines, ¬ isRejected l := by
    intro l hl hbad
    obtain ⟨msg, hmsg⟩ := h1 ⟨l, hl, hbad⟩
    unfold countBytes at h
    rw [hmsg] at h
    simp at h
  refine ⟨hall, ?_⟩
  have := h2 hall
  unfold countBytes at h
  rw [this, Nat.zero_add] at h
  simp only [Except.ok.injEq] at h
  exact h.symm

/-- A short-form branch at the end of a program without `delete` lines. For
stripped lines that `countBytes` sizes as `n` and the emit pass of `assemble`
turns into the program `p` in a buffer of `n` bytes, if the last instruction
line is a `branch` with two operands (only directives follow it) and no line
before it is a `delete`, then `p` holds a recorded `BRANCH` whose false target
is the number of instruction lines, and `calculateBranches` raises
"instruction offset out of bounds: check your branches". -/
theorem short_branch_at_end_without_delete (pre post : List String) (line : String) (n : Nat)
    (p : Program)
    (hstrip : ∀ l ∈ pre ++ line :: post, str.lstrip l = l)
    (hnodel : ∀ l ∈ pre, str.chunk l ≠ "delete")
    (hline : isShortBranch line)
    (hpost : ∀ l ∈ post, isInstructionLine l = false)
    (hint : (pre ++ line :: post).length < 2147483647)
    (hcount : countBytes (pre ++ line :: post) = .ok n)
    (hasm : assemble (Program.new n) (pre ++ line :: post) = .ok () p) :
    (∃ b ∈ p.branches, p.program[b]? = some OPCODE.BRANCH.toByte ∧
      Mem.readInt p.program (b + 10)
        = some (((pre ++ line :: post).filter isInstructionLine).length : Int)) ∧
    ∃ s, p.calculateBranches
      = .thrown "instruction offset out of bounds: check your branches" s := by
  have hsl : str.lstrip line = line := hstrip line (by simp)
  have hspre : ∀ l ∈ pre, str.lstrip l = l := fun l hl => hstrip l (by simp [hl])
  have hspost : ∀ l ∈ post, str.lstrip l = l := fun l hl => hstrip l (by simp [hl])
  obtain ⟨hrej, hn⟩ := countBytes_ok _ _ hcount
  have hrpre : ∀ l ∈ pre, ¬ isRejected l := fun l hl => hrej l (by simp [hl])
  -- the line is an instruction line
  have hmark : str.startswith line ".mark:" = false := by
    rw [str.startswith_line line ".mark:" hsl (by decide), hline.1]
    decide
  have hname : str.startswith line ".name:" = false := by
    rw [str.startswith_line line ".name:" hsl (by decide), hline.1]
    decide
  have hinstr : isInstructionLine line = true := by simp [isInstructionLine, hmark, hname]
  have hdirl : isDirective line = false := by rw [isDirective_stripped line hsl, hinstr]; rfl
  have hlsz : lineSize line = some 14 := by rw [lineSize, hsl, hline.1]; rfl
  -- the run of assemble
  unfold assemble at hasm
  obtain ⟨names, _, hasm⟩ := Res.ofExcept_bind_ok _ _ _ _ _ hasm
  obtain ⟨k1, p', hloop, hp'⟩ := Res.bind_eq_ok _ _ _ _ hasm
  simp only [Res.ok.injEq, true_and] at hp'
  subst hp'
  rw [assembleLoop_append] at hloop
  obtain ⟨ka, pa, hpre, hrest⟩ := Res.bind_eq_ok _ _ _ _ hloop
  unfold assembleLoop at hrest
  simp only [hmark, hname, Bool.or_self, Bool.false_eq_true, if_false] at hrest
  obtain ⟨_, pb, hbr, hpostrun⟩ := Res.bind_eq_ok _ _ _ _ hrest
  rw [assembleLoop_directives _ _ post _ _ hpost] at hpostrun
  simp only [Res.ok.injEq] at hpostrun
  obtain ⟨_, hpb⟩ := hpostrun
  subst hpb
  have hka := assembleLoop_counter _ _ pre 0 ka _ _ hpre
  rw [zero_add] at hka
  obtain ⟨csa, d, hruna, hsuma6, hcnta, hd0⟩ := assembleLoop_calls _ _ pre 0 ka _ _ hspre hrpre hpre
  have hd : d = 0 := hd0 hnodel
  have hsuma : sizeSum pre = encodedSize csa + d := by omega
  obtain ⟨x, t, hbranch⟩ := assembleLine_short_branch _ _ _ _ _ line hsl hline hbr
  have hrun : runCalls (csa ++ [Call.branch x t (ka + 1)]) (Program.new n) = .ok () pb := by
    rw [runCalls_append, hruna]
    simp only [Res.bind_ok, runCalls]
    show (pa.branch x t (ka + 1)).bind _ = _
    rw [hbranch]
    rfl
  obtain ⟨hE, hprog, hbytes, hbrs⟩ := runCalls_new _ _ _ hrun
  -- sizes and counts
  have hsum : sizeSum (pre ++ line :: post) = encodedSize csa + d + 14 := by
    rw [sizeSum_append, show line :: post = [line] ++ post from rfl, sizeSum_append,
      sizeSum_directives post hspost hpost, hsuma]
    simp [sizeSum, hdirl, hlsz]
  have hcnt : ((pre ++ line :: post).filter isInstructionLine).length = csa.length + d + 1 := by
    rw [List.filter_append, List.filter_cons, hinstr, if_pos rfl, filter_directives post hpost,
      List.length_append, hcnta]
    simp
  have hEq : encodedSize (csa ++ [Call.branch x t (ka + 1)]) = encodedSize csa + 14 := by
    rw [encodedSize_append]
    rfl
  have hnle : n ≤ encodedSize csa + d + 14 := by
    rw [hn, hsum]
    exact Nat.mod_le _ _
  have hkaN : ka + 1 = ((csa.length + d + 1 : Nat) : Int) := by
    rw [hka, hcnta]
    push_cast
    ring
  have hlenle : ((pre ++ line :: post).filter isInstructionLine).length
      ≤ (pre ++ line :: post).length := List.length_filter_le _ _
  generalize hcs' : csa ++ [Call.branch x t (ka + 1)]
    ++ List.replicate (n - encodedSize (csa ++ [Call.branch x t (ka + 1)])) Call.pass = cs'
    at hprog hbytes hbrs
  have hget : cs'[csa.length]? = some (Call.branch x t (ka + 1)) := by
    rw [← hcs', List.append_assoc, List.getElem?_append_right (Nat.le_refl _)]
    simp
  have hlen' : cs'.length ≤ csa.length + d + 1 := by
    rw [← hcs']
    simp only [List.length_append, List.length_singleton, List.length_replicate, hEq]
    omega
  refine ⟨⟨offsetOf cs' csa.length, ?_, ?_, ?_⟩, ?_⟩
  · rw [hbrs]
    have := branchPositions_mem cs' 0 csa.length _ hget rfl
    rw [Nat.zero_add] at this
    exact this
  · rw [hprog]
    exact encode_tag cs' csa.length _ hget
  · rw [hprog, hcnt, ← hkaN]
    have := Mem.readInt_instruction cs' csa.length _ hget
      (OPCODE.BRANCH.toByte :: intOpBytes x ++ intBytes t) [] (ka + 1) (by simp [Call.bytes])
    rw [toInt32_of_range _ (by omega) (by omega)] at this
    exact this
  · obtain ⟨N, hN⟩ := Program.calculateBranches_filled pb cs' hprog hbytes hbrs
    have hmem : Call.branch x t (ka + 1) ∈ cs' := List.getElem?_mem hget
    rw [patchCalls_none_of_mem _ _ cs' _ hmem (by
      simp only [patchCall, resolveTarget_of_past cs' N (ka + 1) (by omega) (by omega)]
      cases resolveTarget (List.map Call.size cs') N t <;> rfl)] at hN
    exact hN

/-- C34 fails on the code after a `delete` line: in `delete 1 ; branch 1 0` the
last instruction is a short-form branch, `countBytes` sizes the buffer at 20
bytes and `assemble` emits the branch with the false target 2, the number of
instructions. But `assemble` emits nothing for the `delete`, whose six bytes
stay `PASS` fillers, so the walk of `calculateBranches` finds an instruction
of index 2 at offset 15: it patches the false target to 15 and raises
nothing. Without the `delete` line the same branch makes `calculateBranches`
raise. -/
theorem C34_short_branch_at_end_after_delete :
    countBytes ["delete 1", "branch 1 0"] = .ok 20 ∧
    (["delete 1", "branch 1 0"].filter isInstructionLine).length = 2 ∧
    isShortBranch "branch 1 0" ∧
    (∃ p p2, assemble (Program.new 20) ["delete 1", "branch 1 0"] = .ok () p ∧
      p.program[0]? = some OPCODE.BRANCH.toByte ∧ p.branches = [0] ∧
      Mem.readInt p.program 10 = some 2 ∧
      p.calculateBranches = .ok () p2 ∧ Mem.readInt p2.program 10 = some 15 ∧
      p2.program[15]? = some OPCODE.PASS.toByte) ∧
    countBytes ["branch 1 0"] = .ok 14 ∧
    ∃ p s, assemble (Program.new 14) ["branch 1 0"] = .ok () p ∧
      p.calculateBranches
        = .thrown "instruction offset out of bounds: check your branches" s :=
  ⟨rfl, by decide, by decide, ⟨_, _, rfl, rfl, rfl, rfl, rfl, rfl, rfl⟩, rfl, _, _, rfl, rfl⟩

/-- C31 fails on the code: `instructionCount` steps over `sizeof(int)` bytes per
operand and not over the operand flag bytes, and has no case for several
opcodes, so it counts operand bytes as instructions. The buffer exactly filled
by the one call `istore(1, 3)` (11 bytes) is counted as 2 instructions, the
three calls `istore(1, 42)`, `print(1)`, `halt()` as 2, and the two calls
`move(1, 2)`, `halt()` as 3. -/
theorem C31_instructionCount_miscounts :
    (∃ p, build [Call.istore (false, 1) (false, 3)] = .ok () p ∧
      p.program = [0, 0, 1, 0, 0, 0, 0, 3, 0, 0, 0] ∧ p.bytes = 11 ∧
      p.instructionCount = .ok 2 p) ∧
    (∃ p, build [Call.istore (false, 1) (false, 42), Call.print (false, 1), Call.halt] = .ok () p ∧
      p.bytes = 18 ∧ p.instructionCount = .ok 2 p) ∧
    (∃ p, build [Call.move (false, 1) (false, 2), Call.halt] = .ok () p ∧
      p.bytes = 12 ∧ p.instructionCount = .ok 3 p) :=
  ⟨⟨_, rfl, rfl, rfl, rfl⟩, ⟨_, rfl, rfl, rfl⟩, ⟨_, rfl, rfl, rfl⟩⟩

/-- C35 fails on the code: with 16 registers, `fetch(-1)` and `place(-1, obj)`
pass the only check, `index >= reg_count`, and go on to `registers[-1]`, an
access outside the register array (undefined behaviour); the index 16 is
rejected with the out-of-bounds error. -/
theorem C35_negative_index_unchecked :
    (CPU.fresh 16 []).reg_count = 16 ∧
    (CPU.fresh 16 []).fetch (-1) = .undefined ∧
    (CPU.fresh 16 []).place (-1) 7 = .undefined ∧
    (CPU.fresh 16 []).fetch 16 = .thrown "register access out of bounds: read" (CPU.fresh 16 []) :=
  ⟨rfl, rfl, rfl, rfl⟩

/-- C36 at the sample program: `calculateBranches` returns, the recorded
positions are 11 (a `JUMP`) and 16 (a `BRANCH`), the buffer does change, and
only inside the address operands. -/
theorem C36_calculateBranches_frame_witness :
    ∃ p p1, build sampleCalls = .ok () p ∧ p.calculateBranches = .ok () p1 ∧
      p1.bytes = p.bytes ∧ p1.branches = p.branches ∧ p1.addr_ptr = p.addr_ptr ∧
      p1.program.length = p.program.length ∧
      (∀ q, p1.program[q]? ≠ p.program[q]? →
        ∃ b ∈ p.branches,
          (p.program[b]? = some OPCODE.JUMP.toByte ∧ b + 1 ≤ q ∧ q ≤ b + 4) ∨
          (p.program[b]? = some OPCODE.BRANCH.toByte ∧ b + 6 ≤ q ∧ q ≤ b + 13)) ∧
      (∀ (j : Nat) (c : Call), sampleCalls[j]? = some c →
        p1.program[offsetOf sampleCalls j]? = some c.opcode.toByte) ∧
      p.branches = [11, 16] ∧ p1.program ≠ p.program := by
  obtain ⟨p, hb, h⟩ := C36_calculateBranches_frame sampleCalls
  have e : build sampleCalls = .ok () (Program.mk
      [0, 0, 1, 0, 0, 0, 0, 3, 0, 0, 0, 23, 3, 0, 0, 0, 24, 0, 2, 0, 0, 0, 0, 0, 0, 0, 1, 0, 0, 0, 26]
      31 31 [11, 16]) := rfl
  rw [e] at hb
  simp only [Res.ok.injEq, true_and] at hb
  subst hb
  refine ⟨_, _, e, rfl, ?_⟩
  obtain ⟨h1, h2, h3, h4, h5, h6⟩ := h _ rfl
  exact ⟨h1, h2, h3, h4, h5, h6, rfl, by decide⟩

end Wudoo
